import Mathlib

/-!
Verification development for the type-collection phase
(`src/librustc/middle/typeck/collect.rs`).

The development shallowly embeds the data model (`ty.rs` values as used by
the collect phase), the mutable tables of the type context (`tcx`) as an
explicit state record, and the collection functions themselves, translated
function-by-function from the source.  External collaborators whose sources
are not part of the repository snapshot (astconv, resolution, the AST
definitions) are modelled from the specification where noted.

Conventions:
 - `HashMap` tables are modelled as association lists where insertion
   prepends and lookup returns the most recent binding; this realizes the
   overwrite-on-insert semantics of `HashMap::insert`.
 - Diagnostics are recorded as abstract events: `errs` (span_err), `notes`
   (span_note), `fatals` (span_fatal), `bugs` (span_bug / fail! / assert!).
   A `bug`/`fatal` aborts the real compiler; here it is recorded and the
   theorems only visit states where no such event fires.
-/

/-- `ast::DefId` — a crate tag plus a node id (`krate`, `node`). -/
structure DefId where
  krate : Nat
  node : Nat
deriving DecidableEq, Repr

/-- `ast_util::local_def` — wraps a node id into a `DefId` of the local crate
(`LOCAL_CRATE = 0`). -/
def local_def (id : Nat) : DefId := ⟨0, id⟩

/-- The `dummy_defid` used by `make_static_method_ty`
(`ast::DefId ⟨krate: 0, node: 0⟩`). -/
def dummy_defid : DefId := ⟨0, 0⟩

/-- `ty::Region`, restricted to the variants the collect phase creates:
early-bound region parameters (`ReEarlyBound(node, index, name)`) and a
late-bound marker. -/
inductive Region where
  | ReEarlyBound (node : Nat) (index : Nat) (name : Nat)
  | ReLateBound (binderId : Nat) (name : Nat)
deriving DecidableEq, Repr

/-- The region part of a `ty::substs`
(`NonerasedRegions(..) | ErasedRegions`). -/
inductive RegionSubsts where
  | ErasedRegions
  | NonerasedRegions (regions : List Region)
deriving DecidableEq, Repr

/-- `ty::BuiltinBound` — the closed set of built-in capability bounds. -/
inductive BuiltinBound where
  | BoundStatic
  | BoundSend
  | BoundSized
  | BoundCopy
  | BoundShare
deriving DecidableEq, Repr

/-- `ty::BuiltinBounds` — a set of built-in bounds (an `EnumSet` bitset in
the source), modelled as one flag per member. -/
structure BuiltinBounds where
  static : Bool
  send : Bool
  sized : Bool
  copy : Bool
  share : Bool
deriving DecidableEq, Repr

/-- `ty::EmptyBuiltinBounds()`. -/
def EmptyBuiltinBounds : BuiltinBounds := ⟨false, false, false, false, false⟩

/-- `BuiltinBounds::add`. -/
def BuiltinBounds.add (bs : BuiltinBounds) : BuiltinBound → BuiltinBounds
  | .BoundStatic => { bs with static := true }
  | .BoundSend => { bs with send := true }
  | .BoundSized => { bs with sized := true }
  | .BoundCopy => { bs with copy := true }
  | .BoundShare => { bs with share := true }

mutual
/-- `ty::t` / `ty::sty` — the interned type representation, restricted to the
variants the collect phase builds or inspects.  Structural equality of these
values models interned-handle equality.  A nominal type carries its
`ty::substs` inline (`regions`, `selfArg`, `tps`).  `bareFn` carries the
binder id and the signature inputs/output (`abi`/`fn_style`/`variadic` play
no part in any claim and are omitted). -/
inductive Ty where
  | prim (code : Nat)
  | ty_param (idx : Nat) (defId : DefId)
  | ty_self (defId : DefId)
  | ty_enum (defId : DefId) (regions : RegionSubsts) (selfArg : OptTy) (tps : TyList)
  | ty_struct (defId : DefId) (regions : RegionSubsts) (selfArg : OptTy) (tps : TyList)
  | ty_uniq (t : Ty)
  | ty_bare_fn (binderId : Nat) (inputs : TyList) (output : Ty)
  | ty_err
deriving DecidableEq

/-- `Option<ty::t>` inside the mutual block. -/
inductive OptTy where
  | none
  | some (t : Ty)
deriving DecidableEq

/-- A list of `ty::t` inside the mutual block. -/
inductive TyList where
  | nil
  | cons (head : Ty) (tail : TyList)
deriving DecidableEq
end

/-- Conversion from an ordinary list of types. -/
def TyList.ofList : List Ty → TyList
  | [] => .nil
  | t :: ts => .cons t (TyList.ofList ts)

/-- Positional access with a default (mirrors slice indexing in the source,
which can never be out of range there). -/
def TyList.getD : TyList → Nat → Ty → Ty
  | .nil, _, d => d
  | .cons t _, 0, _ => t
  | .cons _ ts, n+1, d => ts.getD n d

/-- Length of a `TyList`. -/
def TyList.length : TyList → Nat
  | .nil => 0
  | .cons _ ts => ts.length + 1

/-- `ty::substs` — a positional substitution: region values, an optional
receiver (`Self`) type, and the type parameter values. -/
structure substs where
  regions : RegionSubsts
  self_ty : OptTy
  tps : TyList
deriving DecidableEq

/-- `ty::TraitRef` — a trait id together with the substitution that
instantiates the trait's generics. -/
structure TraitRef where
  def_id : DefId
  substs : substs
deriving DecidableEq

/-- `ty::ParamBounds` — built-in capability bounds plus the ordered list of
user trait bounds of one type parameter. -/
structure ParamBounds where
  builtin_bounds : BuiltinBounds
  trait_bounds : List TraitRef
deriving DecidableEq

/-- `ty::TypeParameterDef` — note that in this source the definition carries
no index field; the index assigned by the generics builder appears in the
`param_ty` used for its bounds and default validation. -/
structure TypeParameterDef where
  ident : Nat
  def_id : DefId
  bounds : ParamBounds
  default : OptTy
deriving DecidableEq

/-- `ty::RegionParameterDef`. -/
structure RegionParameterDef where
  name : Nat
  def_id : DefId
deriving DecidableEq

/-- `ty::Generics` — ordered type parameter definitions plus ordered region
parameter definitions. -/
structure Generics where
  type_param_defs : List TypeParameterDef
  region_param_defs : List RegionParameterDef
deriving DecidableEq

/-- `ty::ty_param_bounds_and_ty` — the polytype cached per item. -/
structure ty_param_bounds_and_ty where
  generics : Generics
  ty : Ty
deriving DecidableEq

/-- `ty::TraitDef`. -/
structure TraitDef where
  generics : Generics
  bounds : BuiltinBounds
  trait_ref : TraitRef
deriving DecidableEq

/-- `ty::param_ty` — an index/def-id pair naming one type parameter. -/
structure param_ty where
  idx : Nat
  def_id : DefId
deriving DecidableEq

/-- `typeck::no_params` — a polytype with empty generics. -/
def no_params (ty : Ty) : ty_param_bounds_and_ty := ⟨⟨[], []⟩, ty⟩

/-- `ty::mk_param`. -/
def mk_param (idx : Nat) (defId : DefId) : Ty := .ty_param idx defId

/-- `ty::mk_self`. -/
def mk_self (defId : DefId) : Ty := .ty_self defId

/-- `ty::mk_enum`. -/
def mk_enum (defId : DefId) (s : substs) : Ty :=
  .ty_enum defId s.regions s.self_ty s.tps

/-- `ty::mk_struct`. -/
def mk_struct (defId : DefId) (s : substs) : Ty :=
  .ty_struct defId s.regions s.self_ty s.tps

/-- `ty::mk_ctor_fn` — the constructor function type from the given inputs to
the given output, with the constructor's node id as binder. -/
def mk_ctor_fn (scope : Nat) (inputs : List Ty) (output : Ty) : Ty :=
  .ty_bare_fn scope (TyList.ofList inputs) output

/-- Substitution of one region value: an early-bound region is replaced
positionally by the substitution's region at its index (under
`NonerasedRegions`); other regions are untouched. -/
def subst_region (s : substs) (r : Region) : Region :=
  match s.regions with
  | .ErasedRegions => r
  | .NonerasedRegions rs =>
      match r with
      | .ReEarlyBound _ index _ => rs.getD index r
      | .ReLateBound b n => .ReLateBound b n

/-- Substitution lifted to the region part of a nested `substs`. -/
def subst_region_substs (s : substs) : RegionSubsts → RegionSubsts
  | .ErasedRegions => .ErasedRegions
  | .NonerasedRegions rs => .NonerasedRegions (rs.map (subst_region s))

mutual
/-- `ty::subst` on types: a `ty_param` is replaced by the substitution's
type value at its index, `ty_self` by the substitution's `self_ty`; other
forms are rewritten structurally.  An index outside the substitution is a
contract violation in the source (it aborts); it is mapped to `ty_err`
here and never arises in the theorems below. -/
def subst_ty (s : substs) : Ty → Ty
  | .prim c => .prim c
  | .ty_param idx _ => s.tps.getD idx Ty.ty_err
  | .ty_self _ => match s.self_ty with | .none => Ty.ty_err | .some t => t
  | .ty_enum d rs sa tps =>
      .ty_enum d (subst_region_substs s rs) (subst_opt_ty s sa) (subst_ty_list s tps)
  | .ty_struct d rs sa tps =>
      .ty_struct d (subst_region_substs s rs) (subst_opt_ty s sa) (subst_ty_list s tps)
  | .ty_uniq t => .ty_uniq (subst_ty s t)
  | .ty_bare_fn b ins out => .ty_bare_fn b (subst_ty_list s ins) (subst_ty s out)
  | .ty_err => .ty_err

/-- `ty::subst` on an optional type. -/
def subst_opt_ty (s : substs) : OptTy → OptTy
  | .none => .none
  | .some t => .some (subst_ty s t)

/-- `ty::subst` on a list of types. -/
def subst_ty_list (s : substs) : TyList → TyList
  | .nil => .nil
  | .cons t ts => .cons (subst_ty s t) (subst_ty_list s ts)
end

/-- `ty::subst` on a nested `substs` (used when substituting a trait
reference). -/
def subst_substs (s : substs) (target : substs) : substs :=
  ⟨subst_region_substs s target.regions,
   subst_opt_ty s target.self_ty,
   subst_ty_list s target.tps⟩

/-- `TraitRef::subst`. -/
def subst_trait_ref (s : substs) (tr : TraitRef) : TraitRef :=
  ⟨tr.def_id, subst_substs s tr.substs⟩

/-- `ParamBounds::subst` — built-in bounds are untouched, trait bounds are
substituted pointwise. -/
def subst_param_bounds (s : substs) (pb : ParamBounds) : ParamBounds :=
  ⟨pb.builtin_bounds, pb.trait_bounds.map (subst_trait_ref s)⟩

/-- `TypeParameterDef::subst` — substitutes the bounds and the default. -/
def subst_type_param_def (s : substs) (d : TypeParameterDef) : TypeParameterDef :=
  ⟨d.ident, d.def_id, subst_param_bounds s d.bounds, subst_opt_ty s d.default⟩

/-- Substitution over a list of type parameter definitions
(`type_param_defs.subst`). -/
def subst_type_param_defs (s : substs) (ds : List TypeParameterDef) : List TypeParameterDef :=
  ds.map (subst_type_param_def s)

mutual
/-- All `param_ty` occurrences of a type, in visit order — the footprint of
`ty::walk_ty` as used by the default-validation check. -/
def walk_params : Ty → List param_ty
  | .prim _ => []
  | .ty_param idx d => [⟨idx, d⟩]
  | .ty_self _ => []
  | .ty_enum _ _ sa tps => walk_params_opt sa ++ walk_params_list tps
  | .ty_struct _ _ sa tps => walk_params_opt sa ++ walk_params_list tps
  | .ty_uniq t => walk_params t
  | .ty_bare_fn _ ins out => walk_params_list ins ++ walk_params out
  | .ty_err => []

def walk_params_opt : OptTy → List param_ty
  | .none => []
  | .some t => walk_params t

def walk_params_list : TyList → List param_ty
  | .nil => []
  | .cons t ts => walk_params t ++ walk_params_list ts
end

/-! ## AST model

The AST (`syntax::ast`) is an external collaborator: its sources are not part
of this repository snapshot, so the fragment below is modelled from the spec
("read-only tree of items ... with a stable per-node identity; already
validated"), with name resolution pre-applied where the collect phase would
consult the resolution maps. -/

/-- `ast::Visibility`. -/
inductive Visibility where
  | Public
  | Private
  | Inherited
deriving DecidableEq, Repr

/-- Modelled from the spec: `ast::Visibility::inherit_from` (ast.rs is not in
the sources) — "inheriting method visibility from the impl's own visibility
unless a method overrides it": an `Inherited` visibility takes the parent's
value, an explicit one wins. -/
def Visibility.inherit_from (v parent : Visibility) : Visibility :=
  match v with
  | .Inherited => parent
  | .Public => .Public
  | .Private => .Private

/-- `ast::ExplicitSelf_` — the receiver mode of a method. -/
inductive ExplicitSelf where
  | SelfStatic
  | SelfValue
  | SelfRegion
  | SelfUniq
deriving DecidableEq, Repr

/-- `ty::MethodContainer`. -/
inductive MethodContainer where
  | TraitContainer (defId : DefId)
  | ImplContainer (defId : DefId)
deriving DecidableEq, Repr

/-- The function signature part of a method/function type as built by
astconv (`ty::BareFnTy`, keeping the fields the claims observe). -/
structure BareFnTy where
  binder_id : Nat
  inputs : TyList
  output : Ty
deriving DecidableEq

/-- `ty::mk_bare_fn`. -/
def mk_bare_fn (fty : BareFnTy) : Ty :=
  .ty_bare_fn fty.binder_id fty.inputs fty.output

/-- `ty::Method` (`Method::new` fields in order: ident, generics, fty,
explicit_self, vis, def_id, container, provided_source). -/
structure Method where
  ident : Nat
  generics : Generics
  fty : BareFnTy
  explicit_self : ExplicitSelf
  vis : Visibility
  def_id : DefId
  container : MethodContainer
  provided_source : Option DefId
deriving DecidableEq

/-- `ty::field_ty`. -/
structure field_ty where
  name : Nat
  id : DefId
  vis : Visibility
  origin : DefId
deriving DecidableEq

/-- The interned name of `special_idents::unnamed_field`. -/
def unnamed_field_name : Nat := 0

/-- The interned name of `special_idents::self_` (the synthetic `Self`
parameter's ident in the static-method transform). -/
def self_ident : Nat := 1

/-- Surface types, resolution pre-applied: a path that names a type
parameter carries the parameter's index and def-id, `Self` carries the
enclosing trait's def-id, and a nominal path carries its path node id (its
resolution is looked up in the definition map, as the superstruct check
does).  `uniq` is the owned-box type former, giving the translation a
structural case. -/
inductive AstTy where
  | prim (code : Nat)
  | paramRef (idx : Nat) (defId : DefId)
  | selfRef (defId : DefId)
  | path (pathId : Nat)
  | uniq (t : AstTy)
deriving DecidableEq, Repr

/-- A resolved definition from the resolution map (`def_map`), restricted to
what the collect phase distinguishes. -/
inductive AstDef where
  | DefStruct (defId : DefId)
  | DefTrait (defId : DefId)
  | DefOther
deriving DecidableEq, Repr

/-- `ast::Lifetime`. -/
structure AstLifetime where
  name : Nat
  id : Nat
deriving DecidableEq, Repr

/-- `ast::TraitRef` — a trait path (resolution of `ref_id` goes through the
definition map) with its type arguments. -/
structure AstTraitRef where
  ref_id : Nat
  args : List AstTy
deriving DecidableEq, Repr

/-- `ast::TyParamBound`. -/
inductive AstTyParamBound where
  | TraitTyParamBound (r : AstTraitRef)
  | RegionTyParamBound
deriving DecidableEq, Repr

/-- `ast::TyParam` — a surface type parameter with bound clauses and an
optional default. -/
structure AstTyParam where
  ident : Nat
  id : Nat
  bounds : List AstTyParamBound
  default : Option AstTy
deriving DecidableEq, Repr

/-- `ast::Generics`. -/
structure AstGenerics where
  lifetimes : List AstLifetime
  ty_params : List AstTyParam
deriving DecidableEq, Repr

/-- `ast::FnDecl` (inputs and output; patterns are only inspected for
foreign items, which no claim covers). -/
structure FnDecl where
  inputs : List AstTy
  output : AstTy
deriving DecidableEq, Repr

/-- `ast::StructFieldKind`. -/
inductive AstStructFieldKind where
  | NamedField (ident : Nat) (vis : Visibility)
  | UnnamedField (vis : Visibility)
deriving DecidableEq, Repr

/-- `StructFieldKind::is_unnamed`. -/
def AstStructFieldKind.is_unnamed : AstStructFieldKind → Bool
  | .NamedField _ _ => false
  | .UnnamedField _ => true

/-- `ast::StructField` (the `node` part: id, kind, type). -/
structure AstStructField where
  id : Nat
  kind : AstStructFieldKind
  ty : AstTy
deriving DecidableEq, Repr

/-- `ast::StructDef`. -/
structure AstStructDef where
  fields : List AstStructField
  ctor_id : Option Nat
  super_struct : Option AstTy
  is_virtual : Bool
deriving DecidableEq, Repr

/-- `ast::VariantArg`. -/
structure AstVariantArg where
  ty : AstTy
  id : Nat
deriving DecidableEq, Repr

/-- `ast::VariantKind`. -/
inductive AstVariantKind where
  | TupleVariantKind (args : List AstVariantArg)
  | StructVariantKind (sd : AstStructDef)
deriving DecidableEq, Repr

/-- `ast::Variant` (the `node` part: id and kind). -/
structure AstVariant where
  id : Nat
  kind : AstVariantKind
deriving DecidableEq, Repr

/-- `ast::Method` — a method with a body (impl methods, provided trait
methods). -/
structure AstMethod where
  ident : Nat
  id : Nat
  generics : AstGenerics
  explicit_self : ExplicitSelf
  decl : FnDecl
  vis : Visibility
deriving DecidableEq, Repr

/-- `ast::TypeMethod` — a required (body-less) trait method. -/
structure AstTypeMethod where
  ident : Nat
  id : Nat
  generics : AstGenerics
  explicit_self : ExplicitSelf
  decl : FnDecl
deriving DecidableEq, Repr

/-- `ast::TraitMethod`. -/
inductive AstTraitMethod where
  | Required (m : AstTypeMethod)
  | Provided (m : AstMethod)
deriving DecidableEq, Repr

/-- `ast_util::split_trait_methods` — the provided (with-body) methods of a
trait, in order. -/
def split_trait_methods_provided : List AstTraitMethod → List AstMethod
  | [] => []
  | .Required _ :: ms => split_trait_methods_provided ms
  | .Provided m :: ms => m :: split_trait_methods_provided ms

/-- `abi::Abi`, restricted to what `ensure_generics_abi` distinguishes. -/
inductive Abi where
  | Rust
  | RustIntrinsic
  | C
deriving DecidableEq, Repr

/-- `ast::Item_`, restricted to the kinds `convert` dispatches on.
`ItemMod` stands for the kinds that define no types
(mod / foreign mod / macro). -/
inductive AstItemKind where
  | ItemStatic (t : AstTy)
  | ItemFn (decl : FnDecl) (abi : Abi) (generics : AstGenerics)
  | ItemTy (t : AstTy) (generics : AstGenerics)
  | ItemEnum (variants : List AstVariant) (generics : AstGenerics)
  | ItemStruct (sd : AstStructDef) (generics : AstGenerics)
  | ItemTrait (generics : AstGenerics) (supertraits : List AstTraitRef)
      (methods : List AstTraitMethod)
  | ItemImpl (generics : AstGenerics) (opt_trait_ref : Option AstTraitRef)
      (self_ty : AstTy) (methods : List AstMethod)
  | ItemMod
deriving DecidableEq, Repr

/-- `ast::Item`. -/
structure AstItem where
  id : Nat
  ident : Nat
  vis : Visibility
  node : AstItemKind
deriving DecidableEq, Repr

/-- The read-only collaborators of the crate context: the builtin-kind
classification of the language items (`lang_items.to_builtin_kind`), the
resolution map (`def_map`), and the AST map (`tcx.map`). -/
structure Env where
  builtinKind : DefId → Option BuiltinBound
  defMap : Nat → Option AstDef
  astMap : Nat → Option AstItem

/-! ## State: the mutable tables of the type context -/

/-- The `thing` argument of `ensure_no_ty_param_bounds`
("enumeration" / "structure" / "type"). -/
inductive BoundsThing where
  | enumeration
  | structureKind
  | typeKind
deriving DecidableEq, Repr

/-- An event reported through the diagnostics sink (`span_err`), identified
by which report site fired. -/
inductive ErrKind where
  | duplicateSupertrait
  | fieldAlreadyDeclared (name : Nat)
  | traitBoundsNotAllowed (thing : BoundsThing)
  | forwardDeclaredDefault
  | structInheritanceNonVirtual
  | duplicateMethod
  | explicitBuiltinImpl
  | foreignFnTyParams
deriving DecidableEq, Repr

/-- First-match lookup in an association list. -/
def lookupA {α β : Type} [DecidableEq α] : List (α × β) → α → Option β
  | [], _ => none
  | (k, v) :: rest, k' => if k' = k then some v else lookupA rest k'

/-- Insertion into an association list: the new binding is prepended and
shadows any previous binding of the same key, realizing the
overwrite-on-insert semantics of `HashMap::insert`. -/
def insertA {α β : Type} (l : List (α × β)) (k : α) (v : β) : List (α × β) :=
  (k, v) :: l

/-- `HashMap::contains_key`. -/
def containsA {α β : Type} [DecidableEq α] (l : List (α × β)) (k : α) : Bool :=
  (lookupA l k).isSome

/-- The mutable tables of `ty::ctxt` that the collect phase reads and
writes, together with the diagnostics event log. -/
structure Tcx where
  tcache : List (DefId × ty_param_bounds_and_ty)
  ty_param_defs : List (Nat × TypeParameterDef)
  node_types : List (Nat × Ty)
  struct_fields : List (DefId × List field_ty)
  superstructs : List (DefId × Option DefId)
  supertraits : List (DefId × List TraitRef)
  trait_defs : List (DefId × TraitDef)
  methods : List (DefId × Method)
  trait_method_def_ids : List (DefId × List DefId)
  trait_refs : List (Nat × TraitRef)
  errs : List ErrKind
  notes : Nat
  fatals : Nat
  bugs : Nat
deriving DecidableEq

/-- The tables at the start of a compilation. -/
def emptyTcx : Tcx := ⟨[], [], [], [], [], [], [], [], [], [], [], 0, 0, 0⟩

/-- `typeck::write_ty_to_tcx` — record a node's type in the node-type
table. -/
def write_ty_to_tcx (tcx : Tcx) (id : Nat) (ty : Ty) : Tcx :=
  { tcx with node_types := insertA tcx.node_types id ty }

/-- `ty::node_id_to_type`.  A missing entry aborts the real compiler; it is
mapped to `ty_err` here and never arises in the theorems below. -/
def node_id_to_type (tcx : Tcx) (id : Nat) : Ty :=
  (lookupA tcx.node_types id).getD .ty_err

/-- Modelled from the spec: `astconv::ast_ty_to_ty` (astconv.rs is not in
the sources) — "compute the declared type by translating the surface type
expression through the Interned Type Store", with name resolution
pre-applied on the surface tree.  A nominal path resolves through the
definition map. -/
def ast_ty_to_ty (env : Env) : AstTy → Ty
  | .prim c => .prim c
  | .paramRef idx d => mk_param idx d
  | .selfRef d => mk_self d
  | .path pid =>
      match env.defMap pid with
      | some (.DefStruct d) => mk_struct d ⟨.NonerasedRegions [], .none, .nil⟩
      | _ => .ty_err
  | .uniq t => .ty_uniq (ast_ty_to_ty env t)

/-- `collect::instantiate_trait_ref` — instantiate a surface trait
reference against a self type and record it in the trait-reference table.
The path instantiation (`astconv::ast_path_to_trait_ref`, not in the
sources) is modelled from the spec: the trait reference carries the
resolved trait id and a substitution of the translated path arguments with
the given self type.  The `span_fatal` on a non-trait resolution is
recorded as a fatal event with a placeholder result (the real compiler
aborts there). -/
def instantiate_trait_ref (env : Env) (tcx : Tcx) (r : AstTraitRef) (self_ty : Ty) :
    Tcx × TraitRef :=
  match env.defMap r.ref_id with
  | some (.DefTrait did) =>
      let trait_ref : TraitRef :=
        ⟨did, ⟨.NonerasedRegions [], .some self_ty,
               TyList.ofList (r.args.map (ast_ty_to_ty env))⟩⟩
      ({ tcx with trait_refs := insertA tcx.trait_refs r.ref_id trait_ref }, trait_ref)
  | _ =>
      ({ tcx with fatals := tcx.fatals + 1 },
       ⟨dummy_defid, ⟨.NonerasedRegions [], .some self_ty, .nil⟩⟩)

/-- `ty::trait_ref_to_def_id` — resolution of a surface trait reference to
its trait's def id through the definition map (`none` models the
cannot-happen non-trait case, which aborts the real compiler). -/
def trait_ref_to_def_id (env : Env) (r : AstTraitRef) : Option DefId :=
  match env.defMap r.ref_id with
  | some (.DefTrait did) => some did
  | _ => none

/-- `ty::try_add_builtin_trait` — if the def id names a built-in kind trait
it is added to the capability set and `true` is returned; otherwise the set
is unchanged and `false` is returned. -/
def try_add_builtin_trait (env : Env) (def_id : DefId) (bounds : BuiltinBounds) :
    BuiltinBounds × Bool :=
  match env.builtinKind def_id with
  | some b => (bounds.add b, true)
  | none => (bounds, false)

/-- The loop of `collect::compute_bounds`: classify each surface bound as a
built-in capability or a user trait bound. -/
def compute_bounds_loop (env : Env) :
    Tcx → param_ty → ParamBounds → List AstTyParamBound → Tcx × ParamBounds
  | tcx, _, pb, [] => (tcx, pb)
  | tcx, pt, pb, .TraitTyParamBound b :: rest =>
      let ty := mk_param pt.idx pt.def_id
      let (tcx1, trait_ref) := instantiate_trait_ref env tcx b ty
      let (bb, added) := try_add_builtin_trait env trait_ref.def_id pb.builtin_bounds
      let pb' : ParamBounds :=
        if added then ⟨bb, pb.trait_bounds⟩ else ⟨bb, pb.trait_bounds ++ [trait_ref]⟩
      compute_bounds_loop env tcx1 pt pb' rest
  | tcx, pt, pb, .RegionTyParamBound :: rest =>
      compute_bounds_loop env tcx pt ⟨pb.builtin_bounds.add .BoundStatic, pb.trait_bounds⟩ rest

/-- `collect::compute_bounds`. -/
def compute_bounds (env : Env) (tcx : Tcx) (pt : param_ty)
    (ast_bounds : List AstTyParamBound) : Tcx × ParamBounds :=
  compute_bounds_loop env tcx pt ⟨EmptyBuiltinBounds, []⟩ ast_bounds

/-- The error events fired by the default-validation walk of `ty_generics`:
one per `ty_param` occurrence in the default whose index exceeds the
defining parameter's own index (`p.idx > cur_idx`). -/
def default_forward_errs (cur_idx : Nat) (t : Ty) : List ErrKind :=
  ((walk_params t).filter (fun p => decide (p.idx > cur_idx))).map
    (fun _ => ErrKind.forwardDeclaredDefault)

/-- The `param_ty` the generics builder assigns to the parameter at a given
position (`ty::param_ty {idx: base_index + offset, def_id: local_def(param.id)}`,
collect.rs line 1031). -/
def assigned_param_ty (base_index offset : Nat) (param : AstTyParam) : param_ty :=
  ⟨base_index + offset, local_def param.id⟩

/-- The body of the per-parameter closure of `collect::ty_generics`
(cached-definition reuse, `param_ty` assignment at `base_index + offset`,
bound computation, default validation and recording, insertion into the
parameter-definition table). -/
def ty_param_def_of (env : Env) (base_index : Nat) (tcx : Tcx) (offset : Nat)
    (param : AstTyParam) : Tcx × TypeParameterDef :=
  match lookupA tcx.ty_param_defs param.id with
  | some d => (tcx, d)
  | none =>
      let pt : param_ty := assigned_param_ty base_index offset param
      let (tcx1, bounds) := compute_bounds env tcx pt param.bounds
      let (tcx2, default) :=
        match param.default with
        | none => (tcx1, OptTy.none)
        | some path =>
            let ty := ast_ty_to_ty env path
            ({ tcx1 with errs := tcx1.errs ++ default_forward_errs pt.idx ty },
             OptTy.some ty)
      let d : TypeParameterDef := ⟨param.ident, local_def param.id, bounds, default⟩
      ({ tcx2 with ty_param_defs := insertA tcx2.ty_param_defs param.id d }, d)

/-- The enumerated map over surface type parameters in
`collect::ty_generics`. -/
def ty_param_defs_of (env : Env) (base_index : Nat) :
    Tcx → Nat → List AstTyParam → Tcx × List TypeParameterDef
  | tcx, _, [] => (tcx, [])
  | tcx, offset, p :: ps =>
      let (tcx1, d) := ty_param_def_of env base_index tcx offset p
      let (tcx2, ds) := ty_param_defs_of env base_index tcx1 (offset + 1) ps
      (tcx2, d :: ds)

/-- `collect::ty_generics` — the generics builder: region parameters map
1:1 in order; type parameters are built (or reused from the
parameter-definition table) in order with indices `base_index + offset`. -/
def ty_generics (env : Env) (tcx : Tcx) (lifetimes : List AstLifetime)
    (ty_params : List AstTyParam) (base_index : Nat) : Tcx × Generics :=
  let (tcx1, defs) := ty_param_defs_of env base_index tcx 0 ty_params
  (tcx1, ⟨defs, lifetimes.map (fun l => ⟨l.name, local_def l.id⟩)⟩)

/-- Modelled from the spec: `resolve_lifetime::early_bound_lifetimes`
(resolve_lifetime.rs is not in the sources) — the ordered early-bound
lifetimes of a generics list ("resolveLifetimes(generics) ->
orderedEarlyBoundLifetimes"). -/
def early_bound_lifetimes (g : AstGenerics) : List AstLifetime :=
  g.lifetimes

/-- `collect::ty_generics_for_type`. -/
def ty_generics_for_type (env : Env) (tcx : Tcx) (g : AstGenerics) : Tcx × Generics :=
  ty_generics env tcx g.lifetimes g.ty_params 0

/-- `collect::ty_generics_for_fn_or_method`. -/
def ty_generics_for_fn_or_method (env : Env) (tcx : Tcx) (g : AstGenerics)
    (base_index : Nat) : Tcx × Generics :=
  ty_generics env tcx (early_bound_lifetimes g) g.ty_params base_index

/-- `collect::mk_item_substs` — the identity substitution of an item's own
generics: parameter `i` maps to a `ty_param` reference at index `i`, region
parameter `i` to the corresponding early-bound region. -/
def mk_item_substs (g : Generics) (self_ty : OptTy) : substs :=
  ⟨.NonerasedRegions (g.region_param_defs.enum.map
      (fun p => .ReEarlyBound p.2.def_id.node p.1 p.2.name)),
   self_ty,
   TyList.ofList (g.type_param_defs.enum.map (fun p => mk_param p.1 p.2.def_id))⟩

/-- `collect::ensure_no_ty_param_bounds` — one reported error per type
parameter that carries at least one bound. -/
def ensure_no_ty_param_bounds (tcx : Tcx) (generics : AstGenerics)
    (thing : BoundsThing) : Tcx :=
  generics.ty_params.foldl
    (fun t p =>
      if p.bounds.length > 0 then
        { t with errs := t.errs ++ [.traitBoundsNotAllowed thing] }
      else t)
    tcx

/-- `collect::ensure_generics_abi` — foreign-ABI functions may not have
type parameters. -/
def ensure_generics_abi (tcx : Tcx) (abi : Abi) (generics : AstGenerics) : Tcx :=
  if generics.ty_params.length > 0 && !(abi = .Rust ∨ abi = .RustIntrinsic) then
    { tcx with errs := tcx.errs ++ [.foreignFnTyParams] }
  else tcx

/-- The supertrait loop of `collect::ensure_supertraits`: classify each
supertrait as built-in capability or user trait; a user trait already in
the accumulated list reports a duplicate error and breaks the loop.
A failing resolution (`trait_ref_to_def_id` on a non-trait) aborts the real
compiler and is recorded as a bug event, stopping the loop. -/
def ensure_supertraits_loop (env : Env) :
    Tcx → Ty → List TraitRef → BuiltinBounds → List AstTraitRef →
    Tcx × List TraitRef × BuiltinBounds
  | tcx, _, acc, bounds, [] => (tcx, acc, bounds)
  | tcx, self_ty, acc, bounds, r :: rest =>
      match trait_ref_to_def_id env r with
      | none => ({ tcx with bugs := tcx.bugs + 1 }, acc, bounds)
      | some trait_def_id =>
          let (tcx1, trait_ref) := instantiate_trait_ref env tcx r self_ty
          let (bounds1, added) := try_add_builtin_trait env trait_def_id bounds
          if added then
            ensure_supertraits_loop env tcx1 self_ty acc bounds1 rest
          else if acc.any (fun other => other.def_id == trait_ref.def_id) then
            ({ tcx1 with errs := tcx1.errs ++ [.duplicateSupertrait] }, acc, bounds1)
          else
            ensure_supertraits_loop env tcx1 self_ty (acc ++ [trait_ref]) bounds1 rest

/-- `collect::ensure_supertraits` — asserts that no supertrait entry exists
yet for the trait (assert failure is recorded as a bug event), runs the
classification loop, records the explicit supertrait list, and returns the
built-in bound set. -/
def ensure_supertraits (env : Env) (tcx : Tcx) (id : Nat)
    (ast_trait_refs : List AstTraitRef) : Tcx × BuiltinBounds :=
  let tcx0 := if containsA tcx.supertraits (local_def id) then
      { tcx with bugs := tcx.bugs + 1 }
    else tcx
  let self_ty := mk_self (local_def id)
  let (tcx1, refs, bounds) :=
    ensure_supertraits_loop env tcx0 self_ty [] EmptyBuiltinBounds ast_trait_refs
  ({ tcx1 with supertraits := insertA tcx1.supertraits (local_def id) refs }, bounds)

/-- `collect::convert_field` — translate the field's type, record it in the
node-type table and the type cache (under the field's own id, with the
struct's generics), and produce the `field_ty` record. -/
def convert_field (env : Env) (tcx : Tcx) (struct_generics : Generics)
    (v : AstStructField) (origin : DefId) : Tcx × field_ty :=
  let tt := ast_ty_to_ty env v.ty
  let tcx1 := write_ty_to_tcx tcx v.id tt
  let tcx2 := { tcx1 with tcache := insertA tcx1.tcache (local_def v.id) ⟨struct_generics, tt⟩ }
  match v.kind with
  | .NamedField ident vis => (tcx2, ⟨ident, local_def v.id, vis, origin⟩)
  | .UnnamedField vis => (tcx2, ⟨unnamed_field_name, local_def v.id, vis, origin⟩)

/-- The field loop of `collect::convert_struct`: convert each field and
report (error plus note) a named field whose name was already seen; the
first occurrence keeps its place in the seen set. -/
def convert_struct_fields_loop (env : Env) (struct_generics : Generics) (origin : DefId) :
    Tcx → List Nat → List AstStructField → Tcx × List field_ty
  | tcx, _, [] => (tcx, [])
  | tcx, seen, f :: fs =>
      let (tcx1, result) := convert_field env tcx struct_generics f origin
      let (tcx2, seen2) :=
        if result.name ≠ unnamed_field_name then
          if seen.contains result.name then
            ({ tcx1 with errs := tcx1.errs ++ [.fieldAlreadyDeclared result.name],
                         notes := tcx1.notes + 1 }, seen)
          else (tcx1, seen ++ [result.name])
        else (tcx1, seen)
      let (tcx3, rest) := convert_struct_fields_loop env struct_generics origin tcx2 seen2 fs
      (tcx3, result :: rest)

/-- `collect::convert_struct` — convert the fields with duplicate
detection, record the field list, validate and record the optional
superstruct (must resolve to a virtual struct), and synthesize the
constructor scheme for enum-like and tuple-like structs. -/
def convert_struct (env : Env) (tcx : Tcx) (struct_def : AstStructDef)
    (tpt : ty_param_bounds_and_ty) (id : Nat) : Tcx :=
  let (tcx1, field_tys) :=
    convert_struct_fields_loop env tpt.generics (local_def id) tcx [] struct_def.fields
  let tcx2 := { tcx1 with struct_fields := insertA tcx1.struct_fields (local_def id) field_tys }
  let (tcx3, super_struct) : Tcx × Option DefId :=
    match struct_def.super_struct with
    | some t =>
        match t with
        | .path path_id =>
            match env.defMap path_id with
            | some (.DefStruct def_id) =>
                let tcxa : Tcx :=
                  match env.astMap def_id.node with
                  | some item =>
                      match item.node with
                      | .ItemStruct sd _ =>
                          if !sd.is_virtual then
                            { tcx2 with errs := tcx2.errs ++ [.structInheritanceNonVirtual] }
                          else tcx2
                      | _ => tcx2
                  | none => tcx2
                (tcxa, some def_id)
            | _ => (tcx2, none)
        | _ => (tcx2, none)
    | none => (tcx2, none)
  let tcx4 := { tcx3 with superstructs := insertA tcx3.superstructs (local_def id) super_struct }
  let s := mk_item_substs tpt.generics .none
  let selfty := mk_struct (local_def id) s
  match struct_def.ctor_id with
  | none => tcx4
  | some ctor_id =>
      if struct_def.fields.length = 0 then
        let tcx5 := write_ty_to_tcx tcx4 ctor_id selfty
        { tcx5 with tcache := insertA tcx5.tcache (local_def ctor_id) tpt }
      else if (struct_def.fields.headD ⟨0, .UnnamedField .Public, .prim 0⟩).kind.is_unnamed then
        let inputs := struct_def.fields.map
          (fun f => ((lookupA tcx4.tcache (local_def f.id)).getD (no_params .ty_err)).ty)
        let ctor_fn_ty := mk_ctor_fn ctor_id inputs selfty
        let tcx5 := write_ty_to_tcx tcx4 ctor_id ctor_fn_ty
        { tcx5 with tcache := insertA tcx5.tcache (local_def ctor_id) ⟨tpt.generics, ctor_fn_ty⟩ }
      else tcx4

/-- The variant loop of `collect::get_enum_variant_types`: a non-empty
tuple variant gets a constructor function type, an empty one the enum type
itself, a struct variant is elaborated as a struct (fields registered under
the variant's id) and gets a constructor function type from its field
types; each variant's polytype shares the enum's generics and is cached
under the variant's id. -/
def get_enum_variant_types_loop (env : Env) (enum_ty : Ty) (generics : AstGenerics) :
    Tcx → List AstVariant → Tcx
  | tcx, [] => tcx
  | tcx, variant :: rest =>
      let scope := variant.id
      let (tcx1, result_ty) :=
        match variant.kind with
        | .TupleVariantKind args =>
            if args.length > 0 then
              let input_tys := args.map (fun va => ast_ty_to_ty env va.ty)
              (tcx, mk_ctor_fn scope input_tys enum_ty)
            else (tcx, enum_ty)
        | .StructVariantKind sd =>
            let (tcxa, g) := ty_generics_for_type env tcx generics
            let tpt : ty_param_bounds_and_ty := ⟨g, enum_ty⟩
            let tcxb := convert_struct env tcxa sd tpt variant.id
            let input_tys := sd.fields.map (fun f => node_id_to_type tcxb f.id)
            (tcxb, mk_ctor_fn scope input_tys enum_ty)
      let (tcx2, g2) := ty_generics_for_type env tcx1 generics
      let tpt : ty_param_bounds_and_ty := ⟨g2, result_ty⟩
      let tcx3 := { tcx2 with tcache := insertA tcx2.tcache (local_def variant.id) tpt }
      let tcx4 := write_ty_to_tcx tcx3 variant.id result_ty
      get_enum_variant_types_loop env enum_ty generics tcx4 rest

/-- `collect::get_enum_variant_types`. -/
def get_enum_variant_types (env : Env) (tcx : Tcx) (enum_ty : Ty)
    (variants : List AstVariant) (generics : AstGenerics) : Tcx :=
  get_enum_variant_types_loop env enum_ty generics tcx variants

/-- Modelled from the spec: `astconv::ty_of_method` (astconv.rs is not in
the sources) — translate the method's signature, with the receiver's
untransformed type inserted as the self argument unless the method is
static. -/
def astconv_ty_of_method (env : Env) (m_id : Nat) (untransformed_rcvr_ty : Ty)
    (explicit_self : ExplicitSelf) (decl : FnDecl) : BareFnTy :=
  let self_inputs : List Ty :=
    match explicit_self with
    | .SelfStatic => []
    | _ => [untransformed_rcvr_ty]
  ⟨m_id, TyList.ofList (self_inputs ++ decl.inputs.map (ast_ty_to_ty env)),
   ast_ty_to_ty env decl.output⟩

/-- The nested `ty_of_method` of `collect::convert_methods`: translate the
signature, inherit the visibility from the receiver unless the method
declares one, and build the method's own generics with the receiver's
surface parameter count as base index. -/
def ty_of_method (env : Env) (tcx : Tcx) (container : MethodContainer) (m : AstMethod)
    (untransformed_rcvr_ty : Ty) (rcvr_generics : AstGenerics)
    (rcvr_visibility : Visibility) : Tcx × Method :=
  let fty := astconv_ty_of_method env m.id untransformed_rcvr_ty m.explicit_self m.decl
  let method_vis := m.vis.inherit_from rcvr_visibility
  let num_rcvr_type_params := rcvr_generics.ty_params.length
  let (tcx1, m_ty_generics) :=
    ty_generics_for_fn_or_method env tcx m.generics num_rcvr_type_params
  (tcx1, ⟨m.ident, m_ty_generics, fty, m.explicit_self, method_vis, local_def m.id,
          container, none⟩)

/-- The method loop of `collect::convert_methods`: duplicate method names
are reported; each method's cached polytype combines the receiver's
generics with the method's own (receiver parameters first), while the
`Method` record keeps only the method's own generics. -/
def convert_methods_loop (env : Env) (container : MethodContainer)
    (untransformed_rcvr_ty : Ty) (rcvr_ty_generics : Generics)
    (rcvr_ast_generics : AstGenerics) (rcvr_visibility : Visibility) :
    Tcx → List Nat → List AstMethod → Tcx
  | tcx, _, [] => tcx
  | tcx, seen_methods, m :: ms =>
      let (tcx1, seen2) :=
        if seen_methods.contains m.ident then
          ({ tcx with errs := tcx.errs ++ [.duplicateMethod] }, seen_methods)
        else (tcx, seen_methods ++ [m.ident])
      let num_rcvr_ty_params := rcvr_ty_generics.type_param_defs.length
      let (tcx2, m_ty_generics) :=
        ty_generics_for_fn_or_method env tcx1 m.generics num_rcvr_ty_params
      let (tcx3, mty) :=
        ty_of_method env tcx2 container m untransformed_rcvr_ty rcvr_ast_generics
          rcvr_visibility
      let fty := mk_bare_fn mty.fty
      let combined : ty_param_bounds_and_ty :=
        ⟨⟨rcvr_ty_generics.type_param_defs ++ m_ty_generics.type_param_defs,
          rcvr_ty_generics.region_param_defs ++ m_ty_generics.region_param_defs⟩, fty⟩
      let tcx4 := { tcx3 with tcache := insertA tcx3.tcache (local_def m.id) combined }
      let tcx5 := write_ty_to_tcx tcx4 m.id fty
      let tcx6 := { tcx5 with methods := insertA tcx5.methods mty.def_id mty }
      convert_methods_loop env container untransformed_rcvr_ty rcvr_ty_generics
        rcvr_ast_generics rcvr_visibility tcx6 seen2 ms

/-- `collect::convert_methods`. -/
def convert_methods (env : Env) (tcx : Tcx) (container : MethodContainer)
    (ms : List AstMethod) (untransformed_rcvr_ty : Ty) (rcvr_ty_generics : Generics)
    (rcvr_ast_generics : AstGenerics) (rcvr_visibility : Visibility) : Tcx :=
  convert_methods_loop env container untransformed_rcvr_ty rcvr_ty_generics
    rcvr_ast_generics rcvr_visibility tcx [] ms

/-- The nested `ty_method_of_trait_method` of `collect::ensure_trait_methods`:
translate the signature against the trait's self type, build the method's
own generics with the trait's parameter count as base index, and assume
public visibility. -/
def ty_method_of_trait_method (env : Env) (tcx : Tcx) (trait_id : Nat)
    (trait_generics : Generics) (m_id : Nat) (m_ident : Nat)
    (m_explicit_self : ExplicitSelf) (m_generics : AstGenerics) (m_decl : FnDecl) :
    Tcx × Method :=
  let trait_self_ty := mk_self (local_def trait_id)
  let fty := astconv_ty_of_method env m_id trait_self_ty m_explicit_self m_decl
  let num_trait_type_params := trait_generics.type_param_defs.length
  let (tcx1, ty_gen) :=
    ty_generics_for_fn_or_method env tcx m_generics num_trait_type_params
  (tcx1, ⟨m_ident, ty_gen, fty, m_explicit_self, .Public, local_def m_id,
          .TraitContainer (local_def trait_id), none⟩)

/-- The shifting substitution built by `make_static_method_ty`: trait
parameters map to themselves (indices `0..k` unchanged), `Self` maps to a
fresh parameter at index `k`, and each method parameter at index `k + i`
maps to index `k + 1 + i`; the trait's early-bound regions map to
themselves. -/
def static_method_substs (trait_ty_generics : Generics) (m : Method) : substs :=
  let num_trait_bounds := trait_ty_generics.type_param_defs.length
  let non_shifted_trait_tps :=
    trait_ty_generics.type_param_defs.enum.map (fun p => mk_param p.1 p.2.def_id)
  let self_param := mk_param num_trait_bounds dummy_defid
  let shifted_method_tps :=
    m.generics.type_param_defs.enum.map
      (fun p => mk_param (p.1 + num_trait_bounds + 1) p.2.def_id)
  let rps_from_trait :=
    trait_ty_generics.region_param_defs.enum.map
      (fun p => Region.ReEarlyBound p.2.def_id.node p.1 p.2.name)
  ⟨.NonerasedRegions rps_from_trait, .some self_param,
   TyList.ofList (non_shifted_trait_tps ++ shifted_method_tps)⟩

/-- `collect::make_static_method_ty` — synthesize the static function
scheme of a static trait method: apply the shifting substitution to the
method's function type and to the trait's and the method's parameter
definitions, insert the synthetic `Self` parameter (bounded by the
substituted self trait reference) between them, and cache the result under
the method's id (overwriting any previous entry).  `get_trait_def` is
modelled as the trait-definition table lookup: at every call site in the
pipeline the enclosing trait's definition has already been computed and
cached (the recursive fallback of `get_trait_def` is studied in the
`Reentrant` namespace); a missing entry is recorded as a bug event. -/
def make_static_method_ty (tcx : Tcx) (trait_id : Nat) (m : Method)
    (trait_ty_generics : Generics) : Tcx :=
  match lookupA tcx.trait_defs (local_def trait_id) with
  | none => { tcx with bugs := tcx.bugs + 1 }
  | some self_trait_def =>
      let s := static_method_substs trait_ty_generics m
      let ty := subst_ty s (mk_bare_fn m.fty)
      let substd_trait_defs := subst_type_param_defs s trait_ty_generics.type_param_defs
      let self_trait_ref := subst_trait_ref s self_trait_def.trait_ref
      let self_def : TypeParameterDef :=
        ⟨self_ident, dummy_defid, ⟨EmptyBuiltinBounds, [self_trait_ref]⟩, .none⟩
      let substd_method_defs := subst_type_param_defs s m.generics.type_param_defs
      let new_type_param_defs := substd_trait_defs ++ [self_def] ++ substd_method_defs
      let scheme : ty_param_bounds_and_ty :=
        ⟨⟨new_type_param_defs, trait_ty_generics.region_param_defs⟩, ty⟩
      { tcx with tcache := insertA tcx.tcache m.def_id scheme }

/-- The method loop of `collect::ensure_trait_methods`: build each trait
method's `ty::Method`, apply the static-method transform when the method
is static, and record the method. -/
def ensure_trait_methods_loop (env : Env) (trait_id : Nat)
    (trait_ty_generics : Generics) : Tcx → List AstTraitMethod → Tcx
  | tcx, [] => tcx
  | tcx, m :: ms =>
      let (tcx1, ty_method) :=
        match m with
        | .Required tm =>
            ty_method_of_trait_method env tcx trait_id trait_ty_generics
              tm.id tm.ident tm.explicit_self tm.generics tm.decl
        | .Provided pm =>
            ty_method_of_trait_method env tcx trait_id trait_ty_generics
              pm.id pm.ident pm.explicit_self pm.generics pm.decl
      let tcx2 :=
        if ty_method.explicit_self = .SelfStatic then
          make_static_method_ty tcx1 trait_id ty_method trait_ty_generics
        else tcx1
      let tcx3 := { tcx2 with methods := insertA tcx2.methods ty_method.def_id ty_method }
      ensure_trait_methods_loop env trait_id trait_ty_generics tcx3 ms

/-- The id of a trait method's AST node. -/
def trait_method_id : AstTraitMethod → Nat
  | .Required m => m.id
  | .Provided m => m.id

/-- `collect::ensure_trait_methods` — look the trait up in the AST map,
compute every method's scheme (required and provided), and record the
trait's method def-id list; non-trait nodes are ignored. -/
def ensure_trait_methods (env : Env) (tcx : Tcx) (trait_id : Nat) : Tcx :=
  match env.astMap trait_id with
  | some item =>
      match item.node with
      | .ItemTrait generics _ ms =>
          let (tcx1, trait_ty_generics) := ty_generics_for_type env tcx generics
          let tcx2 := ensure_trait_methods_loop env trait_id trait_ty_generics tcx1 ms
          let method_def_ids := ms.map (fun m => local_def (trait_method_id m))
          { tcx2 with
            trait_method_def_ids :=
              insertA tcx2.trait_method_def_ids (local_def trait_id) method_def_ids }
      | _ => tcx
  | none => tcx

/-- `collect::trait_def_of_item` — return the cached trait definition if
present; otherwise build the trait's generics and identity substitution,
ensure its supertraits, and cache the definition.  Invocation on a
non-trait item is a span_bug, recorded as a bug event. -/
def trait_def_of_item (env : Env) (tcx : Tcx) (it : AstItem) : Tcx × Option TraitDef :=
  let def_id := local_def it.id
  match lookupA tcx.trait_defs def_id with
  | some td => (tcx, some td)
  | none =>
      match it.node with
      | .ItemTrait generics supertraits _ =>
          let self_ty := mk_self def_id
          let (tcx1, ty_gen) := ty_generics_for_type env tcx generics
          let s := mk_item_substs ty_gen (.some self_ty)
          let (tcx2, bounds) := ensure_supertraits env tcx1 it.id supertraits
          let trait_ref : TraitRef := ⟨def_id, s⟩
          let trait_def : TraitDef := ⟨ty_gen, bounds, trait_ref⟩
          ({ tcx2 with trait_defs := insertA tcx2.trait_defs def_id trait_def },
           some trait_def)
      | _ => ({ tcx with bugs := tcx.bugs + 1 }, none)

/-- `collect::ty_of_item` — the memoized item-type resolver: the cache is
consulted first; otherwise the polytype is computed by item kind and
inserted before returning.  Traits have no polytype (span_bug), and
impl/mod items cannot reach this function (`fail!`); both are recorded as
bug events with no result. -/
def ty_of_item (env : Env) (tcx : Tcx) (it : AstItem) :
    Tcx × Option ty_param_bounds_and_ty :=
  let def_id := local_def it.id
  match lookupA tcx.tcache def_id with
  | some tpt => (tcx, some tpt)
  | none =>
      match it.node with
      | .ItemStatic t =>
          let typ := ast_ty_to_ty env t
          let tpt := no_params typ
          ({ tcx with tcache := insertA tcx.tcache (local_def it.id) tpt }, some tpt)
      | .ItemFn decl _ generics =>
          let (tcx1, fn_generics) := ty_generics_for_fn_or_method env tcx generics 0
          let tofd : BareFnTy :=
            ⟨it.id, TyList.ofList (decl.inputs.map (ast_ty_to_ty env)),
             ast_ty_to_ty env decl.output⟩
          let tpt : ty_param_bounds_and_ty := ⟨fn_generics, mk_bare_fn tofd⟩
          ({ tcx1 with tcache := insertA tcx1.tcache (local_def it.id) tpt }, some tpt)
      | .ItemTy t generics =>
          match lookupA tcx.tcache (local_def it.id) with
          | some tpt => (tcx, some tpt)
          | none =>
              let ty := ast_ty_to_ty env t
              let (tcx1, g) := ty_generics_for_type env tcx generics
              let tpt : ty_param_bounds_and_ty := ⟨g, ty⟩
              ({ tcx1 with tcache := insertA tcx1.tcache (local_def it.id) tpt }, some tpt)
      | .ItemEnum _ generics =>
          let (tcx1, ty_gen) := ty_generics_for_type env tcx generics
          let s := mk_item_substs ty_gen .none
          let t := mk_enum (local_def it.id) s
          let tpt : ty_param_bounds_and_ty := ⟨ty_gen, t⟩
          ({ tcx1 with tcache := insertA tcx1.tcache (local_def it.id) tpt }, some tpt)
      | .ItemTrait _ _ _ => ({ tcx with bugs := tcx.bugs + 1 }, none)
      | .ItemStruct _ generics =>
          let (tcx1, ty_gen) := ty_generics_for_type env tcx generics
          let s := mk_item_substs ty_gen .none
          let t := mk_struct (local_def it.id) s
          let tpt : ty_param_bounds_and_ty := ⟨ty_gen, t⟩
          ({ tcx1 with tcache := insertA tcx1.tcache (local_def it.id) tpt }, some tpt)
      | .ItemImpl _ _ _ _ => ({ tcx with bugs := tcx.bugs + 1 }, none)
      | .ItemMod => ({ tcx with bugs := tcx.bugs + 1 }, none)

/-- `collect::convert` — the per-item dispatch of the collection
traversal. -/
def convert (env : Env) (tcx : Tcx) (it : AstItem) : Tcx :=
  match it.node with
  | .ItemMod => tcx
  | .ItemEnum variants generics =>
      let tcx1 := ensure_no_ty_param_bounds tcx generics .enumeration
      let (tcx2, otpt) := ty_of_item env tcx1 it
      match otpt with
      | some tpt =>
          let tcx3 := write_ty_to_tcx tcx2 it.id tpt.ty
          get_enum_variant_types env tcx3 tpt.ty variants generics
      | none => tcx2
  | .ItemImpl generics opt_trait_ref selfty ms =>
      let (tcx1, ty_gen) := ty_generics_for_type env tcx generics
      let selfty' := ast_ty_to_ty env selfty
      let tcx2 := write_ty_to_tcx tcx1 it.id selfty'
      let tcx3 := { tcx2 with tcache := insertA tcx2.tcache (local_def it.id) ⟨ty_gen, selfty'⟩ }
      let parent_visibility := if opt_trait_ref.isSome then Visibility.Public else it.vis
      let tcx4 := convert_methods env tcx3 (.ImplContainer (local_def it.id)) ms selfty'
        ty_gen generics parent_visibility
      match opt_trait_ref with
      | some tr =>
          let (tcx5, trait_ref) := instantiate_trait_ref env tcx4 tr selfty'
          if (env.builtinKind trait_ref.def_id).isSome then
            { tcx5 with errs := tcx5.errs ++ [.explicitBuiltinImpl] }
          else tcx5
      | none => tcx4
  | .ItemTrait generics _ trait_methods =>
      let (tcx1, otd) := trait_def_of_item env tcx it
      match otd with
      | some trait_def =>
          let provided := split_trait_methods_provided trait_methods
          let untransformed_rcvr_ty := mk_self (local_def it.id)
          let tcx2 := convert_methods env tcx1 (.TraitContainer (local_def it.id))
            provided untransformed_rcvr_ty trait_def.generics generics it.vis
          ensure_trait_methods env tcx2 it.id
      | none => tcx1
  | .ItemStruct struct_def generics =>
      let tcx1 := ensure_no_ty_param_bounds tcx generics .structureKind
      let (tcx2, otpt) := ty_of_item env tcx1 it
      match otpt with
      | some tpt =>
          let tcx3 := write_ty_to_tcx tcx2 it.id tpt.ty
          let tcx4 := { tcx3 with tcache := insertA tcx3.tcache (local_def it.id) tpt }
          let tcx5 :=
            match struct_def.super_struct with
            | some t => write_ty_to_tcx tcx4 it.id (ast_ty_to_ty env t)
            | none => tcx4
          convert_struct env tcx5 struct_def tpt it.id
      | none => tcx2
  | .ItemTy _ generics =>
      let tcx1 := ensure_no_ty_param_bounds tcx generics .typeKind
      let (tcx2, otpt) := ty_of_item env tcx1 it
      match otpt with
      | some tpt => write_ty_to_tcx tcx2 it.id tpt.ty
      | none => tcx2
  | .ItemFn _ abi generics =>
      let tcx1 := ensure_generics_abi tcx abi generics
      let (tcx2, otpt) := ty_of_item env tcx1 it
      match otpt with
      | some tpt => write_ty_to_tcx tcx2 it.id tpt.ty
      | none => tcx2
  | .ItemStatic _ =>
      let (tcx1, otpt) := ty_of_item env tcx it
      match otpt with
      | some tpt => write_ty_to_tcx tcx1 it.id tpt.ty
      | none => tcx1

namespace Reentrant

/-!
A focused operational model of the re-entrant computation of trait
definitions.  `collect::trait_def_of_item` first consults the
trait-definition table; on a miss it calls `ensure_supertraits`, whose
first action is the assertion that no supertrait entry exists for the
trait, and whose supertrait walk instantiates each supertrait reference —
which (through `astconv::ast_path_to_trait_ref`, not in the sources, whose
need to look up the referenced trait's definition is modelled from the
spec's demand-driven resolution) re-enters `get_trait_def` /
`trait_def_of_item` for the referenced trait.  Only the two tables' key
sets and the call structure matter here; recursion is bounded by explicit
fuel, and exhausting it (a true dependency cycle) is distinguished from an
assertion failure.
-/

/-- The supertrait graph: for each trait node id, the node ids of the
traits its declared supertraits resolve to. -/
structure REnv where
  supertraitIds : Nat → List Nat

/-- The key sets of the trait-definition and supertrait tables. -/
structure RState where
  trait_defs : List Nat
  supertraits : List Nat
deriving DecidableEq

/-- Outcome of a re-entrant computation: completion, failure of the
`ensure_supertraits` assertion, or fuel exhaustion (a dependency cycle). -/
inductive ROut where
  | ok (s : RState)
  | assertFailed
  | outOfFuel
deriving DecidableEq

mutual
/-- `trait_def_of_item`: return if the trait's definition is already
tabled, otherwise ensure its supertraits and then table the definition. -/
def trait_def_of_item (env : REnv) : Nat → Nat → RState → ROut
  | 0, _, _ => .outOfFuel
  | fuel + 1, id, s =>
      if id ∈ s.trait_defs then .ok s
      else
        match ensure_supertraits env fuel id s with
        | .ok s1 => .ok ⟨id :: s1.trait_defs, s1.supertraits⟩
        | e => e

/-- `ensure_supertraits`: assert the trait has no supertrait entry yet,
resolve every supertrait (re-entering `trait_def_of_item`), then record
the supertrait entry. -/
def ensure_supertraits (env : REnv) : Nat → Nat → RState → ROut
  | 0, _, _ => .outOfFuel
  | fuel + 1, id, s =>
      if id ∈ s.supertraits then .assertFailed
      else
        match process_supertraits env fuel (env.supertraitIds id) s with
        | .ok s1 => .ok ⟨s1.trait_defs, id :: s1.supertraits⟩
        | e => e

/-- The supertrait walk: demand the definition of each referenced trait in
turn. -/
def process_supertraits (env : REnv) : Nat → List Nat → RState → ROut
  | 0, _, _ => .outOfFuel
  | _ + 1, [], s => .ok s
  | fuel + 1, t :: ts, s =>
      match trait_def_of_item env fuel t s with
      | .ok s1 => process_supertraits env fuel ts s1
      | e => e
end

end Reentrant

/-! ## Basic table lemmas -/

theorem lookupA_insertA_self {α β : Type} [DecidableEq α] (l : List (α × β)) (k : α) (v : β) :
    lookupA (insertA l k v) k = some v := by
  simp [lookupA, insertA]

theorem lookupA_insertA_ne {α β : Type} [DecidableEq α] (l : List (α × β)) (k k' : α) (v : β)
    (h : k' ≠ k) : lookupA (insertA l k v) k' = lookupA l k' := by
  simp [lookupA, insertA, h]

/-- A successful `ty_of_item` leaves its result in the type cache under the
item's id. -/
theorem ty_of_item_caches (env : Env) (tcx : Tcx) (it : AstItem) (tcx1 : Tcx)
    (tpt : ty_param_bounds_and_ty) (h : ty_of_item env tcx it = (tcx1, some tpt)) :
    lookupA tcx1.tcache (local_def it.id) = some tpt := by
  unfold ty_of_item at h
  cases hl : lookupA tcx.tcache (local_def it.id) with
  | some t0 =>
      simp only [hl] at h
      obtain ⟨rfl, h2⟩ := Prod.mk.injEq .. ▸ h
      injection (Option.some.injEq .. ▸ h2 : some t0 = some tpt) with h3
      rw [h3] at hl
      exact hl
  | none =>
      simp only [hl] at h
      cases hn : it.node <;> simp only [hn] at h <;>
        obtain ⟨rfl, h2⟩ := Prod.mk.injEq .. ▸ h <;>
        first
        | exact Option.noConfusion h2
        | (injection h2 with h3
           subst h3
           exact lookupA_insertA_self _ _ _)

/-! ## C1 — Type Cache memoization contract -/

/-- C1 (amended): for any item, once `ty_of_item` has resolved its polytype,
resolving it again returns the structurally identical result and leaves the
tables unchanged; inserting a value for an id whose current entry is the
identical value changes no lookup (a no-op); but inserting a value that
differs from the existing entry for that id silently overwrites it — the
table is a plain map and no internal-consistency diagnostic exists. -/
theorem typeCache_memoization :
    (∀ (env : Env) (tcx tcx1 : Tcx) (it : AstItem) (tpt : ty_param_bounds_and_ty),
        ty_of_item env tcx it = (tcx1, some tpt) →
        ty_of_item env tcx1 it = (tcx1, some tpt))
    ∧ (∀ (tcx : Tcx) (id : DefId) (tpt : ty_param_bounds_and_ty),
        lookupA tcx.tcache id = some tpt →
        ∀ id', lookupA (insertA tcx.tcache id tpt) id' = lookupA tcx.tcache id')
    ∧ (∀ (tcx : Tcx) (id : DefId) (oldv newv : ty_param_bounds_and_ty),
        lookupA tcx.tcache id = some oldv →
        lookupA (insertA tcx.tcache id newv) id = some newv) := by
  refine ⟨?_, ?_, ?_⟩
  · intro env tcx tcx1 it tpt h
    have hc := ty_of_item_caches env tcx it tcx1 tpt h
    unfold ty_of_item
    simp [hc]
  · intro tcx id tpt h id'
    by_cases hid : id' = id
    · subst hid
      rw [lookupA_insertA_self, h]
    · exact lookupA_insertA_ne _ _ _ _ hid
  · intro tcx id oldv newv _
    exact lookupA_insertA_self _ _ _

/-- Concrete instantiation of `typeCache_memoization`, discharging its
hypotheses on a static item and a one-entry cache. -/
theorem typeCache_memoization_witness :
    ty_of_item ⟨fun _ => none, fun _ => none, fun _ => none⟩
        { emptyTcx with tcache := insertA emptyTcx.tcache (local_def 5) (no_params (.prim 0)) }
        ⟨5, 0, .Public, .ItemStatic (.prim 0)⟩
      = ({ emptyTcx with tcache := insertA emptyTcx.tcache (local_def 5) (no_params (.prim 0)) },
         some (no_params (.prim 0)))
    ∧ (∀ id', lookupA (insertA (insertA emptyTcx.tcache (local_def 5) (no_params (.prim 0)))
          (local_def 5) (no_params (.prim 0))) id'
        = lookupA (insertA emptyTcx.tcache (local_def 5) (no_params (.prim 0))) id')
    ∧ lookupA (insertA (insertA emptyTcx.tcache (local_def 5) (no_params (.prim 0)))
          (local_def 5) (no_params (.prim 1))) (local_def 5)
        = some (no_params (.prim 1)) := by
  refine ⟨?_, ?_, ?_⟩
  · exact typeCache_memoization.1 ⟨fun _ => none, fun _ => none, fun _ => none⟩
      emptyTcx _ ⟨5, 0, .Public, .ItemStatic (.prim 0)⟩ (no_params (.prim 0)) (by decide)
  · exact typeCache_memoization.2.1
      { emptyTcx with tcache := insertA emptyTcx.tcache (local_def 5) (no_params (.prim 0)) }
      (local_def 5) (no_params (.prim 0)) (by decide)
  · exact typeCache_memoization.2.2
      { emptyTcx with tcache := insertA emptyTcx.tcache (local_def 5) (no_params (.prim 0)) }
      (local_def 5) (no_params (.prim 0)) (no_params (.prim 1)) (by decide)

/-- C1 counterexample: the type cache is a plain map — inserting a value
that differs from the existing entry for an id overwrites the entry (the
subsequent lookup returns the new value, which differs from the old one)
instead of failing with a diagnostic. -/
theorem typeCache_conflicting_insert_overwrites :
    lookupA (insertA (insertA ([] : List (DefId × ty_param_bounds_and_ty))
          (local_def 1) (no_params (.prim 0)))
        (local_def 1) (no_params (.prim 1))) (local_def 1)
      = some (no_params (.prim 1))
    ∧ no_params (.prim 1) ≠ no_params (.prim 0) := by decide

/-! ## C10 — the supertrait assertion is protected by the trait-definition
table check -/

/-- Mutual invariant of the re-entrant computation: starting from a state
whose supertrait-table keys are all trait-definition-table keys, no
execution path reaches a failure of the `ensure_supertraits` assertion,
and completion preserves the key inclusion.  `ensure_supertraits` is only
entered by `trait_def_of_item` after the trait-definition table was checked
to lack the trait, which with the inclusion rules out a supertrait entry. -/
theorem reentrant_invariant (env : Reentrant.REnv) :
    ∀ fuel : Nat,
      (∀ (id : Nat) (s : Reentrant.RState), (∀ x ∈ s.supertraits, x ∈ s.trait_defs) →
        Reentrant.trait_def_of_item env fuel id s ≠ .assertFailed
        ∧ ∀ s1, Reentrant.trait_def_of_item env fuel id s = .ok s1 →
            (∀ x ∈ s1.supertraits, x ∈ s1.trait_defs))
      ∧ (∀ (id : Nat) (s : Reentrant.RState), (∀ x ∈ s.supertraits, x ∈ s.trait_defs) →
          id ∉ s.supertraits →
        Reentrant.ensure_supertraits env fuel id s ≠ .assertFailed
        ∧ ∀ s1, Reentrant.ensure_supertraits env fuel id s = .ok s1 →
            (∀ x ∈ s1.supertraits, x ∈ s1.trait_defs ∨ x = id))
      ∧ (∀ (ts : List Nat) (s : Reentrant.RState), (∀ x ∈ s.supertraits, x ∈ s.trait_defs) →
        Reentrant.process_supertraits env fuel ts s ≠ .assertFailed
        ∧ ∀ s1, Reentrant.process_supertraits env fuel ts s = .ok s1 →
            (∀ x ∈ s1.supertraits, x ∈ s1.trait_defs)) := by
  intro fuel
  induction fuel with
  | zero =>
      refine ⟨fun id s _ => ⟨?_, fun s1 h => ?_⟩,
              fun id s _ _ => ⟨?_, fun s1 h => ?_⟩,
              fun ts s _ => ⟨?_, fun s1 h => ?_⟩⟩ <;>
        simp [Reentrant.trait_def_of_item, Reentrant.ensure_supertraits,
              Reentrant.process_supertraits] at *
  | succ fuel ih =>
      obtain ⟨ihT, ihE, ihP⟩ := ih
      refine ⟨fun id s hInv => ?_, fun id s hInv hid => ?_, fun ts s hInv => ?_⟩
      · -- trait_def_of_item
        by_cases hmem : id ∈ s.trait_defs
        · constructor
          · simp [Reentrant.trait_def_of_item, hmem]
          · intro s1 h
            simp only [Reentrant.trait_def_of_item, hmem, if_pos] at h
            injection h with h1
            subst h1
            exact hInv
        · have hid : id ∉ s.supertraits := fun hx => hmem (hInv id hx)
          obtain ⟨hne, hok⟩ := ihE id s hInv hid
          cases he : Reentrant.ensure_supertraits env fuel id s with
          | ok s1 =>
              have hinvE := hok s1 he
              constructor
              · simp [Reentrant.trait_def_of_item, hmem, he]
              · intro s2 h
                simp only [Reentrant.trait_def_of_item, hmem, if_neg, he] at h
                injection h with h1
                subst h1
                intro x hx
                rcases hinvE x hx with h | h
                · exact List.mem_cons_of_mem _ h
                · subst h; exact List.mem_cons_self _ _
          | assertFailed => exact absurd he hne
          | outOfFuel =>
              constructor
              · simp [Reentrant.trait_def_of_item, hmem, he]
              · intro s2 h
                simp [Reentrant.trait_def_of_item, hmem, he] at h
      · -- ensure_supertraits
        obtain ⟨hne, hok⟩ := ihP (env.supertraitIds id) s hInv
        cases hp : Reentrant.process_supertraits env fuel (env.supertraitIds id) s with
        | ok s2 =>
            have hinv2 := hok s2 hp
            constructor
            · simp [Reentrant.ensure_supertraits, hid, hp]
            · intro s1 h
              simp only [Reentrant.ensure_supertraits, hid, if_neg, hp] at h
              injection h with h1
              subst h1
              intro x hx
              rcases List.mem_cons.mp hx with h | h
              · exact Or.inr h
              · exact Or.inl (hinv2 x h)
        | assertFailed => exact absurd hp hne
        | outOfFuel =>
            constructor
            · simp [Reentrant.ensure_supertraits, hid, hp]
            · intro s1 h
              simp [Reentrant.ensure_supertraits, hid, hp] at h
      · -- process_supertraits
        cases ts with
        | nil =>
            constructor
            · simp [Reentrant.process_supertraits]
            · intro s1 h
              simp only [Reentrant.process_supertraits] at h
              injection h with h1
              subst h1
              exact hInv
        | cons t ts =>
            obtain ⟨hne, hok⟩ := ihT t s hInv
            cases ht : Reentrant.trait_def_of_item env fuel t s with
            | ok s1 =>
                have hinv1 := hok s1 ht
                obtain ⟨hne2, hok2⟩ := ihP ts s1 hinv1
                constructor
                · simpa [Reentrant.process_supertraits, ht] using hne2
                · intro s2 h
                  simp only [Reentrant.process_supertraits, ht] at h
                  exact hok2 s2 h
            | assertFailed => exact absurd ht hne
            | outOfFuel =>
                constructor
                · simp [Reentrant.process_supertraits, ht]
                · intro s2 h
                  simp [Reentrant.process_supertraits, ht] at h

/-- C10: supertraits are computed at most once per trait — on any
demand-driven run starting from empty trait-definition and supertrait
tables, the assertion at the start of supertrait computation (that no
supertrait entry exists yet for the trait) never fails, because
`trait_def_of_item` checks the trait-definition table before entering
`ensure_supertraits` and every recorded supertrait entry is accompanied by
a trait-definition entry.  (This holds for every fuel bound, hence in
particular for runs without supertrait cycles, which complete.) -/
theorem supertraits_assert_never_fails (env : Reentrant.REnv) (fuel id : Nat) :
    Reentrant.trait_def_of_item env fuel id ⟨[], []⟩ ≠ .assertFailed :=
  ((reentrant_invariant env fuel).1 id ⟨[], []⟩ (by intro x hx; cases hx)).1

/-! ## C3 — index contiguity of the generics builder -/

/-- A throwaway `TypeParameterDef` used as a positional-access default. -/
def dummyTPD : TypeParameterDef := ⟨0, dummy_defid, ⟨EmptyBuiltinBounds, []⟩, .none⟩

/-- A throwaway surface parameter used as a positional-access default. -/
def dummyAstTyParam : AstTyParam := ⟨0, 0, [], none⟩

theorem instantiate_trait_ref_frame (env : Env) (tcx : Tcx) (r : AstTraitRef) (self_ty : Ty) :
    (instantiate_trait_ref env tcx r self_ty).1.ty_param_defs = tcx.ty_param_defs
    ∧ (instantiate_trait_ref env tcx r self_ty).1.errs = tcx.errs
    ∧ (instantiate_trait_ref env tcx r self_ty).1.tcache = tcx.tcache := by
  unfold instantiate_trait_ref
  cases h : env.defMap r.ref_id with
  | none => simp
  | some d => cases d <;> simp

/-- Every trait reference instantiated for a type-parameter bound carries
the parameter reference itself as self type. -/
theorem instantiate_trait_ref_self_ty (env : Env) (tcx : Tcx) (r : AstTraitRef) (self_ty : Ty) :
    (instantiate_trait_ref env tcx r self_ty).2.substs.self_ty = .some self_ty := by
  unfold instantiate_trait_ref
  cases h : env.defMap r.ref_id with
  | none => simp
  | some d => cases d <;> simp

theorem compute_bounds_loop_frame (env : Env) :
    ∀ (bs : List AstTyParamBound) (tcx : Tcx) (pt : param_ty) (pb : ParamBounds),
    (compute_bounds_loop env tcx pt pb bs).1.ty_param_defs = tcx.ty_param_defs
    ∧ (compute_bounds_loop env tcx pt pb bs).1.errs = tcx.errs
    ∧ (compute_bounds_loop env tcx pt pb bs).1.tcache = tcx.tcache := by
  intro bs
  induction bs with
  | nil => intro tcx pt pb; simp [compute_bounds_loop]
  | cons b rest ih =>
      intro tcx pt pb
      cases b with
      | TraitTyParamBound r =>
          obtain ⟨g1, g2, g3⟩ :=
            instantiate_trait_ref_frame env tcx r (mk_param pt.idx pt.def_id)
          obtain ⟨h1, h2, h3⟩ :=
            ih (instantiate_trait_ref env tcx r (mk_param pt.idx pt.def_id)).1 pt
              (if (try_add_builtin_trait env
                    (instantiate_trait_ref env tcx r (mk_param pt.idx pt.def_id)).2.def_id
                    pb.builtin_bounds).2
               then ⟨(try_add_builtin_trait env
                    (instantiate_trait_ref env tcx r (mk_param pt.idx pt.def_id)).2.def_id
                    pb.builtin_bounds).1, pb.trait_bounds⟩
               else ⟨(try_add_builtin_trait env
                    (instantiate_trait_ref env tcx r (mk_param pt.idx pt.def_id)).2.def_id
                    pb.builtin_bounds).1, pb.trait_bounds ++
                      [(instantiate_trait_ref env tcx r (mk_param pt.idx pt.def_id)).2]⟩)
          exact ⟨h1.trans g1, h2.trans g2, h3.trans g3⟩
      | RegionTyParamBound =>
          exact ih tcx pt _

/-- Unfolding equation for the trait-bound step of `compute_bounds_loop`. -/
theorem compute_bounds_loop_cons_trait (env : Env) (tcx : Tcx) (pt : param_ty)
    (pb : ParamBounds) (r : AstTraitRef) (rest : List AstTyParamBound) :
    compute_bounds_loop env tcx pt pb (.TraitTyParamBound r :: rest) =
      compute_bounds_loop env (instantiate_trait_ref env tcx r (mk_param pt.idx pt.def_id)).1 pt
        (if (try_add_builtin_trait env
              (instantiate_trait_ref env tcx r (mk_param pt.idx pt.def_id)).2.def_id
              pb.builtin_bounds).2
         then ⟨(try_add_builtin_trait env
              (instantiate_trait_ref env tcx r (mk_param pt.idx pt.def_id)).2.def_id
              pb.builtin_bounds).1, pb.trait_bounds⟩
         else ⟨(try_add_builtin_trait env
              (instantiate_trait_ref env tcx r (mk_param pt.idx pt.def_id)).2.def_id
              pb.builtin_bounds).1, pb.trait_bounds ++
                [(instantiate_trait_ref env tcx r (mk_param pt.idx pt.def_id)).2]⟩)
        rest := rfl

/-- Every user trait bound computed for a parameter is instantiated with
the parameter reference itself (`mk_param pt.idx pt.def_id`) as self
type. -/
theorem compute_bounds_loop_self_ty (env : Env) (pt : param_ty) :
    ∀ (bs : List AstTyParamBound) (tcx : Tcx) (pb : ParamBounds),
      (∀ tr ∈ pb.trait_bounds, tr.substs.self_ty = .some (mk_param pt.idx pt.def_id)) →
      ∀ tr ∈ (compute_bounds_loop env tcx pt pb bs).2.trait_bounds,
        tr.substs.self_ty = .some (mk_param pt.idx pt.def_id) := by
  intro bs
  induction bs with
  | nil => intro tcx pb h; exact h
  | cons b rest ih =>
      intro tcx pb h
      cases b with
      | TraitTyParamBound r =>
          have hself := instantiate_trait_ref_self_ty env tcx r (mk_param pt.idx pt.def_id)
          rw [compute_bounds_loop_cons_trait]
          by_cases hA : (try_add_builtin_trait env
              (instantiate_trait_ref env tcx r (mk_param pt.idx pt.def_id)).2.def_id
              pb.builtin_bounds).2 = true
          · simp only [hA, if_true]
            exact ih _ _ h
          · simp only [Bool.not_eq_true] at hA
            simp only [hA, Bool.false_eq_true, if_false]
            refine ih _ _ ?_
            intro tr htr
            rcases List.mem_append.mp htr with h1 | h1
            · exact h tr h1
            · rcases List.mem_singleton.mp h1 with rfl
              exact hself
      | RegionTyParamBound =>
          exact ih tcx ⟨pb.builtin_bounds.add .BoundStatic, pb.trait_bounds⟩ h

/-- `compute_bounds` instantiates every user trait bound with the
parameter itself as self type. -/
theorem compute_bounds_self_ty (env : Env) (tcx : Tcx) (pt : param_ty)
    (bs : List AstTyParamBound) :
    ∀ tr ∈ (compute_bounds env tcx pt bs).2.trait_bounds,
      tr.substs.self_ty = .some (mk_param pt.idx pt.def_id) :=
  compute_bounds_loop_self_ty env pt bs tcx ⟨EmptyBuiltinBounds, []⟩ (by intro tr h; cases h)

/-- Characterization of the per-parameter builder on a cache miss: the
definition is freshly computed with `param_ty` index `base_index + offset`,
the default is recorded (validated or not), and the definition is inserted
into the parameter-definition table. -/
theorem ty_param_def_of_miss (env : Env) (base_index : Nat) (tcx : Tcx) (offset : Nat)
    (param : AstTyParam) (h : lookupA tcx.ty_param_defs param.id = none) :
    (ty_param_def_of env base_index tcx offset param).2 =
      ⟨param.ident, local_def param.id,
       (compute_bounds env tcx (assigned_param_ty base_index offset param) param.bounds).2,
       match param.default with
       | none => OptTy.none
       | some path => OptTy.some (ast_ty_to_ty env path)⟩
    ∧ (ty_param_def_of env base_index tcx offset param).1.ty_param_defs =
        insertA tcx.ty_param_defs param.id (ty_param_def_of env base_index tcx offset param).2
    ∧ (ty_param_def_of env base_index tcx offset param).1.errs =
        tcx.errs ++ (match param.default with
          | none => []
          | some path => default_forward_errs (base_index + offset) (ast_ty_to_ty env path))
    ∧ (ty_param_def_of env base_index tcx offset param).1.tcache = tcx.tcache := by
  obtain ⟨f1, f2, f3⟩ := compute_bounds_loop_frame env param.bounds tcx
    (assigned_param_ty base_index offset param) ⟨EmptyBuiltinBounds, []⟩
  unfold ty_param_def_of
  simp only [h]
  cases hd : param.default with
  | none =>
      refine ⟨rfl, ?_, ?_, ?_⟩
      · simp only [hd]
        show insertA (compute_bounds env tcx (assigned_param_ty base_index offset param)
            param.bounds).1.ty_param_defs param.id _ = _
        rw [show (compute_bounds env tcx (assigned_param_ty base_index offset param)
            param.bounds).1.ty_param_defs = tcx.ty_param_defs from f1]
      · simp only [hd]
        show (compute_bounds env tcx (assigned_param_ty base_index offset param)
            param.bounds).1.errs = tcx.errs ++ []
        rw [List.append_nil]
        exact f2
      · simp only [hd]
        exact f3
  | some path =>
      refine ⟨rfl, ?_, ?_, ?_⟩
      · simp only [hd]
        show insertA (compute_bounds env tcx (assigned_param_ty base_index offset param)
            param.bounds).1.ty_param_defs param.id _ = _
        rw [show (compute_bounds env tcx (assigned_param_ty base_index offset param)
            param.bounds).1.ty_param_defs = tcx.ty_param_defs from f1]
      · simp only [hd]
        show (compute_bounds_loop env tcx (assigned_param_ty base_index offset param)
            ⟨EmptyBuiltinBounds, []⟩ param.bounds).1.errs ++ _ = _
        rw [f2]
        rfl
      · simp only [hd]
        exact f3

/-- Unfolding equation for the cons step of `ty_param_defs_of`. -/
theorem ty_param_defs_of_cons (env : Env) (base_index : Nat) (tcx : Tcx) (offset : Nat)
    (p : AstTyParam) (ps : List AstTyParam) :
    ty_param_defs_of env base_index tcx offset (p :: ps) =
      ((ty_param_defs_of env base_index (ty_param_def_of env base_index tcx offset p).1
          (offset + 1) ps).1,
       (ty_param_def_of env base_index tcx offset p).2 ::
         (ty_param_defs_of env base_index (ty_param_def_of env base_index tcx offset p).1
           (offset + 1) ps).2) := rfl

/-- Positional specification of the generics builder's parameter list on
fresh, distinct parameter ids: the `i`-th definition carries the `i`-th
surface parameter's def id, and all its user trait bounds are instantiated
against the parameter reference at index `base_index + offset + i`. -/
theorem ty_param_defs_of_spec (env : Env) (base_index : Nat) :
    ∀ (ps : List AstTyParam) (tcx : Tcx) (offset : Nat),
      (∀ p ∈ ps, lookupA tcx.ty_param_defs p.id = none) →
      ps.Pairwise (fun a b => a.id ≠ b.id) →
      (ty_param_defs_of env base_index tcx offset ps).2.length = ps.length
      ∧ ∀ i, i < ps.length →
          ((ty_param_defs_of env base_index tcx offset ps).2.getD i dummyTPD).def_id
              = local_def ((ps.getD i dummyAstTyParam).id)
          ∧ ∀ tr ∈ ((ty_param_defs_of env base_index tcx offset ps).2.getD i
                dummyTPD).bounds.trait_bounds,
              tr.substs.self_ty
                = .some (mk_param (base_index + offset + i)
                    (local_def ((ps.getD i dummyAstTyParam).id))) := by
  intro ps
  induction ps with
  | nil =>
      intro tcx offset _ _
      exact ⟨rfl, fun i hi => absurd hi (by simp)⟩
  | cons p ps ih =>
      intro tcx offset hfresh hnodup
      have hp : lookupA tcx.ty_param_defs p.id = none := hfresh p (List.mem_cons_self ..)
      obtain ⟨hd, hstate, _, _⟩ := ty_param_def_of_miss env base_index tcx offset p hp
      have hfresh2 : ∀ q ∈ ps,
          lookupA (ty_param_def_of env base_index tcx offset p).1.ty_param_defs q.id = none := by
        intro q hq
        rw [hstate, lookupA_insertA_ne]
        · exact hfresh q (List.mem_cons_of_mem _ hq)
        · exact fun hEq => ((List.pairwise_cons.mp hnodup).1 q hq) hEq.symm
      have hnodup2 := (List.pairwise_cons.mp hnodup).2
      obtain ⟨hlen, hspec⟩ :=
        ih (ty_param_def_of env base_index tcx offset p).1 (offset + 1) hfresh2 hnodup2
      rw [ty_param_defs_of_cons]
      refine ⟨by simpa using hlen, ?_⟩
      intro i hi
      cases i with
      | zero =>
          constructor
          · simp only [List.getD_cons_zero, hd]
          · intro tr htr
            simp only [List.getD_cons_zero, hd] at htr ⊢
            have := compute_bounds_self_ty env tcx
              (assigned_param_ty base_index offset p) p.bounds tr htr
            simpa [assigned_param_ty] using this
      | succ j =>
          have hj : j < ps.length := by simpa using hi
          obtain ⟨h1, h2⟩ := hspec j hj
          constructor
          · simpa using h1
          · intro tr htr
            simp only [List.getD_cons_succ] at htr ⊢
            have := h2 tr htr
            have harith : base_index + (offset + 1) + j = base_index + offset + (j + 1) := by
              omega
            rw [harith] at this
            exact this

/-- C3: for every `Generics` computed by the generics builder from a
surface parameter list (fresh, distinct parameter ids) with a given base
index, the list of definitions is positional: the builder assigns the
`i`-th parameter (declaration order) the `param_ty` index
`base_index + i` — so indices are contiguous and strictly increasing
starting at `base_index` — the `i`-th definition carries the `i`-th
parameter's def id, and the assigned index is observable in the output:
every user trait bound of the `i`-th definition is instantiated against
the parameter reference at index `base_index + i`. -/
theorem generics_index_contiguity (env : Env) (tcx : Tcx) (lifetimes : List AstLifetime)
    (ty_params : List AstTyParam) (base_index : Nat)
    (hfresh : ∀ p ∈ ty_params, lookupA tcx.ty_param_defs p.id = none)
    (hnodup : ty_params.Pairwise (fun a b => a.id ≠ b.id)) :
    (ty_generics env tcx lifetimes ty_params base_index).2.type_param_defs.length
        = ty_params.length
    ∧ ∀ i, i < ty_params.length →
        (assigned_param_ty base_index i (ty_params.getD i dummyAstTyParam)).idx
            = base_index + i
        ∧ ((ty_generics env tcx lifetimes ty_params base_index).2.type_param_defs.getD i
              dummyTPD).def_id
            = (assigned_param_ty base_index i (ty_params.getD i dummyAstTyParam)).def_id
        ∧ ∀ tr ∈ ((ty_generics env tcx lifetimes ty_params base_index).2.type_param_defs.getD i
              dummyTPD).bounds.trait_bounds,
            tr.substs.self_ty
              = .some (mk_param (base_index + i)
                  (local_def ((ty_params.getD i dummyAstTyParam).id))) := by
  obtain ⟨hlen, hspec⟩ := ty_param_defs_of_spec env base_index ty_params tcx 0 hfresh hnodup
  constructor
  · exact hlen
  · intro i hi
    obtain ⟨h1, h2⟩ := hspec i hi
    refine ⟨rfl, ?_, ?_⟩
    · show ((ty_param_defs_of env base_index tcx 0 ty_params).2.getD i dummyTPD).def_id = _
      rw [h1]
      rfl
    · intro tr htr
      have := h2 tr htr
      simpa using this

/-- Concrete instantiation of `generics_index_contiguity`: two parameters
(ids 1 and 2, the first carrying a user trait bound) at base index 3. -/
theorem generics_index_contiguity_witness :
    ((ty_generics ⟨fun _ => none, fun n => if n = 100 then some (.DefTrait ⟨0, 50⟩) else none,
          fun _ => none⟩
        emptyTcx []
        [⟨7, 1, [.TraitTyParamBound ⟨100, []⟩], none⟩, ⟨8, 2, [], none⟩] 3).2.type_param_defs.length
        = 2)
    ∧ ∀ i, i < 2 →
        (assigned_param_ty 3 i
            ([⟨7, 1, [.TraitTyParamBound ⟨100, []⟩], none⟩,
              (⟨8, 2, [], none⟩ : AstTyParam)].getD i dummyAstTyParam)).idx = 3 + i
        ∧ (((ty_generics ⟨fun _ => none, fun n => if n = 100 then some (.DefTrait ⟨0, 50⟩) else none,
              fun _ => none⟩
            emptyTcx []
            [⟨7, 1, [.TraitTyParamBound ⟨100, []⟩], none⟩, ⟨8, 2, [], none⟩] 3).2.type_param_defs.getD i
              dummyTPD).def_id
            = (assigned_param_ty 3 i
                ([⟨7, 1, [.TraitTyParamBound ⟨100, []⟩], none⟩,
                  (⟨8, 2, [], none⟩ : AstTyParam)].getD i dummyAstTyParam)).def_id)
        ∧ ∀ tr ∈ ((ty_generics ⟨fun _ => none, fun n => if n = 100 then some (.DefTrait ⟨0, 50⟩) else none,
              fun _ => none⟩
            emptyTcx []
            [⟨7, 1, [.TraitTyParamBound ⟨100, []⟩], none⟩, ⟨8, 2, [], none⟩] 3).2.type_param_defs.getD i
              dummyTPD).bounds.trait_bounds,
            tr.substs.self_ty
              = .some (mk_param (3 + i)
                  (local_def (([⟨7, 1, [.TraitTyParamBound ⟨100, []⟩], none⟩,
                    (⟨8, 2, [], none⟩ : AstTyParam)].getD i dummyAstTyParam).id))) :=
  generics_index_contiguity _ emptyTcx []
    [⟨7, 1, [.TraitTyParamBound ⟨100, []⟩], none⟩, ⟨8, 2, [], none⟩] 3
    (by decide) (by decide)

/-! ## C8 — validation of parameter defaults -/

/-- C8 (amended): for a type parameter with a default type, the default is
recorded in the parameter definition in every case, and the validation walk
reports one error per reference to a parameter at a *strictly greater*
index than the parameter's own (`base_index + offset`); references at an
equal or smaller index are not reported (in particular a self-reference at
the equal index passes silently). -/
theorem default_forward_reference_check (env : Env) (base_index : Nat) (tcx : Tcx)
    (offset : Nat) (param : AstTyParam) (path : AstTy)
    (hfresh : lookupA tcx.ty_param_defs param.id = none)
    (hdef : param.default = some path) :
    (ty_param_def_of env base_index tcx offset param).2.default
        = .some (ast_ty_to_ty env path)
    ∧ (ty_param_def_of env base_index tcx offset param).1.errs
        = tcx.errs ++ default_forward_errs (base_index + offset) (ast_ty_to_ty env path)
    ∧ (default_forward_errs (base_index + offset) (ast_ty_to_ty env path) = []
        ↔ ∀ p ∈ walk_params (ast_ty_to_ty env path), p.idx ≤ base_index + offset) := by
  obtain ⟨hd, _, herrs, _⟩ := ty_param_def_of_miss env base_index tcx offset param hfresh
  refine ⟨?_, ?_, ?_⟩
  · rw [hd]
    simp [hdef]
  · rw [herrs, hdef]
  · unfold default_forward_errs
    rw [List.map_eq_nil_iff, List.filter_eq_nil_iff]
    constructor
    · intro h p hp
      have := h p hp
      simpa using this
    · intro h p hp
      simpa using h p hp

/-- Concrete instantiation of `default_forward_reference_check`: a
parameter at index 1 whose default references a parameter at index 3
(inside a box type). -/
theorem default_forward_reference_check_witness :
    (ty_param_def_of ⟨fun _ => none, fun _ => none, fun _ => none⟩ 1 emptyTcx 0
        ⟨5, 9, [], some (.uniq (.paramRef 3 (local_def 77)))⟩).2.default
        = .some (ast_ty_to_ty ⟨fun _ => none, fun _ => none, fun _ => none⟩
            (.uniq (.paramRef 3 (local_def 77))))
    ∧ (ty_param_def_of ⟨fun _ => none, fun _ => none, fun _ => none⟩ 1 emptyTcx 0
        ⟨5, 9, [], some (.uniq (.paramRef 3 (local_def 77)))⟩).1.errs
        = emptyTcx.errs ++ default_forward_errs (1 + 0)
            (ast_ty_to_ty ⟨fun _ => none, fun _ => none, fun _ => none⟩
              (.uniq (.paramRef 3 (local_def 77))))
    ∧ (default_forward_errs (1 + 0)
          (ast_ty_to_ty ⟨fun _ => none, fun _ => none, fun _ => none⟩
            (.uniq (.paramRef 3 (local_def 77)))) = []
        ↔ ∀ p ∈ walk_params (ast_ty_to_ty ⟨fun _ => none, fun _ => none, fun _ => none⟩
            (.uniq (.paramRef 3 (local_def 77)))), p.idx ≤ 1 + 0) :=
  default_forward_reference_check ⟨fun _ => none, fun _ => none, fun _ => none⟩ 1 emptyTcx 0
    ⟨5, 9, [], some (.uniq (.paramRef 3 (local_def 77)))⟩ (.uniq (.paramRef 3 (local_def 77)))
    (by decide) (by decide)

/-- C8 counterexample: a default that references the defining parameter
itself — a reference at an *equal* index — produces no reported error
(the check is `p.idx > cur_idx`, strictly greater), while the default is
still recorded; the claim that equal-index references are reported is
false. -/
theorem default_equal_index_not_reported :
    (ty_param_def_of ⟨fun _ => none, fun _ => none, fun _ => none⟩ 0 emptyTcx 0
        ⟨5, 9, [], some (.paramRef 0 (local_def 9))⟩).1.errs = []
    ∧ (ty_param_def_of ⟨fun _ => none, fun _ => none, fun _ => none⟩ 0 emptyTcx 0
        ⟨5, 9, [], some (.paramRef 0 (local_def 9))⟩).2.default
        = .some (.ty_param 0 (local_def 9)) := by decide

/-! ## C5 — duplicate field handling -/

/-- C5: converting a struct declared with two named fields of the same
name reports exactly one error (plus one note pointing at the first
occurrence); processing continues — both fields are converted and recorded
in the field list in order — and the first field wins as the binding
retained for the name: it is the first entry found under that name, and
its type is the one cached under its id. -/
theorem duplicate_field_one_error (env : Env) (tcx : Tcx) (tpt : ty_param_bounds_and_ty)
    (id id1 id2 n : Nat) (vis1 vis2 : Visibility) (t1 t2 : AstTy) (vb : Bool)
    (hname : n ≠ unnamed_field_name) (hids : id1 ≠ id2) :
    (convert_struct env tcx ⟨[⟨id1, .NamedField n vis1, t1⟩, ⟨id2, .NamedField n vis2, t2⟩],
        none, none, vb⟩ tpt id).errs
      = tcx.errs ++ [.fieldAlreadyDeclared n]
    ∧ (convert_struct env tcx ⟨[⟨id1, .NamedField n vis1, t1⟩, ⟨id2, .NamedField n vis2, t2⟩],
        none, none, vb⟩ tpt id).notes = tcx.notes + 1
    ∧ lookupA (convert_struct env tcx ⟨[⟨id1, .NamedField n vis1, t1⟩,
          ⟨id2, .NamedField n vis2, t2⟩], none, none, vb⟩ tpt id).struct_fields (local_def id)
      = some [⟨n, local_def id1, vis1, local_def id⟩, ⟨n, local_def id2, vis2, local_def id⟩]
    ∧ List.find? (fun ft => ft.name == n)
        [(⟨n, local_def id1, vis1, local_def id⟩ : field_ty),
         ⟨n, local_def id2, vis2, local_def id⟩]
      = some ⟨n, local_def id1, vis1, local_def id⟩
    ∧ lookupA (convert_struct env tcx ⟨[⟨id1, .NamedField n vis1, t1⟩,
          ⟨id2, .NamedField n vis2, t2⟩], none, none, vb⟩ tpt id).tcache (local_def id1)
      = some ⟨tpt.generics, ast_ty_to_ty env t1⟩ := by
  have hids2 : local_def id1 ≠ local_def id2 := by
    simp [local_def]
    exact hids
  refine ⟨?_, ?_, ?_, ?_, ?_⟩ <;>
    simp [convert_struct, convert_struct_fields_loop, convert_field, write_ty_to_tcx,
      hname, lookupA_insertA_self, lookupA_insertA_ne, hids2, List.find?]

/-- Concrete instantiation of `duplicate_field_one_error`: a struct (id 10)
with fields `x: prim 0` (id 11) and `x: prim 1` (id 12), name `x = 4`. -/
theorem duplicate_field_one_error_witness :
    (convert_struct ⟨fun _ => none, fun _ => none, fun _ => none⟩ emptyTcx
        ⟨[⟨11, .NamedField 4 .Public, .prim 0⟩, ⟨12, .NamedField 4 .Public, .prim 1⟩],
          none, none, false⟩ (no_params (.prim 9)) 10).errs
      = emptyTcx.errs ++ [.fieldAlreadyDeclared 4]
    ∧ (convert_struct ⟨fun _ => none, fun _ => none, fun _ => none⟩ emptyTcx
        ⟨[⟨11, .NamedField 4 .Public, .prim 0⟩, ⟨12, .NamedField 4 .Public, .prim 1⟩],
          none, none, false⟩ (no_params (.prim 9)) 10).notes = emptyTcx.notes + 1
    ∧ lookupA (convert_struct ⟨fun _ => none, fun _ => none, fun _ => none⟩ emptyTcx
        ⟨[⟨11, .NamedField 4 .Public, .prim 0⟩, ⟨12, .NamedField 4 .Public, .prim 1⟩],
          none, none, false⟩ (no_params (.prim 9)) 10).struct_fields (local_def 10)
      = some [⟨4, local_def 11, .Public, local_def 10⟩, ⟨4, local_def 12, .Public, local_def 10⟩]
    ∧ List.find? (fun ft => ft.name == 4)
        [(⟨4, local_def 11, .Public, local_def 10⟩ : field_ty),
         ⟨4, local_def 12, .Public, local_def 10⟩]
      = some ⟨4, local_def 11, .Public, local_def 10⟩
    ∧ lookupA (convert_struct ⟨fun _ => none, fun _ => none, fun _ => none⟩ emptyTcx
        ⟨[⟨11, .NamedField 4 .Public, .prim 0⟩, ⟨12, .NamedField 4 .Public, .prim 1⟩],
          none, none, false⟩ (no_params (.prim 9)) 10).tcache (local_def 11)
      = some ⟨(no_params (.prim 9)).generics, ast_ty_to_ty ⟨fun _ => none, fun _ => none, fun _ => none⟩ (.prim 0)⟩ :=
  duplicate_field_one_error ⟨fun _ => none, fun _ => none, fun _ => none⟩ emptyTcx
    (no_params (.prim 9)) 10 11 12 4 .Public .Public (.prim 0) (.prim 1) false
    (by decide) (by decide)

/-! ## C6 — duplicate supertrait handling -/

/-- Whether a supertrait reference resolves to a user (non-built-in)
trait. -/
def is_user_trait (env : Env) (s : AstTraitRef) : Bool :=
  match trait_ref_to_def_id env s with
  | some d => (env.builtinKind d).isNone
  | none => false

/-- The resolved trait def id of a supertrait reference. -/
def ref_did (env : Env) (s : AstTraitRef) : DefId :=
  (trait_ref_to_def_id env s).getD dummy_defid

/-- The resolved def ids of the user-trait references of a supertrait
list, in order. -/
def user_dids (env : Env) (refs : List AstTraitRef) : List DefId :=
  (refs.filter (is_user_trait env)).map (ref_did env)

/-- The trait reference produced by instantiating a supertrait reference
(state-independent part of `instantiate_trait_ref`). -/
def inst_ref (env : Env) (r : AstTraitRef) (self_ty : Ty) : TraitRef :=
  (instantiate_trait_ref env emptyTcx r self_ty).2

theorem instantiate_trait_ref_snd (env : Env) (tcx : Tcx) (r : AstTraitRef) (self_ty : Ty) :
    (instantiate_trait_ref env tcx r self_ty).2 = inst_ref env r self_ty := by
  unfold inst_ref
  cases h : env.defMap r.ref_id with
  | none => simp [instantiate_trait_ref, h]
  | some d => cases d <;> simp [instantiate_trait_ref, h]

theorem inst_ref_def_id (env : Env) (r : AstTraitRef) (self_ty : Ty) (did : DefId)
    (h : trait_ref_to_def_id env r = some did) :
    (inst_ref env r self_ty).def_id = did := by
  unfold trait_ref_to_def_id at h
  cases hd : env.defMap r.ref_id with
  | none => rw [hd] at h; cases h
  | some d =>
      cases d with
      | DefStruct x => rw [hd] at h; simp at h
      | DefOther => rw [hd] at h; simp at h
      | DefTrait x =>
          rw [hd] at h
          simp only [Option.some.injEq] at h
          subst h
          unfold inst_ref instantiate_trait_ref
          rw [hd]

theorem instantiate_trait_ref_frame2 (env : Env) (tcx : Tcx) (r : AstTraitRef) (self_ty : Ty) :
    (instantiate_trait_ref env tcx r self_ty).1.errs = tcx.errs
    ∧ (instantiate_trait_ref env tcx r self_ty).1.supertraits = tcx.supertraits
    ∧ (instantiate_trait_ref env tcx r self_ty).1.bugs = tcx.bugs := by
  unfold instantiate_trait_ref
  cases h : env.defMap r.ref_id with
  | none => simp
  | some d => cases d <;> simp

/-- Unfolding equation for the cons step of `ensure_supertraits_loop`. -/
theorem ensure_supertraits_loop_cons (env : Env) (tcx : Tcx) (self_ty : Ty)
    (acc : List TraitRef) (bounds : BuiltinBounds) (r : AstTraitRef)
    (rest : List AstTraitRef) :
    ensure_supertraits_loop env tcx self_ty acc bounds (r :: rest) =
      match trait_ref_to_def_id env r with
      | none => ({ tcx with bugs := tcx.bugs + 1 }, acc, bounds)
      | some trait_def_id =>
          if (try_add_builtin_trait env trait_def_id bounds).2 then
            ensure_supertraits_loop env (instantiate_trait_ref env tcx r self_ty).1 self_ty acc
              (try_add_builtin_trait env trait_def_id bounds).1 rest
          else if acc.any (fun other =>
              other.def_id == (instantiate_trait_ref env tcx r self_ty).2.def_id) then
            ({ (instantiate_trait_ref env tcx r self_ty).1 with
                errs := (instantiate_trait_ref env tcx r self_ty).1.errs
                  ++ [.duplicateSupertrait] }, acc,
             (try_add_builtin_trait env trait_def_id bounds).1)
          else
            ensure_supertraits_loop env (instantiate_trait_ref env tcx r self_ty).1 self_ty
              (acc ++ [(instantiate_trait_ref env tcx r self_ty).2])
              (try_add_builtin_trait env trait_def_id bounds).1 rest := rfl

/-- A supertrait reference that resolves to a trait changes only the
trait-reference table. -/
theorem instantiate_trait_ref_resolved (env : Env) (tcx : Tcx) (r : AstTraitRef)
    (self_ty : Ty) (did : DefId) (h : trait_ref_to_def_id env r = some did) :
    (instantiate_trait_ref env tcx r self_ty).1
      = { tcx with trait_refs := insertA tcx.trait_refs r.ref_id (inst_ref env r self_ty) } := by
  unfold trait_ref_to_def_id at h
  cases hd : env.defMap r.ref_id with
  | none => rw [hd] at h; cases h
  | some d =>
      cases d with
      | DefStruct x => rw [hd] at h; simp at h
      | DefOther => rw [hd] at h; simp at h
      | DefTrait x =>
          have : (inst_ref env r self_ty) = (instantiate_trait_ref env tcx r self_ty).2 :=
            (instantiate_trait_ref_snd env tcx r self_ty).symm
          rw [this]
          unfold instantiate_trait_ref
          rw [hd]

/-- `user_dids` over a cons cell. -/
theorem user_dids_cons (env : Env) (r : AstTraitRef) (rest : List AstTraitRef) :
    user_dids env (r :: rest)
      = if is_user_trait env r then ref_did env r :: user_dids env rest
        else user_dids env rest := by
  unfold user_dids
  rw [List.filter_cons]
  split <;> simp

/-- State after cleanly walking a supertrait list: every reference is
instantiated in order. -/
def clean_post_state (env : Env) (self_ty : Ty) (tcx : Tcx) (refs : List AstTraitRef) : Tcx :=
  refs.foldl (fun t s => (instantiate_trait_ref env t s self_ty).1) tcx

/-- Bounds after cleanly walking a supertrait list. -/
def clean_post_bounds (env : Env) (bounds : BuiltinBounds) (refs : List AstTraitRef) :
    BuiltinBounds :=
  refs.foldl (fun b s => (try_add_builtin_trait env (ref_did env s) b).1) bounds

theorem clean_post_state_frame (env : Env) (self_ty : Ty) :
    ∀ (refs : List AstTraitRef) (tcx : Tcx),
      (clean_post_state env self_ty tcx refs).errs = tcx.errs
      ∧ (clean_post_state env self_ty tcx refs).supertraits = tcx.supertraits
      ∧ (clean_post_state env self_ty tcx refs).bugs = tcx.bugs := by
  intro refs
  induction refs with
  | nil => intro tcx; exact ⟨rfl, rfl, rfl⟩
  | cons r rest ih =>
      intro tcx
      obtain ⟨h1, h2, h3⟩ := ih (instantiate_trait_ref env tcx r self_ty).1
      obtain ⟨g1, g2, g3⟩ := instantiate_trait_ref_frame2 env tcx r self_ty
      exact ⟨h1.trans g1, h2.trans g2, h3.trans g3⟩

/-- Unfolding equation of the supertrait loop when the head resolves. -/
theorem ensure_supertraits_loop_cons_resolved (env : Env) (tcx : Tcx) (self_ty : Ty)
    (acc : List TraitRef) (bounds : BuiltinBounds) (r : AstTraitRef)
    (rest : List AstTraitRef) (d : DefId) (hd : trait_ref_to_def_id env r = some d) :
    ensure_supertraits_loop env tcx self_ty acc bounds (r :: rest) =
      (if (try_add_builtin_trait env d bounds).2 then
        ensure_supertraits_loop env (instantiate_trait_ref env tcx r self_ty).1 self_ty acc
          (try_add_builtin_trait env d bounds).1 rest
      else if acc.any (fun other =>
          other.def_id == (instantiate_trait_ref env tcx r self_ty).2.def_id) then
        ({ (instantiate_trait_ref env tcx r self_ty).1 with
            errs := (instantiate_trait_ref env tcx r self_ty).1.errs
              ++ [.duplicateSupertrait] }, acc,
         (try_add_builtin_trait env d bounds).1)
      else
        ensure_supertraits_loop env (instantiate_trait_ref env tcx r self_ty).1 self_ty
          (acc ++ [(instantiate_trait_ref env tcx r self_ty).2])
          (try_add_builtin_trait env d bounds).1 rest) := by
  rw [ensure_supertraits_loop_cons, hd]

theorem ref_did_eq (env : Env) (r : AstTraitRef) (d : DefId)
    (hd : trait_ref_to_def_id env r = some d) : ref_did env r = d := by
  unfold ref_did
  rw [hd]
  rfl

/-- Cleanly walking a duplicate-free, fully resolving supertrait prefix
neither reports nor breaks: the loop continues on the remaining references
from the folded state, with the prefix's user trait references appended to
the accumulator. -/
theorem ensure_supertraits_loop_clean_append (env : Env) (self_ty : Ty) :
    ∀ (refs rest : List AstTraitRef) (tcx : Tcx) (acc : List TraitRef)
      (bounds : BuiltinBounds),
      (∀ s ∈ refs, ∃ d, trait_ref_to_def_id env s = some d) →
      (∀ d ∈ user_dids env refs, d ∉ acc.map TraitRef.def_id) →
      (user_dids env refs).Nodup →
      ensure_supertraits_loop env tcx self_ty acc bounds (refs ++ rest)
        = ensure_supertraits_loop env (clean_post_state env self_ty tcx refs) self_ty
            (acc ++ (refs.filter (is_user_trait env)).map (fun s => inst_ref env s self_ty))
            (clean_post_bounds env bounds refs) rest := by
  intro refs
  induction refs with
  | nil =>
      intro rest tcx acc bounds _ _ _
      simp [clean_post_state, clean_post_bounds]
  | cons r refs ih =>
      intro rest tcx acc bounds hres hnew hnodup
      obtain ⟨d, hd⟩ := hres r (List.mem_cons_self ..)
      have hrd : ref_did env r = d := ref_did_eq env r d hd
      rw [List.cons_append, ensure_supertraits_loop_cons_resolved env tcx self_ty acc bounds
        r (refs ++ rest) d hd]
      cases hb : env.builtinKind d with
      | some b =>
          have huser : is_user_trait env r = false := by
            unfold is_user_trait
            rw [hd]
            simp [hb]
          have hadded : (try_add_builtin_trait env d bounds).2 = true := by
            unfold try_add_builtin_trait
            rw [hb]
          rw [if_pos hadded]
          have hdids : user_dids env (r :: refs) = user_dids env refs := by
            rw [user_dids_cons, if_neg (by simp [huser])]
          rw [ih rest (instantiate_trait_ref env tcx r self_ty).1 acc
            (try_add_builtin_trait env d bounds).1
            (fun s hs => hres s (List.mem_cons_of_mem _ hs))
            (fun d2 hd2 => hnew d2 (hdids ▸ hd2))
            (hdids ▸ hnodup)]
          have hstate : clean_post_state env self_ty (instantiate_trait_ref env tcx r self_ty).1 refs
              = clean_post_state env self_ty tcx (r :: refs) := rfl
          have hbounds : clean_post_bounds env (try_add_builtin_trait env d bounds).1 refs
              = clean_post_bounds env bounds (r :: refs) := by
            unfold clean_post_bounds
            rw [List.foldl_cons, hrd]
          have hfilter : (r :: refs).filter (is_user_trait env) = refs.filter (is_user_trait env) := by
            rw [List.filter_cons, if_neg (by simp [huser])]
          rw [hstate, hbounds, hfilter]
      | none =>
          have huser : is_user_trait env r = true := by
            unfold is_user_trait
            rw [hd]
            simp [hb]
          have hadded : (try_add_builtin_trait env d bounds).2 = false := by
            unfold try_add_builtin_trait
            rw [hb]
          rw [if_neg (by simp [hadded])]
          have hdids : user_dids env (r :: refs) = ref_did env r :: user_dids env refs := by
            rw [user_dids_cons, if_pos huser]
          have hdin : d ∉ acc.map TraitRef.def_id := by
            refine hnew d ?_
            rw [hdids, hrd]
            exact List.mem_cons_self ..
          have hsnd : (instantiate_trait_ref env tcx r self_ty).2.def_id = d := by
            rw [instantiate_trait_ref_snd]
            exact inst_ref_def_id env r self_ty d hd
          have hany : (acc.any (fun other =>
              other.def_id == (instantiate_trait_ref env tcx r self_ty).2.def_id)) = false := by
            rw [hsnd]
            rw [List.any_eq_false]
            intro o ho hbeq
            exact hdin (List.mem_map.mpr ⟨o, ho, by simpa using hbeq⟩)
          rw [if_neg (by simp [hany])]
          have hnodup2 : (user_dids env refs).Nodup := by
            rw [hdids] at hnodup
            exact (List.nodup_cons.mp hnodup).2
          have hdnotin : d ∉ user_dids env refs := by
            rw [hdids, hrd] at hnodup
            exact (List.nodup_cons.mp hnodup).1
          have hnew2 : ∀ d2 ∈ user_dids env refs,
              d2 ∉ (acc ++ [(instantiate_trait_ref env tcx r self_ty).2]).map TraitRef.def_id := by
            intro d2 hd2
            rw [List.map_append, List.map_singleton, hsnd]
            intro hmem
            rcases List.mem_append.mp hmem with h | h
            · exact hnew d2 (by rw [hdids]; exact List.mem_cons_of_mem _ hd2) h
            · rcases List.mem_singleton.mp h with rfl
              exact hdnotin hd2
          rw [ih rest (instantiate_trait_ref env tcx r self_ty).1
            (acc ++ [(instantiate_trait_ref env tcx r self_ty).2])
            (try_add_builtin_trait env d bounds).1
            (fun s hs => hres s (List.mem_cons_of_mem _ hs)) hnew2 hnodup2]
          have hstate : clean_post_state env self_ty (instantiate_trait_ref env tcx r self_ty).1 refs
              = clean_post_state env self_ty tcx (r :: refs) := rfl
          have hbounds : clean_post_bounds env (try_add_builtin_trait env d bounds).1 refs
              = clean_post_bounds env bounds (r :: refs) := by
            unfold clean_post_bounds
            rw [List.foldl_cons, hrd]
          have hfilter : (r :: refs).filter (is_user_trait env)
              = r :: refs.filter (is_user_trait env) := by
            rw [List.filter_cons, if_pos (by simp [huser])]
          rw [hstate, hbounds, hfilter, instantiate_trait_ref_snd]
          rw [List.map_cons, List.append_cons]
          simp

/-- A user supertrait whose trait already occurs in the accumulated list
reports one duplicate error and breaks the loop: the remaining references
are never processed. -/
theorem ensure_supertraits_loop_dup (env : Env) (tcx : Tcx) (self_ty : Ty)
    (acc : List TraitRef) (bounds : BuiltinBounds) (r : AstTraitRef)
    (rest : List AstTraitRef) (d : DefId)
    (hd : trait_ref_to_def_id env r = some d)
    (hb : env.builtinKind d = none)
    (hdup : d ∈ acc.map TraitRef.def_id) :
    ensure_supertraits_loop env tcx self_ty acc bounds (r :: rest)
      = ensure_supertraits_loop env tcx self_ty acc bounds [r]
    ∧ (ensure_supertraits_loop env tcx self_ty acc bounds (r :: rest)).1.errs
      = tcx.errs ++ [.duplicateSupertrait]
    ∧ (ensure_supertraits_loop env tcx self_ty acc bounds (r :: rest)).1.supertraits
      = tcx.supertraits
    ∧ (ensure_supertraits_loop env tcx self_ty acc bounds (r :: rest)).2.1 = acc := by
  have hadded : (try_add_builtin_trait env d bounds).2 = false := by
    unfold try_add_builtin_trait
    rw [hb]
  have hsnd : (instantiate_trait_ref env tcx r self_ty).2.def_id = d := by
    rw [instantiate_trait_ref_snd]
    exact inst_ref_def_id env r self_ty d hd
  have hany : (acc.any fun other =>
      other.def_id == (instantiate_trait_ref env tcx r self_ty).2.def_id) = true := by
    rw [hsnd, List.any_eq_true]
    obtain ⟨o, ho, heq⟩ := List.mem_map.mp hdup
    exact ⟨o, ho, by simpa using heq⟩
  have key : ∀ tail, ensure_supertraits_loop env tcx self_ty acc bounds (r :: tail)
      = ({ (instantiate_trait_ref env tcx r self_ty).1 with
            errs := (instantiate_trait_ref env tcx r self_ty).1.errs ++ [.duplicateSupertrait] },
         acc, (try_add_builtin_trait env d bounds).1) := by
    intro tail
    rw [ensure_supertraits_loop_cons_resolved env tcx self_ty acc bounds r tail d hd]
    rw [if_neg (by simp [hadded]), if_pos hany]
  obtain ⟨g1, g2, _⟩ := instantiate_trait_ref_frame2 env tcx r self_ty
  refine ⟨(key rest).trans (key []).symm, ?_, ?_, ?_⟩
  · rw [key rest]
    simpa using g1
  · rw [key rest]
    simpa using g2
  · rw [key rest]

/-- C6: for a trait declaration whose supertrait list resolves and names
the same user trait a second time after a duplicate-free prefix, exactly
one duplicate-supertrait error is reported, processing of the remaining
supertraits stops at the duplicate (the result does not depend on them),
the recorded explicit supertrait list is exactly the prefix's user trait
references, and it retains exactly one reference to the duplicated
trait. -/
theorem duplicate_supertrait_one_error (env : Env) (tcx : Tcx) (id : Nat)
    (pre post : List AstTraitRef) (r : AstTraitRef) (d : DefId)
    (hassert : containsA tcx.supertraits (local_def id) = false)
    (hres : ∀ s ∈ pre, ∃ d2, trait_ref_to_def_id env s = some d2)
    (hr : trait_ref_to_def_id env r = some d)
    (huser : env.builtinKind d = none)
    (hdup : d ∈ user_dids env pre)
    (hnodup : (user_dids env pre).Nodup) :
    (ensure_supertraits env tcx id (pre ++ r :: post)
      = ensure_supertraits env tcx id (pre ++ [r]))
    ∧ (ensure_supertraits env tcx id (pre ++ r :: post)).1.errs
      = tcx.errs ++ [.duplicateSupertrait]
    ∧ lookupA (ensure_supertraits env tcx id (pre ++ r :: post)).1.supertraits (local_def id)
      = some ((pre.filter (is_user_trait env)).map
          (fun s => inst_ref env s (mk_self (local_def id))))
    ∧ (((pre.filter (is_user_trait env)).map
          (fun s => inst_ref env s (mk_self (local_def id)))).map TraitRef.def_id).count d
      = 1 := by
  have hunfold : ∀ refs2, ensure_supertraits env tcx id refs2
      = ({ (ensure_supertraits_loop env tcx (mk_self (local_def id)) [] EmptyBuiltinBounds
            refs2).1 with
            supertraits := insertA (ensure_supertraits_loop env tcx (mk_self (local_def id)) []
                EmptyBuiltinBounds refs2).1.supertraits (local_def id)
              (ensure_supertraits_loop env tcx (mk_self (local_def id)) [] EmptyBuiltinBounds
                refs2).2.1 },
         (ensure_supertraits_loop env tcx (mk_self (local_def id)) [] EmptyBuiltinBounds
           refs2).2.2) := by
    intro refs2
    unfold ensure_supertraits
    simp only [hassert, Bool.false_eq_true, if_false]
  have hmapdid : (((pre.filter (is_user_trait env)).map
      (fun s => inst_ref env s (mk_self (local_def id)))).map TraitRef.def_id)
      = user_dids env pre := by
    unfold user_dids
    rw [List.map_map]
    refine List.map_congr_left ?_
    intro s hs
    obtain ⟨d2, hd2⟩ := hres s (List.mem_of_mem_filter hs)
    simp only [Function.comp_apply]
    rw [inst_ref_def_id env s (mk_self (local_def id)) d2 hd2, ref_did_eq env s d2 hd2]
  have hsplit := ensure_supertraits_loop_clean_append env (mk_self (local_def id)) pre
    (r :: post) tcx [] EmptyBuiltinBounds hres (by simp) hnodup
  have hsplit2 := ensure_supertraits_loop_clean_append env (mk_self (local_def id)) pre
    [r] tcx [] EmptyBuiltinBounds hres (by simp) hnodup
  have hdup2 : d ∈ ((pre.filter (is_user_trait env)).map
      (fun s => inst_ref env s (mk_self (local_def id)))).map TraitRef.def_id := by
    rw [hmapdid]
    exact hdup
  obtain ⟨hstop, herrs, hsup, hacc⟩ := ensure_supertraits_loop_dup env
    (clean_post_state env (mk_self (local_def id)) tcx pre) (mk_self (local_def id))
    ([] ++ (pre.filter (is_user_trait env)).map (fun s => inst_ref env s (mk_self (local_def id))))
    (clean_post_bounds env EmptyBuiltinBounds pre) r post d hr huser (by simpa using hdup2)
  obtain ⟨p1, p2, _⟩ := clean_post_state_frame env (mk_self (local_def id)) pre tcx
  refine ⟨?_, ?_, ?_, ?_⟩
  · rw [hunfold, hunfold, hsplit, hsplit2, hstop]
  · rw [hunfold]
    show (ensure_supertraits_loop env tcx (mk_self (local_def id)) [] EmptyBuiltinBounds
      (pre ++ r :: post)).1.errs = _
    rw [hsplit, herrs, p1]
  · rw [hunfold]
    show lookupA (insertA (ensure_supertraits_loop env tcx (mk_self (local_def id)) []
        EmptyBuiltinBounds (pre ++ r :: post)).1.supertraits (local_def id)
        (ensure_supertraits_loop env tcx (mk_self (local_def id)) [] EmptyBuiltinBounds
          (pre ++ r :: post)).2.1) (local_def id) = _
    rw [lookupA_insertA_self, hsplit, hacc]
    simp
  · rw [hmapdid]
    exact List.count_eq_one_of_mem hnodup hdup

/-- Concrete instantiation of `duplicate_supertrait_one_error`: trait id 3
declares the same user trait (def id 60, resolved through path nodes 200
and 201) twice, followed by a further supertrait that is never
processed. -/
theorem duplicate_supertrait_one_error_witness :
    (ensure_supertraits
        ⟨fun _ => none,
         fun n => if n = 200 ∨ n = 201 then some (.DefTrait ⟨0, 60⟩) else none,
         fun _ => none⟩
        emptyTcx 3 ([⟨200, []⟩] ++ ⟨201, []⟩ :: [⟨999, []⟩])
      = ensure_supertraits
        ⟨fun _ => none,
         fun n => if n = 200 ∨ n = 201 then some (.DefTrait ⟨0, 60⟩) else none,
         fun _ => none⟩
        emptyTcx 3 ([⟨200, []⟩] ++ [⟨201, []⟩]))
    ∧ (ensure_supertraits
        ⟨fun _ => none,
         fun n => if n = 200 ∨ n = 201 then some (.DefTrait ⟨0, 60⟩) else none,
         fun _ => none⟩
        emptyTcx 3 ([⟨200, []⟩] ++ ⟨201, []⟩ :: [⟨999, []⟩])).1.errs
      = emptyTcx.errs ++ [.duplicateSupertrait]
    ∧ lookupA (ensure_supertraits
        ⟨fun _ => none,
         fun n => if n = 200 ∨ n = 201 then some (.DefTrait ⟨0, 60⟩) else none,
         fun _ => none⟩
        emptyTcx 3 ([⟨200, []⟩] ++ ⟨201, []⟩ :: [⟨999, []⟩])).1.supertraits (local_def 3)
      = some (([⟨200, []⟩].filter (is_user_trait
          ⟨fun _ => none,
           fun n => if n = 200 ∨ n = 201 then some (.DefTrait ⟨0, 60⟩) else none,
           fun _ => none⟩)).map
          (fun s => inst_ref
            ⟨fun _ => none,
             fun n => if n = 200 ∨ n = 201 then some (.DefTrait ⟨0, 60⟩) else none,
             fun _ => none⟩ s (mk_self (local_def 3))))
    ∧ ((([⟨200, []⟩].filter (is_user_trait
          ⟨fun _ => none,
           fun n => if n = 200 ∨ n = 201 then some (.DefTrait ⟨0, 60⟩) else none,
           fun _ => none⟩)).map
          (fun s => inst_ref
            ⟨fun _ => none,
             fun n => if n = 200 ∨ n = 201 then some (.DefTrait ⟨0, 60⟩) else none,
             fun _ => none⟩ s (mk_self (local_def 3)))).map TraitRef.def_id).count ⟨0, 60⟩
      = 1 :=
  duplicate_supertrait_one_error
    ⟨fun _ => none,
     fun n => if n = 200 ∨ n = 201 then some (.DefTrait ⟨0, 60⟩) else none,
     fun _ => none⟩
    emptyTcx 3 [⟨200, []⟩] [⟨999, []⟩] ⟨201, []⟩ ⟨0, 60⟩
    (by decide)
    (by
      intro s hs
      rw [List.mem_singleton] at hs
      subst hs
      exact ⟨⟨0, 60⟩, by decide⟩)
    (by decide) (by decide) (by decide) (by decide)

/-! ## C7 — bound restriction on struct/enum/type-alias generics -/

/-- Whether an error event is the `ensure_no_ty_param_bounds` report. -/
def is_bounds_err : ErrKind → Bool
  | .traitBoundsNotAllowed _ => true
  | _ => false

/-- Number of `ensure_no_ty_param_bounds` reports in an event log. -/
def bounds_err_count (l : List ErrKind) : Nat :=
  (l.filter is_bounds_err).length

/-- Number of type parameters of a surface generics list that carry at
least one bound. -/
def bounded_param_count (g : AstGenerics) : Nat :=
  (g.ty_params.filter (fun p => decide (p.bounds.length > 0))).length

theorem bounds_err_count_append (a b : List ErrKind) :
    bounds_err_count (a ++ b) = bounds_err_count a + bounds_err_count b := by
  simp [bounds_err_count, List.filter_append]

theorem bounds_err_count_forward (c : Nat) (t : Ty) :
    bounds_err_count (default_forward_errs c t) = 0 := by
  unfold default_forward_errs bounds_err_count
  generalize (walk_params t).filter (fun p => decide (p.idx > c)) = l
  induction l with
  | nil => rfl
  | cons x xs ih => simp [is_bounds_err, ih]

theorem ty_param_def_of_bec (env : Env) (base : Nat) (tcx : Tcx) (offset : Nat)
    (p : AstTyParam) :
    bounds_err_count (ty_param_def_of env base tcx offset p).1.errs
      = bounds_err_count tcx.errs := by
  cases h : lookupA tcx.ty_param_defs p.id with
  | some d =>
      unfold ty_param_def_of
      rw [h]
  | none =>
      obtain ⟨_, _, herrs, _⟩ := ty_param_def_of_miss env base tcx offset p h
      rw [herrs]
      cases hd : p.default with
      | none => simp
      | some path =>
          rw [bounds_err_count_append, bounds_err_count_forward]
          simp

theorem ty_param_defs_of_bec (env : Env) (base : Nat) :
    ∀ (ps : List AstTyParam) (tcx : Tcx) (offset : Nat),
      bounds_err_count (ty_param_defs_of env base tcx offset ps).1.errs
        = bounds_err_count tcx.errs := by
  intro ps
  induction ps with
  | nil => intro tcx offset; rfl
  | cons p ps ih =>
      intro tcx offset
      have h1 := ty_param_def_of_bec env base tcx offset p
      have h2 := ih (ty_param_def_of env base tcx offset p).1 (offset + 1)
      exact h2.trans h1

theorem ty_generics_bec (env : Env) (tcx : Tcx) (lifetimes : List AstLifetime)
    (ps : List AstTyParam) (base : Nat) :
    bounds_err_count (ty_generics env tcx lifetimes ps base).1.errs
      = bounds_err_count tcx.errs :=
  ty_param_defs_of_bec env base ps tcx 0

theorem ty_of_item_bec (env : Env) (tcx : Tcx) (it : AstItem) :
    bounds_err_count (ty_of_item env tcx it).1.errs = bounds_err_count tcx.errs := by
  unfold ty_of_item
  cases h : lookupA tcx.tcache (local_def it.id) with
  | some tpt => simp only [h]
  | none =>
      simp only [h]
      cases hn : it.node <;> simp only [hn] <;>
        first
        | rfl
        | exact ty_generics_bec env tcx (early_bound_lifetimes _) _ 0

/-- Unfolding equation for the cons step of the struct-field loop. -/
theorem convert_struct_fields_loop_cons (env : Env) (g : Generics) (origin : DefId)
    (tcx : Tcx) (seen : List Nat) (f : AstStructField) (fs : List AstStructField) :
    convert_struct_fields_loop env g origin tcx seen (f :: fs) =
      ((convert_struct_fields_loop env g origin
          (if (convert_field env tcx g f origin).2.name ≠ unnamed_field_name then
            if seen.contains (convert_field env tcx g f origin).2.name then
              ({ (convert_field env tcx g f origin).1 with
                  errs := (convert_field env tcx g f origin).1.errs
                    ++ [.fieldAlreadyDeclared (convert_field env tcx g f origin).2.name],
                  notes := (convert_field env tcx g f origin).1.notes + 1 }, seen)
            else ((convert_field env tcx g f origin).1,
                  seen ++ [(convert_field env tcx g f origin).2.name])
          else (((convert_field env tcx g f origin).1, seen) : Tcx × List Nat)).1
          (if (convert_field env tcx g f origin).2.name ≠ unnamed_field_name then
            if seen.contains (convert_field env tcx g f origin).2.name then
              ({ (convert_field env tcx g f origin).1 with
                  errs := (convert_field env tcx g f origin).1.errs
                    ++ [.fieldAlreadyDeclared (convert_field env tcx g f origin).2.name],
                  notes := (convert_field env tcx g f origin).1.notes + 1 }, seen)
            else ((convert_field env tcx g f origin).1,
                  seen ++ [(convert_field env tcx g f origin).2.name])
          else (((convert_field env tcx g f origin).1, seen) : Tcx × List Nat)).2 fs).1,
       (convert_field env tcx g f origin).2 ::
         (convert_struct_fields_loop env g origin
          (if (convert_field env tcx g f origin).2.name ≠ unnamed_field_name then
            if seen.contains (convert_field env tcx g f origin).2.name then
              ({ (convert_field env tcx g f origin).1 with
                  errs := (convert_field env tcx g f origin).1.errs
                    ++ [.fieldAlreadyDeclared (convert_field env tcx g f origin).2.name],
                  notes := (convert_field env tcx g f origin).1.notes + 1 }, seen)
            else ((convert_field env tcx g f origin).1,
                  seen ++ [(convert_field env tcx g f origin).2.name])
          else (((convert_field env tcx g f origin).1, seen) : Tcx × List Nat)).1
          (if (convert_field env tcx g f origin).2.name ≠ unnamed_field_name then
            if seen.contains (convert_field env tcx g f origin).2.name then
              ({ (convert_field env tcx g f origin).1 with
                  errs := (convert_field env tcx g f origin).1.errs
                    ++ [.fieldAlreadyDeclared (convert_field env tcx g f origin).2.name],
                  notes := (convert_field env tcx g f origin).1.notes + 1 }, seen)
            else ((convert_field env tcx g f origin).1,
                  seen ++ [(convert_field env tcx g f origin).2.name])
          else (((convert_field env tcx g f origin).1, seen) : Tcx × List Nat)).2 fs).2) := rfl

theorem convert_struct_fields_loop_bec (env : Env) (g : Generics) (origin : DefId) :
    ∀ (fs : List AstStructField) (tcx : Tcx) (seen : List Nat),
      bounds_err_count (convert_struct_fields_loop env g origin tcx seen fs).1.errs
        = bounds_err_count tcx.errs := by
  intro fs
  induction fs with
  | nil => intro tcx seen; rfl
  | cons f fs ih =>
      intro tcx seen
      have hcf : (convert_field env tcx g f origin).1.errs = tcx.errs := by
        unfold convert_field write_ty_to_tcx
        cases f.kind <;> rfl
      rw [convert_struct_fields_loop_cons]
      show bounds_err_count (convert_struct_fields_loop env g origin _ _ fs).1.errs = _
      rw [ih]
      split
      · split
        · show bounds_err_count ((convert_field env tcx g f origin).1.errs
            ++ [.fieldAlreadyDeclared (convert_field env tcx g f origin).2.name]) = _
          rw [bounds_err_count_append, hcf]
          simp [bounds_err_count, is_bounds_err]
        · show bounds_err_count (convert_field env tcx g f origin).1.errs = _
          rw [hcf]
      · show bounds_err_count (convert_field env tcx g f origin).1.errs = _
        rw [hcf]
theorem convert_struct_bec (env : Env) (sd : AstStructDef) (tpt : ty_param_bounds_and_ty)
    (id : Nat) (tcx : Tcx) :
    bounds_err_count (convert_struct env tcx sd tpt id).errs
      = bounds_err_count tcx.errs := by
  have hloop := convert_struct_fields_loop_bec env tpt.generics (local_def id) sd.fields tcx []
  have hsingle : bounds_err_count [ErrKind.structInheritanceNonVirtual] = 0 := rfl
  unfold convert_struct
  rcases hres : convert_struct_fields_loop env tpt.generics (local_def id) tcx [] sd.fields
    with ⟨t1, ftys⟩
  rw [hres] at hloop
  simp only []
  repeat' split
  all_goals simp_all [write_ty_to_tcx, bounds_err_count_append]

theorem get_enum_variant_types_loop_bec (env : Env) (enum_ty : Ty) (generics : AstGenerics) :
    ∀ (vs : List AstVariant) (tcx : Tcx),
      bounds_err_count (get_enum_variant_types_loop env enum_ty generics tcx vs).errs
        = bounds_err_count tcx.errs := by
  intro vs
  induction vs with
  | nil => intro tcx; rfl
  | cons v rest ih =>
      intro tcx
      unfold get_enum_variant_types_loop
      cases hk : v.kind <;> simp only [hk] <;> repeat' split
      all_goals
        simp_all [write_ty_to_tcx, ty_generics_for_type, ty_generics_bec, convert_struct_bec]

theorem ensure_no_bounds_foldl (thing : BoundsThing) :
    ∀ (ps : List AstTyParam) (tcx : Tcx),
      bounds_err_count ((ps.foldl (fun t p =>
          if p.bounds.length > 0 then
            { t with errs := t.errs ++ [.traitBoundsNotAllowed thing] }
          else t) tcx)).errs
        = bounds_err_count tcx.errs
            + (ps.filter (fun p => decide (p.bounds.length > 0))).length := by
  intro ps
  induction ps with
  | nil => intro tcx; simp
  | cons p ps ih =>
      intro tcx
      rw [List.foldl_cons, List.filter_cons]
      by_cases hb : p.bounds.length > 0
      · rw [if_pos hb, ih]
        have h1 : bounds_err_count ({ tcx with
            errs := tcx.errs ++ [.traitBoundsNotAllowed thing] } : Tcx).errs
            = bounds_err_count tcx.errs + 1 := by
          show bounds_err_count (tcx.errs ++ [.traitBoundsNotAllowed thing]) = _
          rw [bounds_err_count_append]
          rfl
        rw [h1]
        simp [hb]
        omega
      · rw [if_neg hb, ih]
        simp [hb]

/-- `ensure_no_ty_param_bounds` reports exactly one error per type
parameter carrying at least one bound, and nothing else. -/
theorem ensure_no_ty_param_bounds_bec (tcx : Tcx) (g : AstGenerics) (thing : BoundsThing) :
    bounds_err_count (ensure_no_ty_param_bounds tcx g thing).errs
      = bounds_err_count tcx.errs + bounded_param_count g :=
  ensure_no_bounds_foldl thing g.ty_params tcx

theorem ensure_generics_abi_bec (tcx : Tcx) (abi : Abi) (g : AstGenerics) :
    bounds_err_count (ensure_generics_abi tcx abi g).errs = bounds_err_count tcx.errs := by
  unfold ensure_generics_abi
  split
  · show bounds_err_count (tcx.errs ++ [.foreignFnTyParams]) = _
    rw [bounds_err_count_append]
    rfl
  · rfl

theorem ty_of_method_bec (env : Env) (tcx : Tcx) (container : MethodContainer)
    (m : AstMethod) (rcvr_ty : Ty) (rg : AstGenerics) (rv : Visibility) :
    bounds_err_count (ty_of_method env tcx container m rcvr_ty rg rv).1.errs
      = bounds_err_count tcx.errs :=
  ty_generics_bec env tcx (early_bound_lifetimes m.generics) m.generics.ty_params
    rg.ty_params.length

theorem convert_methods_loop_bec (env : Env) (container : MethodContainer)
    (rcvr_ty : Ty) (rtg : Generics) (rag : AstGenerics) (rv : Visibility) :
    ∀ (ms : List AstMethod) (tcx : Tcx) (seen : List Nat),
      bounds_err_count (convert_methods_loop env container rcvr_ty rtg rag rv tcx seen ms).errs
        = bounds_err_count tcx.errs := by
  intro ms
  induction ms with
  | nil => intro tcx seen; rfl
  | cons m ms ih =>
      intro tcx seen
      unfold convert_methods_loop
      split
      rename_i t1 s1 heq
      rw [ih]
      show bounds_err_count (ty_of_method env
          (ty_generics_for_fn_or_method env t1 m.generics rtg.type_param_defs.length).1
          container m rcvr_ty rag rv).1.errs = _
      rw [ty_of_method_bec]
      have h2 : bounds_err_count
          (ty_generics_for_fn_or_method env t1 m.generics rtg.type_param_defs.length).1.errs
          = bounds_err_count t1.errs :=
        ty_generics_bec env t1 (early_bound_lifetimes m.generics) m.generics.ty_params _
      rw [h2]
      split at heq
      · have ht1 : t1 = { tcx with errs := tcx.errs ++ [ErrKind.duplicateMethod] } :=
          congrArg Prod.fst heq.symm
        rw [ht1]
        show bounds_err_count (tcx.errs ++ [ErrKind.duplicateMethod]) = _
        rw [bounds_err_count_append]
        rfl
      · have ht1 : t1 = tcx := congrArg Prod.fst heq.symm
        rw [ht1]

theorem ty_method_of_trait_method_bec (env : Env) (tcx : Tcx) (trait_id : Nat)
    (tg : Generics) (m_id m_ident : Nat) (es : ExplicitSelf) (mg : AstGenerics)
    (d : FnDecl) :
    bounds_err_count (ty_method_of_trait_method env tcx trait_id tg m_id m_ident es mg
      d).1.errs = bounds_err_count tcx.errs :=
  ty_generics_bec env tcx (early_bound_lifetimes mg) mg.ty_params tg.type_param_defs.length

theorem make_static_method_ty_bec (tcx : Tcx) (trait_id : Nat) (m : Method)
    (tg : Generics) :
    bounds_err_count (make_static_method_ty tcx trait_id m tg).errs
      = bounds_err_count tcx.errs := by
  unfold make_static_method_ty
  cases h : lookupA tcx.trait_defs (local_def trait_id) <;> rfl

theorem ensure_trait_methods_loop_bec (env : Env) (trait_id : Nat) (tg : Generics) :
    ∀ (ms : List AstTraitMethod) (tcx : Tcx),
      bounds_err_count (ensure_trait_methods_loop env trait_id tg tcx ms).errs
        = bounds_err_count tcx.errs := by
  intro ms
  induction ms with
  | nil => intro tcx; rfl
  | cons m ms ih =>
      intro tcx
      unfold ensure_trait_methods_loop
      cases m with
      | Required tm =>
          simp only []
          rw [ih]
          split
          · rw [make_static_method_ty_bec]
            exact ty_method_of_trait_method_bec env tcx trait_id tg tm.id tm.ident
              tm.explicit_self tm.generics tm.decl
          · exact ty_method_of_trait_method_bec env tcx trait_id tg tm.id tm.ident
              tm.explicit_self tm.generics tm.decl
      | Provided pm =>
          simp only []
          rw [ih]
          split
          · rw [make_static_method_ty_bec]
            exact ty_method_of_trait_method_bec env tcx trait_id tg pm.id pm.ident
              pm.explicit_self pm.generics pm.decl
          · exact ty_method_of_trait_method_bec env tcx trait_id tg pm.id pm.ident
              pm.explicit_self pm.generics pm.decl

theorem ensure_trait_methods_bec (env : Env) (tcx : Tcx) (trait_id : Nat) :
    bounds_err_count (ensure_trait_methods env tcx trait_id).errs
      = bounds_err_count tcx.errs := by
  unfold ensure_trait_methods
  cases h : env.astMap trait_id with
  | none => simp only [h]
  | some item =>
      simp only [h]
      cases hn : item.node <;> (simp only [hn]; try rfl)
      rename_i generics supertraits ms
      show bounds_err_count (ensure_trait_methods_loop env trait_id
          (ty_generics_for_type env tcx generics).2
          (ty_generics_for_type env tcx generics).1 ms).errs = _
      rw [ensure_trait_methods_loop_bec]
      exact ty_generics_bec env tcx generics.lifetimes generics.ty_params 0

/-- C7: converting a struct, enum, or type-alias item reports exactly one
trait-bounds-not-allowed error per type parameter that carries at least
one bound (so any bounded parameter yields a report); converting a
function item, uniform method processing (`convert_methods`, used for
impl and trait methods), and trait-method scheme computation
(`ensure_trait_methods`) never report that error. -/
theorem bound_restriction (env : Env) (tcx : Tcx) :
    (∀ (id idn : Nat) (vis : Visibility) (sd : AstStructDef) (g : AstGenerics),
      bounds_err_count (convert env tcx ⟨id, idn, vis, .ItemStruct sd g⟩).errs
        = bounds_err_count tcx.errs + bounded_param_count g)
    ∧ (∀ (id idn : Nat) (vis : Visibility) (vars : List AstVariant) (g : AstGenerics),
      bounds_err_count (convert env tcx ⟨id, idn, vis, .ItemEnum vars g⟩).errs
        = bounds_err_count tcx.errs + bounded_param_count g)
    ∧ (∀ (id idn : Nat) (vis : Visibility) (t : AstTy) (g : AstGenerics),
      bounds_err_count (convert env tcx ⟨id, idn, vis, .ItemTy t g⟩).errs
        = bounds_err_count tcx.errs + bounded_param_count g)
    ∧ (∀ (id idn : Nat) (vis : Visibility) (decl : FnDecl) (abi : Abi) (g : AstGenerics),
      bounds_err_count (convert env tcx ⟨id, idn, vis, .ItemFn decl abi g⟩).errs
        = bounds_err_count tcx.errs)
    ∧ (∀ (container : MethodContainer) (ms : List AstMethod) (rcvr_ty : Ty)
        (rtg : Generics) (rag : AstGenerics) (rv : Visibility),
      bounds_err_count (convert_methods env tcx container ms rcvr_ty rtg rag rv).errs
        = bounds_err_count tcx.errs)
    ∧ (∀ trait_id : Nat,
      bounds_err_count (ensure_trait_methods env tcx trait_id).errs
        = bounds_err_count tcx.errs) := by
  refine ⟨?_, ?_, ?_, ?_, ?_, ?_⟩
  · intro id idn vis sd g
    unfold convert
    rcases hty : ty_of_item env (ensure_no_ty_param_bounds tcx g .structureKind)
      ⟨id, idn, vis, .ItemStruct sd g⟩ with ⟨t2, o⟩
    have hbec2 : bounds_err_count t2.errs
        = bounds_err_count tcx.errs + bounded_param_count g := by
      have := ty_of_item_bec env (ensure_no_ty_param_bounds tcx g .structureKind)
        ⟨id, idn, vis, .ItemStruct sd g⟩
      rw [hty] at this
      rw [this, ensure_no_ty_param_bounds_bec]
    simp only []
    rw [hty]
    cases o with
    | none => exact hbec2
    | some tpt =>
        cases hss : sd.super_struct <;>
          simp only [hss] <;>
          rw [convert_struct_bec] <;>
          exact hbec2
  · intro id idn vis vars g
    unfold convert
    rcases hty : ty_of_item env (ensure_no_ty_param_bounds tcx g .enumeration)
      ⟨id, idn, vis, .ItemEnum vars g⟩ with ⟨t2, o⟩
    have hbec2 : bounds_err_count t2.errs
        = bounds_err_count tcx.errs + bounded_param_count g := by
      have := ty_of_item_bec env (ensure_no_ty_param_bounds tcx g .enumeration)
        ⟨id, idn, vis, .ItemEnum vars g⟩
      rw [hty] at this
      rw [this, ensure_no_ty_param_bounds_bec]
    simp only []
    rw [hty]
    cases o with
    | none => exact hbec2
    | some tpt =>
        show bounds_err_count (get_enum_variant_types_loop env tpt.ty g
          (write_ty_to_tcx t2 id tpt.ty) vars).errs = _
        rw [get_enum_variant_types_loop_bec]
        exact hbec2
  · intro id idn vis t g
    unfold convert
    rcases hty : ty_of_item env (ensure_no_ty_param_bounds tcx g .typeKind)
      ⟨id, idn, vis, .ItemTy t g⟩ with ⟨t2, o⟩
    have hbec2 : bounds_err_count t2.errs
        = bounds_err_count tcx.errs + bounded_param_count g := by
      have := ty_of_item_bec env (ensure_no_ty_param_bounds tcx g .typeKind)
        ⟨id, idn, vis, .ItemTy t g⟩
      rw [hty] at this
      rw [this, ensure_no_ty_param_bounds_bec]
    simp only []
    rw [hty]
    cases o with
    | none => exact hbec2
    | some tpt => exact hbec2
  · intro id idn vis decl abi g
    unfold convert
    rcases hty : ty_of_item env (ensure_generics_abi tcx abi g)
      ⟨id, idn, vis, .ItemFn decl abi g⟩ with ⟨t2, o⟩
    have hbec2 : bounds_err_count t2.errs = bounds_err_count tcx.errs := by
      have := ty_of_item_bec env (ensure_generics_abi tcx abi g)
        ⟨id, idn, vis, .ItemFn decl abi g⟩
      rw [hty] at this
      rw [this, ensure_generics_abi_bec]
    simp only []
    rw [hty]
    cases o with
    | none => exact hbec2
    | some tpt => exact hbec2
  · intro container ms rcvr_ty rtg rag rv
    exact convert_methods_loop_bec env container rcvr_ty rtg rag rv ms tcx []
  · intro trait_id
    exact ensure_trait_methods_bec env tcx trait_id

/-! ## C9 — impl method visibility inheritance -/

theorem instantiate_trait_ref_methods (env : Env) (tcx : Tcx) (r : AstTraitRef)
    (self_ty : Ty) :
    (instantiate_trait_ref env tcx r self_ty).1.methods = tcx.methods := by
  unfold instantiate_trait_ref
  cases h : env.defMap r.ref_id with
  | none => simp
  | some d => cases d <;> simp

theorem compute_bounds_loop_methods (env : Env) :
    ∀ (bs : List AstTyParamBound) (tcx : Tcx) (pt : param_ty) (pb : ParamBounds),
      (compute_bounds_loop env tcx pt pb bs).1.methods = tcx.methods := by
  intro bs
  induction bs with
  | nil => intro tcx pt pb; rfl
  | cons b rest ih =>
      intro tcx pt pb
      cases b with
      | TraitTyParamBound r =>
          have g1 := instantiate_trait_ref_methods env tcx r (mk_param pt.idx pt.def_id)
          have h1 := ih (instantiate_trait_ref env tcx r (mk_param pt.idx pt.def_id)).1 pt
            (if (try_add_builtin_trait env
                  (instantiate_trait_ref env tcx r (mk_param pt.idx pt.def_id)).2.def_id
                  pb.builtin_bounds).2
             then ⟨(try_add_builtin_trait env
                  (instantiate_trait_ref env tcx r (mk_param pt.idx pt.def_id)).2.def_id
                  pb.builtin_bounds).1, pb.trait_bounds⟩
             else ⟨(try_add_builtin_trait env
                  (instantiate_trait_ref env tcx r (mk_param pt.idx pt.def_id)).2.def_id
                  pb.builtin_bounds).1, pb.trait_bounds ++
                    [(instantiate_trait_ref env tcx r (mk_param pt.idx pt.def_id)).2]⟩)
          exact h1.trans g1
      | RegionTyParamBound =>
          exact ih tcx pt _

theorem ty_param_def_of_methods (env : Env) (base : Nat) (tcx : Tcx) (offset : Nat)
    (p : AstTyParam) :
    (ty_param_def_of env base tcx offset p).1.methods = tcx.methods := by
  unfold ty_param_def_of
  cases h : lookupA tcx.ty_param_defs p.id with
  | some d => rfl
  | none =>
      have hc := compute_bounds_loop_methods env p.bounds tcx
        (assigned_param_ty base offset p) ⟨EmptyBuiltinBounds, []⟩
      cases hd : p.default <;> simp only [hd] <;> exact hc

theorem ty_param_defs_of_methods (env : Env) (base : Nat) :
    ∀ (ps : List AstTyParam) (tcx : Tcx) (offset : Nat),
      (ty_param_defs_of env base tcx offset ps).1.methods = tcx.methods := by
  intro ps
  induction ps with
  | nil => intro tcx offset; rfl
  | cons p ps ih =>
      intro tcx offset
      exact (ih (ty_param_def_of env base tcx offset p).1 (offset + 1)).trans
        (ty_param_def_of_methods env base tcx offset p)

theorem ty_generics_methods (env : Env) (tcx : Tcx) (lifetimes : List AstLifetime)
    (ps : List AstTyParam) (base : Nat) :
    (ty_generics env tcx lifetimes ps base).1.methods = tcx.methods :=
  ty_param_defs_of_methods env base ps tcx 0

/-- Keys the method loop does not insert keep their method-table binding. -/
theorem convert_methods_loop_keys (env : Env) (container : MethodContainer)
    (rcvr_ty : Ty) (rtg : Generics) (rag : AstGenerics) (rv : Visibility) :
    ∀ (ms : List AstMethod) (tcx : Tcx) (seen : List Nat) (k : DefId),
      k ∉ ms.map (fun m => local_def m.id) →
      lookupA (convert_methods_loop env container rcvr_ty rtg rag rv tcx seen ms).methods k
        = lookupA tcx.methods k := by
  intro ms
  induction ms with
  | nil => intro tcx seen k _; rfl
  | cons m ms ih =>
      intro tcx seen k hk
      have hk1 : k ≠ local_def m.id := by
        intro h
        exact hk (by rw [List.map_cons]; exact h ▸ List.mem_cons_self ..)
      have hk2 : k ∉ ms.map (fun m => local_def m.id) := by
        intro h
        exact hk (by rw [List.map_cons]; exact List.mem_cons_of_mem _ h)
      unfold convert_methods_loop
      split
      rename_i t1 s1 heq
      rw [ih _ _ _ hk2]
      have ht1m : t1.methods = tcx.methods := by
        split at heq <;> (injection heq with h1 h2; subst h1; rfl)
      show lookupA (insertA (ty_of_method env
          (ty_generics_for_fn_or_method env t1 m.generics rtg.type_param_defs.length).1
          container m rcvr_ty rag rv).1.methods
          (ty_of_method env
            (ty_generics_for_fn_or_method env t1 m.generics rtg.type_param_defs.length).1
            container m rcvr_ty rag rv).2.def_id
          (ty_of_method env
            (ty_generics_for_fn_or_method env t1 m.generics rtg.type_param_defs.length).1
            container m rcvr_ty rag rv).2) k = _
  
      rw [lookupA_insertA_ne]
      · rw [show (ty_of_method env
            (ty_generics_for_fn_or_method env t1 m.generics rtg.type_param_defs.length).1
            container m rcvr_ty rag rv).1.methods
            = (ty_generics_for_fn_or_method env
                (ty_generics_for_fn_or_method env t1 m.generics rtg.type_param_defs.length).1
                m.generics rag.ty_params.length).1.methods
          from rfl]
        rw [show (ty_generics_for_fn_or_method env
            (ty_generics_for_fn_or_method env t1 m.generics rtg.type_param_defs.length).1
            m.generics rag.ty_params.length).1.methods
            = (ty_generics_for_fn_or_method env t1 m.generics
                rtg.type_param_defs.length).1.methods from
          ty_generics_methods env _ (early_bound_lifetimes m.generics) m.generics.ty_params _]
        rw [show (ty_generics_for_fn_or_method env t1 m.generics
            rtg.type_param_defs.length).1.methods = t1.methods from
          ty_generics_methods env t1 (early_bound_lifetimes m.generics) m.generics.ty_params _]
        rw [ht1m]
      · exact hk1

/-- Every method converted by the method loop (distinct method ids) is
recorded in the method table with visibility inherited from the receiver
visibility unless the method declares its own. -/
theorem convert_methods_loop_vis (env : Env) (container : MethodContainer)
    (rcvr_ty : Ty) (rtg : Generics) (rag : AstGenerics) (rv : Visibility) :
    ∀ (ms : List AstMethod) (tcx : Tcx) (seen : List Nat),
      (ms.map (fun m => m.id)).Nodup →
      ∀ m ∈ ms, ∃ M : Method,
        lookupA (convert_methods_loop env container rcvr_ty rtg rag rv tcx seen ms).methods
          (local_def m.id) = some M
        ∧ M.vis = m.vis.inherit_from rv
        ∧ M.ident = m.ident
        ∧ M.def_id = local_def m.id
        ∧ M.explicit_self = m.explicit_self
        ∧ M.container = container := by
  intro ms
  induction ms with
  | nil => intro tcx seen _ m hm; cases hm
  | cons m0 ms ih =>
      intro tcx seen hnodup m hm
      have hnodup2 : (ms.map (fun m => m.id)).Nodup := by
        rw [List.map_cons] at hnodup
        exact (List.nodup_cons.mp hnodup).2
      unfold convert_methods_loop
      split
      rename_i t1 s1 heq
      rcases List.mem_cons.mp hm with rfl | hm2
      · have hid : m.id ∉ ms.map (fun m2 => m2.id) := by
          rw [List.map_cons] at hnodup
          exact (List.nodup_cons.mp hnodup).1
        have hkey : local_def m.id ∉ ms.map (fun m2 => local_def m2.id) := by
          intro h
          obtain ⟨m2, hm2, he⟩ := List.mem_map.mp h
          have hnode : m2.id = m.id := by
            have := congrArg DefId.node he
            simpa [local_def] using this
          exact hid (List.mem_map.mpr ⟨m2, hm2, hnode⟩)
        rw [convert_methods_loop_keys env container rcvr_ty rtg rag rv ms _ _ _ hkey]
        exact ⟨(ty_of_method env
            (ty_generics_for_fn_or_method env t1 m.generics rtg.type_param_defs.length).1
            container m rcvr_ty rag rv).2,
          lookupA_insertA_self _ _ _, rfl, rfl, rfl, rfl, rfl⟩
      · exact ih _ _ hnodup2 m hm2


/-- The trailing trait-reference check of an impl conversion leaves the
method table unchanged. -/
theorem convert_impl_tail_methods (env : Env) (t4 : Tcx) (tr : AstTraitRef) (s : Ty) :
    (if (env.builtinKind (instantiate_trait_ref env t4 tr s).2.def_id).isSome then
       { (instantiate_trait_ref env t4 tr s).1 with
          errs := (instantiate_trait_ref env t4 tr s).1.errs ++ [.explicitBuiltinImpl] }
     else (instantiate_trait_ref env t4 tr s).1).methods = t4.methods := by
  split
  · exact instantiate_trait_ref_methods env t4 tr s
  · exact instantiate_trait_ref_methods env t4 tr s

/-- C9 (amended): for every method of an impl (distinct method ids), the
recorded `Method`'s visibility is the method's own declaration when it has
one, and otherwise the inherited parent visibility — which is the impl's
own declared visibility for an inherent impl, but is forced to `Public`
when the impl implements a trait. -/
theorem impl_method_visibility (env : Env) (tcx : Tcx) (id idn : Nat) (vis : Visibility)
    (g : AstGenerics) (otr : Option AstTraitRef) (selfty : AstTy) (ms : List AstMethod)
    (hnodup : (ms.map (fun m => m.id)).Nodup) :
    ∀ m ∈ ms, ∃ M : Method,
      lookupA (convert env tcx ⟨id, idn, vis, .ItemImpl g otr selfty ms⟩).methods
          (local_def m.id) = some M
      ∧ M.vis = m.vis.inherit_from (if otr.isSome then Visibility.Public else vis)
      ∧ M.ident = m.ident
      ∧ M.def_id = local_def m.id
      ∧ M.explicit_self = m.explicit_self
      ∧ M.container = .ImplContainer (local_def id) := by
  intro m hm
  have hmeq : (convert env tcx ⟨id, idn, vis, .ItemImpl g otr selfty ms⟩).methods
      = (convert_methods env
          { write_ty_to_tcx (ty_generics_for_type env tcx g).1 id (ast_ty_to_ty env selfty) with
            tcache := insertA (write_ty_to_tcx (ty_generics_for_type env tcx g).1 id
              (ast_ty_to_ty env selfty)).tcache (local_def id)
              ⟨(ty_generics_for_type env tcx g).2, ast_ty_to_ty env selfty⟩ }
          (.ImplContainer (local_def id)) ms (ast_ty_to_ty env selfty)
          (ty_generics_for_type env tcx g).2 g
          (if otr.isSome then Visibility.Public else vis)).methods := by
    unfold convert
    cases otr with
    | none => rfl
    | some tr =>
        simp only []
        exact convert_impl_tail_methods env _ tr _
  rw [hmeq]
  exact convert_methods_loop_vis env (.ImplContainer (local_def id)) (ast_ty_to_ty env selfty)
    (ty_generics_for_type env tcx g).2 g (if otr.isSome then Visibility.Public else vis)
    ms _ [] hnodup m hm

/-- Concrete instantiation of `impl_method_visibility`: a private trait
impl (id 20) of a trait resolved through path node 300, with one method
(id 21) that declares no visibility. -/
theorem impl_method_visibility_witness :
    ∃ M : Method,
      lookupA (convert
          ⟨fun _ => none, fun n => if n = 300 then some (.DefTrait ⟨0, 70⟩) else none,
           fun _ => none⟩
          emptyTcx
          ⟨20, 0, .Private, .ItemImpl ⟨[], []⟩ (some ⟨300, []⟩) (.prim 0)
            [⟨5, 21, ⟨[], []⟩, .SelfValue, ⟨[], .prim 0⟩, .Inherited⟩]⟩).methods
          (local_def 21) = some M
      ∧ M.vis = Visibility.Inherited.inherit_from
          (if (some (⟨300, []⟩ : AstTraitRef)).isSome then Visibility.Public
           else Visibility.Private)
      ∧ M.ident = 5
      ∧ M.def_id = local_def 21
      ∧ M.explicit_self = ExplicitSelf.SelfValue
      ∧ M.container = .ImplContainer (local_def 20) :=
  impl_method_visibility
    ⟨fun _ => none, fun n => if n = 300 then some (.DefTrait ⟨0, 70⟩) else none,
     fun _ => none⟩
    emptyTcx 20 0 .Private ⟨[], []⟩ (some ⟨300, []⟩) (.prim 0)
    [⟨5, 21, ⟨[], []⟩, .SelfValue, ⟨[], .prim 0⟩, .Inherited⟩]
    (by decide)
    ⟨5, 21, ⟨[], []⟩, .SelfValue, ⟨[], .prim 0⟩, .Inherited⟩
    (List.mem_singleton.mpr rfl)

/-- C9 counterexample: in a *private* impl that implements a trait, a
method with no declared visibility is recorded as `Public` — not with the
impl's own declared visibility — because trait impls force the inherited
parent visibility to public (collect.rs lines 607-616). -/
theorem impl_method_visibility_counterexample :
    (lookupA (convert
        ⟨fun _ => none, fun n => if n = 300 then some (.DefTrait ⟨0, 70⟩) else none,
         fun _ => none⟩
        emptyTcx
        ⟨20, 0, .Private, .ItemImpl ⟨[], []⟩ (some ⟨300, []⟩) (.prim 0)
          [⟨5, 21, ⟨[], []⟩, .SelfValue, ⟨[], .prim 0⟩, .Inherited⟩]⟩).methods
        (local_def 21)).map Method.vis = some Visibility.Public
    ∧ Visibility.Public ≠ Visibility.Private := by decide

/-! ## C4 — enum variant constructors -/

/-- The generics a fully cached surface list resolves to: every parameter
definition is reused from the parameter-definition table. -/
def hit_generics (tcx : Tcx) (g : AstGenerics) : Generics :=
  ⟨g.ty_params.map (fun p => (lookupA tcx.ty_param_defs p.id).getD dummyTPD),
   g.lifetimes.map (fun l => ⟨l.name, local_def l.id⟩)⟩

theorem ty_param_defs_of_hit (env : Env) (base : Nat) :
    ∀ (ps : List AstTyParam) (tcx : Tcx) (offset : Nat),
      (∀ p ∈ ps, (lookupA tcx.ty_param_defs p.id).isSome) →
      ty_param_defs_of env base tcx offset ps
        = (tcx, ps.map (fun p => (lookupA tcx.ty_param_defs p.id).getD dummyTPD)) := by
  intro ps
  induction ps with
  | nil => intro tcx offset _; rfl
  | cons p ps ih =>
      intro tcx offset hhit
      obtain ⟨d, hd⟩ := Option.isSome_iff_exists.mp (hhit p (List.mem_cons_self ..))
      rw [ty_param_defs_of_cons]
      have hstep : ty_param_def_of env base tcx offset p = (tcx, d) := by
        unfold ty_param_def_of
        rw [hd]
      rw [hstep]
      rw [ih tcx (offset + 1) (fun q hq => hhit q (List.mem_cons_of_mem _ hq))]
      simp [hd]

/-- When every parameter of a surface generics list is already in the
parameter-definition table, the generics builder is a pure lookup: the
state is unchanged and the result is `hit_generics`. -/
theorem ty_generics_for_type_hit (env : Env) (tcx : Tcx) (g : AstGenerics)
    (hhit : ∀ p ∈ g.ty_params, (lookupA tcx.ty_param_defs p.id).isSome) :
    ty_generics_for_type env tcx g = (tcx, hit_generics tcx g) := by
  unfold ty_generics_for_type ty_generics hit_generics
  rw [ty_param_defs_of_hit env 0 g.ty_params tcx 0 hhit]

/-- The `field_ty` record `convert_field` produces. -/
def field_ty_of (origin : DefId) (f : AstStructField) : field_ty :=
  match f.kind with
  | .NamedField ident vis => ⟨ident, local_def f.id, vis, origin⟩
  | .UnnamedField vis => ⟨unnamed_field_name, local_def f.id, vis, origin⟩

theorem convert_field_eq (env : Env) (tcx : Tcx) (g : Generics) (f : AstStructField)
    (origin : DefId) :
    convert_field env tcx g f origin
      = ({ tcx with
            node_types := insertA tcx.node_types f.id (ast_ty_to_ty env f.ty),
            tcache := insertA tcx.tcache (local_def f.id) ⟨g, ast_ty_to_ty env f.ty⟩ },
         field_ty_of origin f) := by
  unfold convert_field field_ty_of write_ty_to_tcx
  cases f.kind <;> rfl

theorem local_def_inj {a b : Nat} (h : local_def a = local_def b) : a = b := by
  simpa [local_def] using congrArg DefId.node h

theorem local_def_not_mem_map_fields (l : List AstStructField) (n : Nat)
    (h : n ∉ l.map (fun f => f.id)) :
    local_def n ∉ l.map (fun f => local_def f.id) := by
  intro hmem
  obtain ⟨f, hf, he⟩ := List.mem_map.mp hmem
  exact h (List.mem_map.mpr ⟨f, hf, local_def_inj he⟩)

/-- Full characterization of the struct-field loop on distinct field ids:
the produced records, the cached per-field schemes and node types, and the
tables it leaves untouched. -/
theorem convert_struct_fields_loop_spec (env : Env) (g : Generics) (origin : DefId) :
    ∀ (fs : List AstStructField) (tcx : Tcx) (seen : List Nat),
      (fs.map (fun f => f.id)).Nodup →
      (convert_struct_fields_loop env g origin tcx seen fs).2
          = fs.map (field_ty_of origin)
      ∧ (∀ f ∈ fs,
          lookupA (convert_struct_fields_loop env g origin tcx seen fs).1.tcache
            (local_def f.id) = some ⟨g, ast_ty_to_ty env f.ty⟩
          ∧ lookupA (convert_struct_fields_loop env g origin tcx seen fs).1.node_types f.id
            = some (ast_ty_to_ty env f.ty))
      ∧ (∀ k, k ∉ fs.map (fun f => local_def f.id) →
          lookupA (convert_struct_fields_loop env g origin tcx seen fs).1.tcache k
            = lookupA tcx.tcache k)
      ∧ (∀ n, n ∉ fs.map (fun f => f.id) →
          lookupA (convert_struct_fields_loop env g origin tcx seen fs).1.node_types n
            = lookupA tcx.node_types n)
      ∧ (convert_struct_fields_loop env g origin tcx seen fs).1.ty_param_defs
          = tcx.ty_param_defs
      ∧ (convert_struct_fields_loop env g origin tcx seen fs).1.struct_fields
          = tcx.struct_fields := by
  intro fs
  induction fs with
  | nil =>
      intro tcx seen _
      exact ⟨rfl, fun f hf => absurd hf (by simp), fun k _ => rfl, fun n _ => rfl, rfl, rfl⟩
  | cons f fs ih =>
      intro tcx seen hnodup
      have hfid : f.id ∉ fs.map (fun f2 => f2.id) := by
        rw [List.map_cons] at hnodup
        exact (List.nodup_cons.mp hnodup).1
      have hnodup2 : (fs.map (fun f2 => f2.id)).Nodup := by
        rw [List.map_cons] at hnodup
        exact (List.nodup_cons.mp hnodup).2
      rw [convert_struct_fields_loop_cons]
      have hstep_tc : (if (convert_field env tcx g f origin).2.name ≠ unnamed_field_name then
            if seen.contains (convert_field env tcx g f origin).2.name then
              ({ (convert_field env tcx g f origin).1 with
                  errs := (convert_field env tcx g f origin).1.errs
                    ++ [.fieldAlreadyDeclared (convert_field env tcx g f origin).2.name],
                  notes := (convert_field env tcx g f origin).1.notes + 1 }, seen)
            else ((convert_field env tcx g f origin).1,
                  seen ++ [(convert_field env tcx g f origin).2.name])
          else (((convert_field env tcx g f origin).1, seen) : Tcx × List Nat)).1.tcache
          = insertA tcx.tcache (local_def f.id) ⟨g, ast_ty_to_ty env f.ty⟩ := by
        split
        · split <;> simp [convert_field_eq env tcx g f origin]
        · simp [convert_field_eq env tcx g f origin]
      have hstep_nt : (if (convert_field env tcx g f origin).2.name ≠ unnamed_field_name then
            if seen.contains (convert_field env tcx g f origin).2.name then
              ({ (convert_field env tcx g f origin).1 with
                  errs := (convert_field env tcx g f origin).1.errs
                    ++ [.fieldAlreadyDeclared (convert_field env tcx g f origin).2.name],
                  notes := (convert_field env tcx g f origin).1.notes + 1 }, seen)
            else ((convert_field env tcx g f origin).1,
                  seen ++ [(convert_field env tcx g f origin).2.name])
          else (((convert_field env tcx g f origin).1, seen) : Tcx × List Nat)).1.node_types
          = insertA tcx.node_types f.id (ast_ty_to_ty env f.ty) := by
        split
        · split <;> simp [convert_field_eq env tcx g f origin]
        · simp [convert_field_eq env tcx g f origin]
      have hstep_td : (if (convert_field env tcx g f origin).2.name ≠ unnamed_field_name then
            if seen.contains (convert_field env tcx g f origin).2.name then
              ({ (convert_field env tcx g f origin).1 with
                  errs := (convert_field env tcx g f origin).1.errs
                    ++ [.fieldAlreadyDeclared (convert_field env tcx g f origin).2.name],
                  notes := (convert_field env tcx g f origin).1.notes + 1 }, seen)
            else ((convert_field env tcx g f origin).1,
                  seen ++ [(convert_field env tcx g f origin).2.name])
          else (((convert_field env tcx g f origin).1, seen) : Tcx × List Nat)).1.ty_param_defs
          = tcx.ty_param_defs := by
        split
        · split <;> simp [convert_field_eq env tcx g f origin]
        · simp [convert_field_eq env tcx g f origin]
      have hstep_sf : (if (convert_field env tcx g f origin).2.name ≠ unnamed_field_name then
            if seen.contains (convert_field env tcx g f origin).2.name then
              ({ (convert_field env tcx g f origin).1 with
                  errs := (convert_field env tcx g f origin).1.errs
                    ++ [.fieldAlreadyDeclared (convert_field env tcx g f origin).2.name],
                  notes := (convert_field env tcx g f origin).1.notes + 1 }, seen)
            else ((convert_field env tcx g f origin).1,
                  seen ++ [(convert_field env tcx g f origin).2.name])
          else (((convert_field env tcx g f origin).1, seen) : Tcx × List Nat)).1.struct_fields
          = tcx.struct_fields := by
        split
        · split <;> simp [convert_field_eq env tcx g f origin]
        · simp [convert_field_eq env tcx g f origin]
      obtain ⟨ih1, ih2, ih3, ih4, ih5, ih6⟩ := ih _ _ hnodup2
      refine ⟨?_, ?_, ?_, ?_, ?_, ?_⟩
      · rw [List.map_cons, ih1]
        have : (convert_field env tcx g f origin).2 = field_ty_of origin f :=
          congrArg Prod.snd (convert_field_eq env tcx g f origin)
        rw [this]
      · intro f2 hf2
        rcases List.mem_cons.mp hf2 with rfl | hf3
        · constructor
          · rw [ih3 (local_def f2.id) (local_def_not_mem_map_fields fs f2.id hfid),
              hstep_tc, lookupA_insertA_self]
          · rw [ih4 f2.id hfid, hstep_nt, lookupA_insertA_self]
        · exact ih2 f2 hf3
      · intro k hk
        have hk1 : k ≠ local_def f.id := by
          intro h
          exact hk (by rw [List.map_cons]; exact h ▸ List.mem_cons_self ..)
        have hk2 : k ∉ fs.map (fun f2 => local_def f2.id) := by
          intro h
          exact hk (by rw [List.map_cons]; exact List.mem_cons_of_mem _ h)
        rw [ih3 k hk2, hstep_tc, lookupA_insertA_ne _ _ _ _ hk1]
      · intro n hn
        have hn1 : n ≠ f.id := by
          intro h
          exact hn (by rw [List.map_cons]; exact h ▸ List.mem_cons_self ..)
        have hn2 : n ∉ fs.map (fun f2 => f2.id) := by
          intro h
          exact hn (by rw [List.map_cons]; exact List.mem_cons_of_mem _ h)
        rw [ih4 n hn2, hstep_nt, lookupA_insertA_ne _ _ _ _ hn1]
      · rw [ih5, hstep_td]
      · rw [ih6, hstep_sf]

/-- Characterization of `convert_struct` in the struct-variant
configuration (no superstruct, no constructor position, distinct field
ids): the per-field cache entries, the recorded field list, and the
untouched tables. -/
theorem convert_struct_variant_spec (env : Env) (tcx : Tcx) (sd : AstStructDef)
    (tpt : ty_param_bounds_and_ty) (id : Nat)
    (hsuper : sd.super_struct = none) (hctor : sd.ctor_id = none)
    (hnodup : (sd.fields.map (fun f => f.id)).Nodup) :
    (∀ f ∈ sd.fields,
        lookupA (convert_struct env tcx sd tpt id).tcache (local_def f.id)
          = some ⟨tpt.generics, ast_ty_to_ty env f.ty⟩
        ∧ lookupA (convert_struct env tcx sd tpt id).node_types f.id
          = some (ast_ty_to_ty env f.ty))
    ∧ (∀ k, k ∉ sd.fields.map (fun f => local_def f.id) →
        lookupA (convert_struct env tcx sd tpt id).tcache k = lookupA tcx.tcache k)
    ∧ (∀ n, n ∉ sd.fields.map (fun f => f.id) →
        lookupA (convert_struct env tcx sd tpt id).node_types n = lookupA tcx.node_types n)
    ∧ lookupA (convert_struct env tcx sd tpt id).struct_fields (local_def id)
        = some (sd.fields.map (field_ty_of (local_def id)))
    ∧ (∀ k, k ≠ local_def id →
        lookupA (convert_struct env tcx sd tpt id).struct_fields k
          = lookupA tcx.struct_fields k)
    ∧ (convert_struct env tcx sd tpt id).ty_param_defs = tcx.ty_param_defs := by
  obtain ⟨hs1, hs2, hs3, hs4, hs5, hs6⟩ :=
    convert_struct_fields_loop_spec env tpt.generics (local_def id) sd.fields tcx [] hnodup
  have heq : convert_struct env tcx sd tpt id
      = { (convert_struct_fields_loop env tpt.generics (local_def id) tcx [] sd.fields).1 with
          struct_fields := insertA
            (convert_struct_fields_loop env tpt.generics (local_def id) tcx []
              sd.fields).1.struct_fields (local_def id)
            (convert_struct_fields_loop env tpt.generics (local_def id) tcx [] sd.fields).2,
          superstructs := insertA
            (convert_struct_fields_loop env tpt.generics (local_def id) tcx []
              sd.fields).1.superstructs (local_def id) none } := by
    unfold convert_struct
    rcases hl : convert_struct_fields_loop env tpt.generics (local_def id) tcx [] sd.fields
      with ⟨t1, ftys⟩
    simp only [hsuper, hctor]
  rw [heq]
  refine ⟨?_, ?_, ?_, ?_, ?_, ?_⟩
  · intro f hf
    exact hs2 f hf
  · intro k hk
    exact hs3 k hk
  · intro n hn
    exact hs4 n hn
  · show lookupA (insertA _ (local_def id) _) (local_def id) = _
    rw [lookupA_insertA_self, hs1]
  · intro k hk
    show lookupA (insertA _ (local_def id) _) k = _
    rw [lookupA_insertA_ne _ _ _ _ hk, hs6]
  · exact hs5

/-- Node ids a variant's elaboration writes under (its own id and, for a
struct-like variant, its field ids). -/
def variant_field_ids (v : AstVariant) : List Nat :=
  match v.kind with
  | .TupleVariantKind _ => []
  | .StructVariantKind sd => sd.fields.map (fun f => f.id)

/-- All node ids written while elaborating an enum's variants. -/
def enum_variant_ids : List AstVariant → List Nat
  | [] => []
  | v :: vs => v.id :: (variant_field_ids v ++ enum_variant_ids vs)

/-- Shape of a variant as the AST produces it: a struct-like variant has
no superstruct and no constructor position. -/
def variant_wf (v : AstVariant) : Prop :=
  match v.kind with
  | .TupleVariantKind _ => True
  | .StructVariantKind sd => sd.super_struct = none ∧ sd.ctor_id = none

/-- The constructor type a variant's elaboration produces: a function from
the payload (or field) types to the enum type for non-empty payloads, the
enum type itself for a payload-less variant. -/
def variant_result_ty (env : Env) (enum_ty : Ty) (v : AstVariant) : Ty :=
  match v.kind with
  | .TupleVariantKind args =>
      if args.length > 0 then
        mk_ctor_fn v.id (args.map (fun a => ast_ty_to_ty env a.ty)) enum_ty
      else enum_ty
  | .StructVariantKind sd =>
      mk_ctor_fn v.id (sd.fields.map (fun f => ast_ty_to_ty env f.ty)) enum_ty

theorem hit_generics_congr (tcx1 tcx2 : Tcx) (g : AstGenerics)
    (h : tcx1.ty_param_defs = tcx2.ty_param_defs) :
    hit_generics tcx1 g = hit_generics tcx2 g := by
  unfold hit_generics
  rw [h]

/-- The state after the struct-elaboration part of one variant iteration
(identity for tuple variants). -/
def variant_mid_tcx (env : Env) (enum_ty : Ty) (generics : AstGenerics)
    (tcx : Tcx) (v : AstVariant) : Tcx :=
  match v.kind with
  | .TupleVariantKind _ => tcx
  | .StructVariantKind sd =>
      let (tcxa, g) := ty_generics_for_type env tcx generics
      convert_struct env tcxa sd ⟨g, enum_ty⟩ v.id

/-- The `result_ty` one variant iteration computes, as a function of the
entry state (the struct case reads the field node types it just wrote). -/
def variant_result_ty_at (env : Env) (enum_ty : Ty) (generics : AstGenerics)
    (tcx : Tcx) (v : AstVariant) : Ty :=
  match v.kind with
  | .TupleVariantKind args =>
      if args.length > 0 then
        mk_ctor_fn v.id (args.map (fun va => ast_ty_to_ty env va.ty)) enum_ty
      else enum_ty
  | .StructVariantKind sd =>
      let (tcxa, g) := ty_generics_for_type env tcx generics
      let tcxb := convert_struct env tcxa sd ⟨g, enum_ty⟩ v.id
      mk_ctor_fn v.id (sd.fields.map (fun f => node_id_to_type tcxb f.id)) enum_ty

/-- The full state transformer of one variant iteration. -/
def variant_step_tcx (env : Env) (enum_ty : Ty) (generics : AstGenerics)
    (tcx : Tcx) (v : AstVariant) : Tcx :=
  let tcx1 := variant_mid_tcx env enum_ty generics tcx v
  let r := variant_result_ty_at env enum_ty generics tcx v
  let (tcx2, g2) := ty_generics_for_type env tcx1 generics
  write_ty_to_tcx { tcx2 with tcache := insertA tcx2.tcache (local_def v.id) ⟨g2, r⟩ } v.id r

theorem get_enum_variant_types_loop_cons (env : Env) (enum_ty : Ty)
    (generics : AstGenerics) (tcx : Tcx) (v : AstVariant) (vs : List AstVariant) :
    get_enum_variant_types_loop env enum_ty generics tcx (v :: vs)
      = get_enum_variant_types_loop env enum_ty generics
          (variant_step_tcx env enum_ty generics tcx v) vs := by
  conv_lhs => rw [get_enum_variant_types_loop]
  unfold variant_step_tcx variant_mid_tcx variant_result_ty_at
  cases hk : v.kind with
  | TupleVariantKind args =>
      simp only
      by_cases hl : args.length > 0
      · simp only [if_pos hl]
      · simp only [if_neg hl]
  | StructVariantKind sd => rfl

/-- One variant iteration: the produced cache entries (the variant's scheme
under the enum's generics; for a struct variant also the recorded field
list and per-field schemes), plus the tables and keys it leaves alone. -/
theorem variant_step_spec (env : Env) (enum_ty : Ty) (generics : AstGenerics)
    (tcx : Tcx) (v : AstVariant)
    (hhit : ∀ p ∈ generics.ty_params, (lookupA tcx.ty_param_defs p.id).isSome)
    (hwf : variant_wf v)
    (hnodup : (v.id :: variant_field_ids v).Nodup) :
    (variant_step_tcx env enum_ty generics tcx v).ty_param_defs = tcx.ty_param_defs
    ∧ lookupA (variant_step_tcx env enum_ty generics tcx v).tcache (local_def v.id)
        = some ⟨hit_generics tcx generics, variant_result_ty env enum_ty v⟩
    ∧ (∀ sd, v.kind = .StructVariantKind sd →
        lookupA (variant_step_tcx env enum_ty generics tcx v).struct_fields (local_def v.id)
          = some (sd.fields.map (field_ty_of (local_def v.id)))
        ∧ ∀ f ∈ sd.fields,
            lookupA (variant_step_tcx env enum_ty generics tcx v).tcache (local_def f.id)
              = some ⟨hit_generics tcx generics, ast_ty_to_ty env f.ty⟩)
    ∧ (∀ k, k ≠ local_def v.id → k ∉ (variant_field_ids v).map local_def →
        lookupA (variant_step_tcx env enum_ty generics tcx v).tcache k
          = lookupA tcx.tcache k)
    ∧ (∀ k, k ≠ local_def v.id →
        lookupA (variant_step_tcx env enum_ty generics tcx v).struct_fields k
          = lookupA tcx.struct_fields k) := by
  have htg : ty_generics_for_type env tcx generics = (tcx, hit_generics tcx generics) :=
    ty_generics_for_type_hit env tcx generics hhit
  cases hk : v.kind with
  | TupleVariantKind args =>
      have heq : variant_step_tcx env enum_ty generics tcx v
          = write_ty_to_tcx
              { tcx with
                tcache := insertA tcx.tcache (local_def v.id) (⟨hit_generics tcx generics, variant_result_ty env enum_ty v⟩ : ty_param_bounds_and_ty) }
              v.id (variant_result_ty env enum_ty v) := by
        unfold variant_step_tcx variant_mid_tcx variant_result_ty_at variant_result_ty
        simp only [hk]
        rw [htg]
      refine ⟨?_, ?_, ?_, ?_, ?_⟩
      · rw [heq]
        rfl
      · rw [heq]
        show lookupA (insertA tcx.tcache (local_def v.id) _) (local_def v.id) = _
        rw [lookupA_insertA_self]
      · intro sd hsd
        exact absurd hsd (by simp)
      · intro k hne _
        rw [heq]
        show lookupA (insertA tcx.tcache (local_def v.id) _) k = _
        rw [lookupA_insertA_ne _ _ _ _ hne]
      · intro k _
        rw [heq]
        rfl
  | StructVariantKind sd =>
      have hwf2 : sd.super_struct = none ∧ sd.ctor_id = none := by
        have := hwf
        unfold variant_wf at this
        rw [hk] at this
        exact this
      have hfnodup : (sd.fields.map (fun f => f.id)).Nodup := by
        have h2 := (List.nodup_cons.mp hnodup).2
        unfold variant_field_ids at h2
        rw [hk] at h2
        exact h2
      have hvid : v.id ∉ sd.fields.map (fun f => f.id) := by
        have h1 := List.nodup_cons.mp hnodup
        have := h1.1
        unfold variant_field_ids at this
        rw [hk] at this
        exact this
      obtain ⟨cs1, cs2, cs3, cs4, cs5, cs6⟩ :=
        convert_struct_variant_spec env tcx sd ⟨hit_generics tcx generics, enum_ty⟩ v.id
          hwf2.1 hwf2.2 hfnodup
      have hhitb : ∀ p ∈ generics.ty_params,
          (lookupA (convert_struct env tcx sd ⟨hit_generics tcx generics, enum_ty⟩
            v.id).ty_param_defs p.id).isSome := by
        rw [cs6]
        exact hhit
      have htgb : ty_generics_for_type env
            (convert_struct env tcx sd ⟨hit_generics tcx generics, enum_ty⟩ v.id) generics
          = (convert_struct env tcx sd ⟨hit_generics tcx generics, enum_ty⟩ v.id,
             hit_generics tcx generics) := by
        rw [ty_generics_for_type_hit env _ generics hhitb,
          hit_generics_congr _ tcx generics cs6]
      have hr : variant_result_ty_at env enum_ty generics tcx v
          = variant_result_ty env enum_ty v := by
        unfold variant_result_ty_at variant_result_ty
        simp only [hk]
        rw [htg]
        simp only
        show mk_ctor_fn v.id (sd.fields.map (fun f => node_id_to_type
            (convert_struct env tcx sd ⟨hit_generics tcx generics, enum_ty⟩ v.id) f.id))
            enum_ty = _
        have hmaps : sd.fields.map (fun f => node_id_to_type
              (convert_struct env tcx sd ⟨hit_generics tcx generics, enum_ty⟩ v.id) f.id)
            = sd.fields.map (fun f => ast_ty_to_ty env f.ty) := by
          apply List.map_congr_left
          intro f hf
          unfold node_id_to_type
          rw [(cs1 f hf).2]
          rfl
        rw [hmaps]
      have heq : variant_step_tcx env enum_ty generics tcx v
          = write_ty_to_tcx
              { convert_struct env tcx sd ⟨hit_generics tcx generics, enum_ty⟩ v.id with
                tcache := insertA (convert_struct env tcx sd ⟨hit_generics tcx generics, enum_ty⟩ v.id).tcache (local_def v.id) (⟨hit_generics tcx generics, variant_result_ty env enum_ty v⟩ : ty_param_bounds_and_ty) }
              v.id (variant_result_ty env enum_ty v) := by
        unfold variant_step_tcx variant_mid_tcx
        simp only [hk]
        rw [htg]
        simp only
        rw [htgb, hr]
      refine ⟨?_, ?_, ?_, ?_, ?_⟩
      · rw [heq]
        exact cs6
      · rw [heq]
        show lookupA (insertA _ (local_def v.id) _) (local_def v.id) = _
        rw [lookupA_insertA_self]
      · intro sd2 hsd2
        injection hsd2 with h2
        subst h2
        constructor
        · rw [heq]
          exact cs4
        · intro f hf
          rw [heq]
          have hne : local_def f.id ≠ local_def v.id := by
            intro h
            exact hvid ((local_def_inj h) ▸ List.mem_map.mpr ⟨f, hf, rfl⟩)
          show lookupA (insertA _ (local_def v.id) _) (local_def f.id) = _
          rw [lookupA_insertA_ne _ _ _ _ hne]
          exact (cs1 f hf).1
      · intro k hne hnotin
        rw [heq]
        have hnotin2 : k ∉ sd.fields.map (fun f => local_def f.id) := by
          intro h
          apply hnotin
          unfold variant_field_ids
          rw [hk, List.map_map]
          exact h
        show lookupA (insertA _ (local_def v.id) _) k = _
        rw [lookupA_insertA_ne _ _ _ _ hne]
        exact cs2 k hnotin2
      · intro k hne
        rw [heq]
        exact cs5 k hne

theorem mem_enum_variant_ids {vs : List AstVariant} {v : AstVariant} (h : v ∈ vs) :
    v.id ∈ enum_variant_ids vs := by
  induction vs with
  | nil => cases h
  | cons w ws ih =>
      rcases List.mem_cons.mp h with rfl | h2
      · exact List.mem_cons_self ..
      · exact List.mem_cons_of_mem _ (List.mem_append_right _ (ih h2))

theorem field_mem_enum_variant_ids {vs : List AstVariant} {v : AstVariant} (h : v ∈ vs)
    {n : Nat} (hn : n ∈ variant_field_ids v) :
    n ∈ enum_variant_ids vs := by
  induction vs with
  | nil => cases h
  | cons w ws ih =>
      rcases List.mem_cons.mp h with rfl | h2
      · exact List.mem_cons_of_mem _ (List.mem_append_left _ hn)
      · exact List.mem_cons_of_mem _ (List.mem_append_right _ (ih h2))

/-- Full characterization of the variant loop of `get_enum_variant_types`
on distinct node ids: every variant's cached scheme (under the shared,
already-resolved enum generics), the struct-variant field registrations,
and the keys the loop leaves alone. -/
theorem get_enum_variant_types_loop_spec (env : Env) (enum_ty : Ty)
    (generics : AstGenerics) :
    ∀ (vs : List AstVariant) (tcx : Tcx),
      (∀ p ∈ generics.ty_params, (lookupA tcx.ty_param_defs p.id).isSome) →
      (enum_variant_ids vs).Nodup →
      (∀ v ∈ vs, variant_wf v) →
      (∀ v ∈ vs,
        lookupA (get_enum_variant_types_loop env enum_ty generics tcx vs).tcache
            (local_def v.id)
          = some ⟨hit_generics tcx generics, variant_result_ty env enum_ty v⟩
        ∧ ∀ sd, v.kind = .StructVariantKind sd →
            lookupA (get_enum_variant_types_loop env enum_ty generics tcx vs).struct_fields
                (local_def v.id)
              = some (sd.fields.map (field_ty_of (local_def v.id)))
            ∧ ∀ f ∈ sd.fields,
                lookupA (get_enum_variant_types_loop env enum_ty generics tcx vs).tcache
                    (local_def f.id)
                  = some ⟨hit_generics tcx generics, ast_ty_to_ty env f.ty⟩)
      ∧ (∀ k, k ∉ (enum_variant_ids vs).map local_def →
          lookupA (get_enum_variant_types_loop env enum_ty generics tcx vs).tcache k
            = lookupA tcx.tcache k)
      ∧ (∀ k, (∀ v ∈ vs, k ≠ local_def v.id) →
          lookupA (get_enum_variant_types_loop env enum_ty generics tcx vs).struct_fields k
            = lookupA tcx.struct_fields k)
      ∧ (get_enum_variant_types_loop env enum_ty generics tcx vs).ty_param_defs
          = tcx.ty_param_defs := by
  intro vs
  induction vs with
  | nil =>
      intro tcx _ _ _
      exact ⟨fun v hv => absurd hv (by simp), fun k _ => rfl, fun k _ => rfl, rfl⟩
  | cons v vs ih =>
      intro tcx hhit hnodup hwf
      have hvnotin : v.id ∉ variant_field_ids v ++ enum_variant_ids vs :=
        (List.nodup_cons.mp hnodup).1
      have happ := List.nodup_append.mp (List.nodup_cons.mp hnodup).2
      have hvfi : (variant_field_ids v).Nodup := happ.1
      have hevi : (enum_variant_ids vs).Nodup := happ.2.1
      have hdisj : ∀ n ∈ variant_field_ids v, n ∉ enum_variant_ids vs := by
        intro n hn hn2
        exact happ.2.2 hn hn2
      have hstep := variant_step_spec env enum_ty generics tcx v
        (hhit) (hwf v (List.mem_cons_self ..))
        (List.nodup_cons.mpr ⟨fun h => hvnotin (List.mem_append_left _ h), hvfi⟩)
      obtain ⟨sa, sb, sc, sd1, se⟩ := hstep
      have hhit2 : ∀ p ∈ generics.ty_params,
          (lookupA (variant_step_tcx env enum_ty generics tcx v).ty_param_defs p.id).isSome := by
        rw [sa]
        exact hhit
      obtain ⟨ih1, ih2, ih3, ih4⟩ := ih (variant_step_tcx env enum_ty generics tcx v)
        hhit2 hevi (fun w hw => hwf w (List.mem_cons_of_mem _ hw))
      have hG : hit_generics (variant_step_tcx env enum_ty generics tcx v) generics
          = hit_generics tcx generics := hit_generics_congr _ _ generics sa
      rw [get_enum_variant_types_loop_cons]
      refine ⟨?_, ?_, ?_, ?_⟩
      · intro w hw
        rcases List.mem_cons.mp hw with rfl | hw2
        · have hvid_notin : local_def w.id ∉ (enum_variant_ids vs).map local_def := by
            intro h
            obtain ⟨n, hn, he⟩ := List.mem_map.mp h
            exact hvnotin (List.mem_append_right _ ((local_def_inj he) ▸ hn))
          constructor
          · rw [ih2 (local_def w.id) hvid_notin]
            exact sb
          · intro sd hsd
            obtain ⟨sc1, sc2⟩ := sc sd hsd
            constructor
            · rw [ih3 (local_def w.id) ?_]
              · exact sc1
              · intro w2 hw2 he
                exact hvnotin (List.mem_append_right _
                  ((local_def_inj he) ▸ mem_enum_variant_ids hw2))
            · intro f hf
              have hfid : f.id ∈ variant_field_ids w := by
                unfold variant_field_ids
                rw [hsd]
                exact List.mem_map.mpr ⟨f, hf, rfl⟩
              have hfnotin : local_def f.id ∉ (enum_variant_ids vs).map local_def := by
                intro h
                obtain ⟨n, hn, he⟩ := List.mem_map.mp h
                exact hdisj f.id hfid ((local_def_inj he) ▸ hn)
              rw [ih2 (local_def f.id) hfnotin]
              exact sc2 f hf
        · have hw1 := ih1 w hw2
          rw [hG] at hw1
          exact hw1
      · intro k hk
        have hk1 : k ∉ (enum_variant_ids vs).map local_def := by
          intro h
          obtain ⟨n, hn, he⟩ := List.mem_map.mp h
          exact hk (List.mem_map.mpr
            ⟨n, List.mem_cons_of_mem _ (List.mem_append_right _ hn), he⟩)
        have hk2 : k ≠ local_def v.id := by
          intro h
          exact hk (List.mem_map.mpr ⟨v.id, List.mem_cons_self .., h.symm⟩)
        have hk3 : k ∉ (variant_field_ids v).map local_def := by
          intro h
          obtain ⟨n, hn, he⟩ := List.mem_map.mp h
          exact hk (List.mem_map.mpr
            ⟨n, List.mem_cons_of_mem _ (List.mem_append_left _ hn), he⟩)
        rw [ih2 k hk1]
        exact sd1 k hk2 hk3
      · intro k hk
        rw [ih3 k (fun w hw => hk w (List.mem_cons_of_mem _ hw))]
        exact se k (hk v (List.mem_cons_self ..))
      · rw [ih4]
        exact sa

/-- C4: for every enum whose generics are already resolved and whose
variant/field node ids are distinct and well-formed, a variant with a
non-empty tuple payload gets, cached under the variant's own id, a
constructor function type from the payload field types to the enum type; a
variant with no payload gets the enum type itself as its scheme; a
struct-like variant gets a constructor function type from its field types
to the enum type, has its field list registered under the variant's id and
each field's type cached under the field's id; every variant's scheme
shares the enum's generics. -/
theorem enum_variant_constructors (env : Env) (tcx : Tcx) (enum_ty : Ty)
    (variants : List AstVariant) (generics : AstGenerics)
    (hhit : ∀ p ∈ generics.ty_params, (lookupA tcx.ty_param_defs p.id).isSome)
    (hnodup : (enum_variant_ids variants).Nodup)
    (hwf : ∀ v ∈ variants, variant_wf v) :
    ∀ v ∈ variants,
      (∀ args, v.kind = .TupleVariantKind args → args ≠ [] →
        lookupA (get_enum_variant_types env tcx enum_ty variants generics).tcache
            (local_def v.id)
          = some ⟨hit_generics tcx generics,
              mk_ctor_fn v.id (args.map (fun va => ast_ty_to_ty env va.ty)) enum_ty⟩)
      ∧ (v.kind = .TupleVariantKind [] →
        lookupA (get_enum_variant_types env tcx enum_ty variants generics).tcache
            (local_def v.id)
          = some ⟨hit_generics tcx generics, enum_ty⟩)
      ∧ (∀ sd, v.kind = .StructVariantKind sd →
        lookupA (get_enum_variant_types env tcx enum_ty variants generics).tcache
            (local_def v.id)
          = some ⟨hit_generics tcx generics,
              mk_ctor_fn v.id (sd.fields.map (fun f => ast_ty_to_ty env f.ty)) enum_ty⟩
        ∧ lookupA (get_enum_variant_types env tcx enum_ty variants generics).struct_fields
            (local_def v.id)
          = some (sd.fields.map (field_ty_of (local_def v.id)))
        ∧ ∀ f ∈ sd.fields,
            lookupA (get_enum_variant_types env tcx enum_ty variants generics).tcache
                (local_def f.id)
              = some ⟨hit_generics tcx generics, ast_ty_to_ty env f.ty⟩) := by
  intro v hv
  unfold get_enum_variant_types
  obtain ⟨h1, _, _, _⟩ :=
    get_enum_variant_types_loop_spec env enum_ty generics variants tcx hhit hnodup hwf
  obtain ⟨ha, hb⟩ := h1 v hv
  refine ⟨?_, ?_, ?_⟩
  · intro args hargs hne
    have hres : variant_result_ty env enum_ty v
        = mk_ctor_fn v.id (args.map (fun va => ast_ty_to_ty env va.ty)) enum_ty := by
      unfold variant_result_ty
      rw [hargs]
      show (if args.length > 0 then
          mk_ctor_fn v.id (args.map (fun va => ast_ty_to_ty env va.ty)) enum_ty
        else enum_ty) = _
      rw [if_pos (List.length_pos.mpr hne)]
    rw [ha, hres]
  · intro hargs
    have hres : variant_result_ty env enum_ty v = enum_ty := by
      unfold variant_result_ty
      rw [hargs]
      rfl
    rw [ha, hres]
  · intro sd hsd
    have hres : variant_result_ty env enum_ty v
        = mk_ctor_fn v.id (sd.fields.map (fun f => ast_ty_to_ty env f.ty)) enum_ty := by
      unfold variant_result_ty
      rw [hsd]
    obtain ⟨hc1, hc2⟩ := hb sd hsd
    refine ⟨?_, hc1, hc2⟩
    rw [ha, hres]

/-- A closed environment for the enum-constructor scenario (no builtins, no
resolutions needed: all payload types are primitive). -/
def envC4 : Env := ⟨fun _ => none, fun _ => none, fun _ => none⟩

/-- The enum of the spec's scenario: variants `A(Int)`, `B`, `C{x: Int}`. -/
def variantsC4 : List AstVariant :=
  [⟨10, .TupleVariantKind [⟨.prim 0, 11⟩]⟩,
   ⟨12, .TupleVariantKind []⟩,
   ⟨13, .StructVariantKind ⟨[⟨14, .NamedField 7 .Public, .prim 0⟩], none, none, false⟩⟩]

/-- The scenario enum's (empty) surface generics. -/
def genericsC4 : AstGenerics := ⟨[], []⟩

/-- The scenario enum's nominal type. -/
def enumTyC4 : Ty := mk_struct (local_def 9) ⟨.NonerasedRegions [], .none, .nil⟩

/-- Closed witness for C4 at the spec's scenario enum `A(Int) | B | C{x: Int}`:
`A` is cached as `Int -> Enum`, `B` as the enum type itself, `C` as
`Int -> Enum` with field `x` registered under `C`'s id and its type cached. -/
theorem enum_variant_constructors_witness :
    lookupA (get_enum_variant_types envC4 emptyTcx enumTyC4 variantsC4 genericsC4).tcache
        (local_def 10)
      = some ⟨hit_generics emptyTcx genericsC4,
          mk_ctor_fn 10 [ast_ty_to_ty envC4 (.prim 0)] enumTyC4⟩
    ∧ lookupA (get_enum_variant_types envC4 emptyTcx enumTyC4 variantsC4 genericsC4).tcache
        (local_def 12)
      = some ⟨hit_generics emptyTcx genericsC4, enumTyC4⟩
    ∧ lookupA (get_enum_variant_types envC4 emptyTcx enumTyC4 variantsC4 genericsC4).tcache
        (local_def 13)
      = some ⟨hit_generics emptyTcx genericsC4,
          mk_ctor_fn 13 [ast_ty_to_ty envC4 (.prim 0)] enumTyC4⟩
    ∧ lookupA (get_enum_variant_types envC4 emptyTcx enumTyC4 variantsC4
        genericsC4).struct_fields (local_def 13)
      = some [⟨7, local_def 14, .Public, local_def 13⟩]
    ∧ lookupA (get_enum_variant_types envC4 emptyTcx enumTyC4 variantsC4 genericsC4).tcache
        (local_def 14)
      = some ⟨hit_generics emptyTcx genericsC4, ast_ty_to_ty envC4 (.prim 0)⟩ := by
  have h := enum_variant_constructors envC4 emptyTcx enumTyC4 variantsC4 genericsC4
    (by intro p hp; cases hp) (by decide)
    (by
      intro v hv
      fin_cases hv
      · trivial
      · trivial
      · exact ⟨rfl, rfl⟩)
  have hA := h ⟨10, .TupleVariantKind [⟨.prim 0, 11⟩]⟩ (by decide)
  have hB := h ⟨12, .TupleVariantKind []⟩ (by decide)
  have hC := h ⟨13, .StructVariantKind
    ⟨[⟨14, .NamedField 7 .Public, .prim 0⟩], none, none, false⟩⟩ (by decide)
  obtain ⟨hc1, hc2, hc3⟩ := hC.2.2
    ⟨[⟨14, .NamedField 7 .Public, .prim 0⟩], none, none, false⟩ rfl
  exact ⟨hA.1 [⟨.prim 0, 11⟩] rfl (by decide), hB.2.1 rfl, hc1, hc2,
    hc3 ⟨14, .NamedField 7 .Public, .prim 0⟩ (by decide)⟩

theorem TyList.getD_ofList : ∀ (l : List Ty) (i : Nat) (d : Ty),
    (TyList.ofList l).getD i d = l.getD i d
  | [], _, _ => by cases ‹Nat› <;> rfl
  | _ :: _, 0, _ => rfl
  | _ :: ts, i + 1, d => TyList.getD_ofList ts i d

theorem getD_append_lt {α : Type} : ∀ (A B : List α) (i : Nat) (d : α), i < A.length →
    (A ++ B).getD i d = A.getD i d
  | [], _, i, _, h => absurd h (by simp)
  | _ :: _, _, 0, _, _ => rfl
  | _ :: A, B, i + 1, d, h =>
      getD_append_lt A B i d (Nat.lt_of_succ_lt_succ (by simpa using h))

theorem getD_append_add {α : Type} : ∀ (A B : List α) (j : Nat) (d : α),
    (A ++ B).getD (A.length + j) d = B.getD j d
  | [], _, _, _ => by simp [List.getD]
  | a :: A, B, j, d => by
      show (a :: (A ++ B)).getD (A.length + 1 + j) d = B.getD j d
      have hidx : A.length + 1 + j = (A.length + j) + 1 := by omega
      rw [hidx]
      show (A ++ B).getD (A.length + j) d = B.getD j d
      exact getD_append_add A B j d

theorem enumFrom_map_length {α β : Type} (f : Nat × α → β) :
    ∀ (l : List α) (n : Nat), ((List.enumFrom n l).map f).length = l.length
  | [], _ => rfl
  | _ :: l, n => by
      show (((n, _) :: List.enumFrom (n + 1) l).map f).length = _
      simp only [List.map_cons, List.length_cons]
      rw [enumFrom_map_length f l (n + 1)]

theorem enumFrom_map_getD {α β : Type} (f : Nat × α → β) :
    ∀ (l : List α) (n i : Nat) (d : β) (h : i < l.length),
      ((List.enumFrom n l).map f).getD i d = f (n + i, l.get ⟨i, h⟩)
  | [], _, i, _, h => absurd h (by simp)
  | a :: l, n, 0, d, _ => by
      show f (n, a) = f (n + 0, a)
      rw [Nat.add_zero]
  | a :: l, n, i + 1, d, h => by
      show ((List.enumFrom (n + 1) l).map f).getD i d = f (n + (i + 1), _)
      rw [enumFrom_map_getD f l (n + 1) i d (Nat.lt_of_succ_lt_succ (by simpa using h))]
      have hidx : n + 1 + i = n + (i + 1) := by omega
      rw [hidx]
      rfl

theorem mem_enumFrom_own {α : Type} : ∀ (l : List α) (n : Nat) (p : Nat × α),
    p ∈ List.enumFrom n l →
    ∃ j, ∃ h : j < l.length, p.1 = n + j ∧ l.get ⟨j, h⟩ = p.2
  | [], _, _, h => absurd h (by simp)
  | a :: l, n, p, h => by
      rcases List.mem_cons.mp h with rfl | h2
      · exact ⟨0, by simp, by simp, rfl⟩
      · obtain ⟨j, hj, hp1, hp2⟩ := mem_enumFrom_own l (n + 1) p h2
        exact ⟨j + 1, by simpa using Nat.succ_lt_succ hj, by omega, hp2⟩

theorem subst_ty_list_ofList (s : substs) : ∀ (l : List Ty),
    subst_ty_list s (TyList.ofList l) = TyList.ofList (l.map (subst_ty s))
  | [] => rfl
  | t :: ts => by
      show TyList.cons (subst_ty s t) (subst_ty_list s (TyList.ofList ts)) = _
      rw [subst_ty_list_ofList s ts]
      rfl

theorem getD_map_own {α β : Type} (f : α → β) : ∀ (l : List α) (i : Nat) (d : β) (d2 : α),
    i < l.length → (l.map f).getD i d = f (l.getD i d2)
  | [], i, _, _, h => absurd h (by simp)
  | _ :: _, 0, _, _, _ => rfl
  | _ :: l, i + 1, d, d2, h =>
      getD_map_own f l i d d2 (Nat.lt_of_succ_lt_succ (by simpa using h))

/-- The shifting substitution leaves a trait parameter's index unchanged
(it maps index `i < k` to the trait's own `i`-th parameter). -/
theorem enum_eq_enumFrom {α : Type} (l : List α) : l.enum = List.enumFrom 0 l := rfl

theorem static_method_substs_trait_param (g : Generics) (m : Method) (i : Nat) (d : DefId)
    (h : i < g.type_param_defs.length) :
    subst_ty (static_method_substs g m) (mk_param i d)
      = mk_param i (g.type_param_defs.get ⟨i, h⟩).def_id := by
  show (static_method_substs g m).tps.getD i Ty.ty_err = _
  unfold static_method_substs
  simp only
  rw [TyList.getD_ofList, enum_eq_enumFrom g.type_param_defs]
  rw [getD_append_lt _ _ _ _ (by rw [enumFrom_map_length]; exact h)]
  rw [enumFrom_map_getD _ _ 0 i Ty.ty_err h, Nat.zero_add]

/-- The shifting substitution maps `Self` to the fresh parameter at
index `k`. -/
theorem static_method_substs_self_param (g : Generics) (m : Method) (d : DefId) :
    subst_ty (static_method_substs g m) (mk_self d)
      = mk_param g.type_param_defs.length dummy_defid := rfl

/-- The shifting substitution maps the method's `i`-th own parameter (old
index `k + i`) to index `k + 1 + i`, keeping its def-id. -/
theorem static_method_substs_method_param (g : Generics) (m : Method) (i : Nat) (d : DefId)
    (h : i < m.generics.type_param_defs.length) :
    subst_ty (static_method_substs g m)
        (mk_param (g.type_param_defs.length + i) d)
      = mk_param (i + g.type_param_defs.length + 1)
          (m.generics.type_param_defs.get ⟨i, h⟩).def_id := by
  show (static_method_substs g m).tps.getD (g.type_param_defs.length + i) Ty.ty_err = _
  unfold static_method_substs
  simp only
  rw [TyList.getD_ofList, enum_eq_enumFrom g.type_param_defs,
    enum_eq_enumFrom m.generics.type_param_defs]
  have hlen : ((List.enumFrom 0 g.type_param_defs).map
      (fun p => mk_param p.1 p.2.def_id)).length = g.type_param_defs.length :=
    enumFrom_map_length _ _ _
  rw [← hlen, getD_append_add, enumFrom_map_getD _ _ 0 i Ty.ty_err h, Nat.zero_add]

theorem map_id_own {α : Type} (f : α → α) : ∀ (l : List α), (∀ a ∈ l, f a = a) → l.map f = l
  | [], _ => rfl
  | a :: l, h => by
      rw [List.map_cons, h a (List.mem_cons_self ..),
        map_id_own f l (fun b hb => h b (List.mem_cons_of_mem _ hb))]

/-- The shifting substitution fixes the identity instantiation of the
trait's own type parameters pointwise. -/
theorem map_subst_trait_tps (g : Generics) (m : Method) :
    (g.type_param_defs.enum.map (fun p => mk_param p.1 p.2.def_id)).map
        (subst_ty (static_method_substs g m))
      = g.type_param_defs.enum.map (fun p => mk_param p.1 p.2.def_id) := by
  apply map_id_own
  intro a ha
  obtain ⟨p, hp, rfl⟩ := List.mem_map.mp ha
  rw [enum_eq_enumFrom] at hp
  obtain ⟨j, hj, hp1, hp2⟩ := mem_enumFrom_own _ 0 p hp
  show subst_ty (static_method_substs g m) (mk_param p.1 p.2.def_id) = mk_param p.1 p.2.def_id
  rw [hp1, Nat.zero_add, ← hp2]
  exact static_method_substs_trait_param g m j _ hj

/-- The shifting substitution fixes the identity instantiation of the
trait's early-bound regions pointwise. -/
theorem map_subst_trait_rps (g : Generics) (m : Method) :
    (g.region_param_defs.enum.map
        (fun p => Region.ReEarlyBound p.2.def_id.node p.1 p.2.name)).map
        (subst_region (static_method_substs g m))
      = g.region_param_defs.enum.map
          (fun p => Region.ReEarlyBound p.2.def_id.node p.1 p.2.name) := by
  apply map_id_own
  intro a ha
  obtain ⟨p, hp, rfl⟩ := List.mem_map.mp ha
  rw [enum_eq_enumFrom] at hp
  obtain ⟨j, hj, hp1, hp2⟩ := mem_enumFrom_own _ 0 p hp
  show subst_region (static_method_substs g m)
      (.ReEarlyBound p.2.def_id.node p.1 p.2.name)
    = .ReEarlyBound p.2.def_id.node p.1 p.2.name
  show (g.region_param_defs.enum.map
      (fun q => Region.ReEarlyBound q.2.def_id.node q.1 q.2.name)).getD p.1
      (.ReEarlyBound p.2.def_id.node p.1 p.2.name)
    = .ReEarlyBound p.2.def_id.node p.1 p.2.name
  rw [enum_eq_enumFrom, hp1, Nat.zero_add,
    enumFrom_map_getD _ _ 0 j _ hj, Nat.zero_add, hp2]

/-- The synthetic `Self` parameter's bound, computed by substituting the
trait's identity trait reference: the trait instantiated with the
unshifted parameters `0..k` as its own arguments and the fresh parameter
at index `k` as `Self`. -/
theorem static_method_self_bound (g : Generics) (m : Method) (trait_id : Nat) :
    subst_trait_ref (static_method_substs g m)
        ⟨local_def trait_id, mk_item_substs g (.some (mk_self (local_def trait_id)))⟩
      = ⟨local_def trait_id,
         ⟨.NonerasedRegions (g.region_param_defs.enum.map
              (fun p => Region.ReEarlyBound p.2.def_id.node p.1 p.2.name)),
          .some (mk_param g.type_param_defs.length dummy_defid),
          TyList.ofList (g.type_param_defs.enum.map (fun p => mk_param p.1 p.2.def_id))⟩⟩ := by
  unfold subst_trait_ref subst_substs mk_item_substs
  simp only
  have hr : subst_region_substs (static_method_substs g m)
      (.NonerasedRegions (g.region_param_defs.enum.map
        (fun p => Region.ReEarlyBound p.2.def_id.node p.1 p.2.name)))
    = .NonerasedRegions (g.region_param_defs.enum.map
        (fun p => Region.ReEarlyBound p.2.def_id.node p.1 p.2.name)) := by
    show RegionSubsts.NonerasedRegions
        ((g.region_param_defs.enum.map
          (fun p => Region.ReEarlyBound p.2.def_id.node p.1 p.2.name)).map
          (subst_region (static_method_substs g m)))
      = _
    rw [map_subst_trait_rps]
  have hs : subst_opt_ty (static_method_substs g m)
      (.some (mk_self (local_def trait_id)))
    = .some (mk_param g.type_param_defs.length dummy_defid) := by
    show OptTy.some (subst_ty (static_method_substs g m) (mk_self (local_def trait_id))) = _
    rw [static_method_substs_self_param]
  have ht : subst_ty_list (static_method_substs g m)
      (TyList.ofList (g.type_param_defs.enum.map (fun p => mk_param p.1 p.2.def_id)))
    = TyList.ofList (g.type_param_defs.enum.map (fun p => mk_param p.1 p.2.def_id)) := by
    rw [subst_ty_list_ofList, map_subst_trait_tps]
  rw [hr, hs, ht]

theorem getD_append_len {α : Type} (A B : List α) (d : α) :
    (A ++ B).getD A.length d = B.getD 0 d := by
  have h := getD_append_add A B 0 d
  simpa using h

/-- A provided static trait method (no own parameters) for the overwrite
scenario. -/
def pmC2 : AstMethod := ⟨30, 2, ⟨[], []⟩, .SelfStatic, ⟨[], .prim 0⟩, .Inherited⟩

/-- The scenario trait's surface generics: one type parameter. -/
def genTC2 : AstGenerics := ⟨[], [⟨50, 5, [], none⟩]⟩

/-- The scenario trait item: `trait T<A> { static fn f(); }`. -/
def itemC2 : AstItem := ⟨1, 40, .Public, .ItemTrait genTC2 [] [.Provided pmC2]⟩

/-- Environment holding the scenario trait in the AST map. -/
def envC2 : Env := ⟨fun _ => none, fun _ => none, fun n => if n = 1 then some itemC2 else none⟩

/-- The state of the `convert` pipeline on the scenario trait right after
the uniform method processing stage (`convert_methods` on the provided
methods), before `ensure_trait_methods` runs — exactly the intermediate
state of the `ItemTrait` arm of `convert`. -/
def naiveStageC2 : Tcx :=
  let r := trait_def_of_item envC2 emptyTcx itemC2
  convert_methods envC2 r.1 (.TraitContainer (local_def 1))
    (split_trait_methods_provided [.Provided pmC2]) (mk_self (local_def 1))
    ((r.2.map TraitDef.generics).getD ⟨[], []⟩) genTC2 .Public

/-- C2: for a trait with `k` type parameters and a static method with `mm`
own type parameters, the synthesized static function scheme cached under
the method's id has exactly `k + 1 + mm` type parameters: positions
`0..k` hold the trait's parameters with substituted bounds, position `k`
holds the synthetic `Self` parameter bounded by exactly the substituted
enclosing trait reference — for the identity reference recorded by
`trait_def_of_item` this is the trait instantiated with the unshifted
parameters `0..k` and the fresh parameter `k` as `Self` — and positions
`k+1..k+1+mm` hold the method's own parameters with substituted bounds;
the shifting substitution keeps trait parameter indices `0..k` fixed, maps
`Self` to index `k` and method parameter `k+i` to `k+1+i`; the scheme's
type is the substituted signature.  The two closed conjuncts run the
conversion pipeline on a concrete trait `T<A>` with a provided static
method: uniform method processing caches a 1-parameter scheme under the
method's id, which the final pipeline state overwrites with the 2-parameter
static scheme. -/
theorem static_method_shift (tcx : Tcx) (trait_id : Nat) (m : Method) (g : Generics)
    (td : TraitDef)
    (htd : lookupA tcx.trait_defs (local_def trait_id) = some td) :
    ∃ scheme : ty_param_bounds_and_ty,
      lookupA (make_static_method_ty tcx trait_id m g).tcache m.def_id = some scheme
      ∧ scheme.generics.type_param_defs.length
          = g.type_param_defs.length + 1 + m.generics.type_param_defs.length
      ∧ scheme.ty = subst_ty (static_method_substs g m) (mk_bare_fn m.fty)
      ∧ (∀ i, i < g.type_param_defs.length →
          scheme.generics.type_param_defs.getD i dummyTPD
            = subst_type_param_def (static_method_substs g m)
                (g.type_param_defs.getD i dummyTPD))
      ∧ scheme.generics.type_param_defs.getD g.type_param_defs.length dummyTPD
          = ⟨self_ident, dummy_defid,
             ⟨EmptyBuiltinBounds,
              [subst_trait_ref (static_method_substs g m) td.trait_ref]⟩, .none⟩
      ∧ (∀ i, i < m.generics.type_param_defs.length →
          scheme.generics.type_param_defs.getD
              (g.type_param_defs.length + 1 + i) dummyTPD
            = subst_type_param_def (static_method_substs g m)
                (m.generics.type_param_defs.getD i dummyTPD))
      ∧ scheme.generics.region_param_defs = g.region_param_defs
      ∧ (∀ i d (h : i < g.type_param_defs.length),
          subst_ty (static_method_substs g m) (mk_param i d)
            = mk_param i (g.type_param_defs.get ⟨i, h⟩).def_id)
      ∧ (∀ d, subst_ty (static_method_substs g m) (mk_self d)
            = mk_param g.type_param_defs.length dummy_defid)
      ∧ (∀ i d (h : i < m.generics.type_param_defs.length),
          subst_ty (static_method_substs g m)
              (mk_param (g.type_param_defs.length + i) d)
            = mk_param (i + g.type_param_defs.length + 1)
                (m.generics.type_param_defs.get ⟨i, h⟩).def_id)
      ∧ (td.trait_ref
            = ⟨local_def trait_id,
               mk_item_substs g (.some (mk_self (local_def trait_id)))⟩ →
          subst_trait_ref (static_method_substs g m) td.trait_ref
            = ⟨local_def trait_id,
               ⟨.NonerasedRegions (g.region_param_defs.enum.map
                    (fun p => Region.ReEarlyBound p.2.def_id.node p.1 p.2.name)),
                .some (mk_param g.type_param_defs.length dummy_defid),
                TyList.ofList (g.type_param_defs.enum.map
                  (fun p => mk_param p.1 p.2.def_id))⟩⟩)
      ∧ (lookupA naiveStageC2.tcache (local_def 2)).map
            (fun t => t.generics.type_param_defs.length) = some 1
      ∧ (lookupA (convert envC2 emptyTcx itemC2).tcache (local_def 2)).map
            (fun t => t.generics.type_param_defs.length) = some 2 := by
  have hmk : make_static_method_ty tcx trait_id m g
      = { tcx with tcache := insertA tcx.tcache m.def_id (⟨⟨subst_type_param_defs (static_method_substs g m) g.type_param_defs ++ [⟨self_ident, dummy_defid, ⟨EmptyBuiltinBounds, [subst_trait_ref (static_method_substs g m) td.trait_ref]⟩, .none⟩] ++ subst_type_param_defs (static_method_substs g m) m.generics.type_param_defs, g.region_param_defs⟩, subst_ty (static_method_substs g m) (mk_bare_fn m.fty)⟩ : ty_param_bounds_and_ty) } := by
    unfold make_static_method_ty
    rw [htd]
  have hA : (subst_type_param_defs (static_method_substs g m)
      g.type_param_defs).length = g.type_param_defs.length := by
    unfold subst_type_param_defs
    exact List.length_map _ _
  rw [hmk]
  refine ⟨_, lookupA_insertA_self _ _ _, ?_, rfl, ?_, ?_, ?_, rfl,
    (fun i d h => static_method_substs_trait_param g m i d h),
    (fun d => static_method_substs_self_param g m d),
    (fun i d h => static_method_substs_method_param g m i d h),
    ?_, by decide, by decide⟩
  · show ((subst_type_param_defs (static_method_substs g m) g.type_param_defs
        ++ _) ++ subst_type_param_defs (static_method_substs g m)
          m.generics.type_param_defs).length = _
    rw [List.length_append, List.length_append, hA]
    show g.type_param_defs.length + 1
        + (subst_type_param_defs (static_method_substs g m)
            m.generics.type_param_defs).length = _
    unfold subst_type_param_defs
    rw [List.length_map]
  · intro i hi
    show ((subst_type_param_defs (static_method_substs g m) g.type_param_defs
        ++ _) ++ _).getD i dummyTPD = _
    rw [getD_append_lt _ _ _ _ (by rw [List.length_append, hA]; omega),
      getD_append_lt _ _ _ _ (by rw [hA]; omega)]
    unfold subst_type_param_defs
    exact getD_map_own _ _ _ _ dummyTPD hi
  · rw [List.append_assoc, ← hA, getD_append_len]
    rfl
  · intro i hi
    rw [List.append_assoc]
    have hidx : g.type_param_defs.length + 1 + i
        = (subst_type_param_defs (static_method_substs g m)
            g.type_param_defs).length + (1 + i) := by
      rw [hA]; omega
    rw [hidx, getD_append_add]
    have hidx2 : 1 + i = i + 1 := by omega
    rw [hidx2]
    show (subst_type_param_defs (static_method_substs g m)
        m.generics.type_param_defs).getD i dummyTPD = _
    unfold subst_type_param_defs
    exact getD_map_own _ _ _ _ dummyTPD hi
  · intro htr
    rw [htr]
    exact static_method_self_bound g m trait_id

/-- A concrete trait generics (one parameter) for the static-method
witness. -/
def gW : Generics := ⟨[⟨50, local_def 5, ⟨EmptyBuiltinBounds, []⟩, .none⟩], []⟩

/-- A concrete static method with one own type parameter. -/
def mW : Method := ⟨30, ⟨[⟨60, local_def 6, ⟨EmptyBuiltinBounds, []⟩, .none⟩], []⟩,
  ⟨2, .nil, .prim 0⟩, .SelfStatic, .Public, local_def 2, .TraitContainer (local_def 1), none⟩

/-- The witness trait definition with the identity trait reference. -/
def tdW : TraitDef := ⟨gW, EmptyBuiltinBounds,
  ⟨local_def 1, mk_item_substs gW (.some (mk_self (local_def 1)))⟩⟩

/-- A state holding the witness trait definition. -/
def tcxW : Tcx := { emptyTcx with trait_defs := insertA emptyTcx.trait_defs (local_def 1) tdW }

/-- Closed witness for C2 at a trait with `k = 1` and a static method with
`mm = 1`: the cached static scheme has `1 + 1 + 1 = 3` type parameters,
`Self` maps to index 1, the method's own parameter shifts from index 1 to
index 2, and the trait's parameter keeps index 0. -/
theorem static_method_shift_witness :
    (lookupA (make_static_method_ty tcxW 1 mW gW).tcache (local_def 2)).map
        (fun t => t.generics.type_param_defs.length) = some 3
    ∧ subst_ty (static_method_substs gW mW) (mk_self (local_def 1))
        = mk_param 1 dummy_defid
    ∧ subst_ty (static_method_substs gW mW) (mk_param 1 (local_def 6))
        = mk_param 2 (local_def 6)
    ∧ subst_ty (static_method_substs gW mW) (mk_param 0 (local_def 5))
        = mk_param 0 (local_def 5) := by
  obtain ⟨scheme, h1, h2, h3, h4, h5, h6, h7, h8, h9, h10, h11, h12, h13⟩ :=
    static_method_shift tcxW 1 mW gW tdW (by decide)
  refine ⟨?_, h9 (local_def 1), h10 0 (local_def 6) (by decide),
    h8 0 (local_def 5) (by decide)⟩
  have h1b : lookupA (make_static_method_ty tcxW 1 mW gW).tcache (local_def 2)
      = some scheme := h1
  rw [h1b]
  show some scheme.generics.type_param_defs.length = some 3
  rw [h2]
  rfl
